import Mathlib

/-!
# GTpo topology engine and structural serializer (QuickQanava)

Shallow embedding of `GTpo/src/gtpoGraph.h` and `GTpo/src/gtpoProtoSerializer.hpp`, and of
the model composer watcher of `QuickContainers/src/qcmContainerModelComposerWatcher.h`.

Objects are identified by their address.  A weak reference is an optional address;
it is locked against the storage of the graph, which is the sole owner of its
primitives.  A C++ `double` is carried as its 64-bit pattern: the code only copies
doubles, it never computes with them.  `int` counters are unbounded integers
(signed overflow is undefined behaviour and needs more than `2^31 - 1` live primitives).
-/

namespace gtpo

/-- Address of an object, the value `get()` returns for a non-null shared pointer. -/
abbrev Addr := Nat

/-- Embeds `std::weak_ptr<Config::Node>`: `none` is an empty or expired reference. -/
abbrev WeakNode := Option Addr

/-- Embeds `std::weak_ptr<Config::Edge>`: `none` is an empty or expired reference. -/
abbrev WeakEdge := Option Addr

/-- Embeds `std::weak_ptr<Config::Group>`: `none` is an empty or expired reference. -/
abbrev WeakGroup := Option Addr

/-- Bit pattern of a C++ `double`. -/
abbrev Double := Nat

/-- Exceptions raised by the engine and by the standard containers it uses. -/
inductive Exception where
  | bad_topology_error
  | out_of_range
  | bad_weak_ptr
  deriving DecidableEq, Repr

/-- Configuration of a graph (`GraphConfig` together with a `PropertiesAccessors` policy):
the base classes of the three primitives, their default-constructed value, and the static
property accessors the graph and the serializer route every get/set call through. -/
structure Config where
  NodeBase : Type
  EdgeBase : Type
  GroupBase : Type
  nodeBase : NodeBase
  edgeBase : EdgeBase
  groupBase : GroupBase
  getNodeLabel : NodeBase → String
  setNodeLabel : NodeBase → String → NodeBase
  getNodeX : NodeBase → Double
  setNodeX : NodeBase → Double → NodeBase
  getNodeY : NodeBase → Double
  setNodeY : NodeBase → Double → NodeBase
  getNodeWidth : NodeBase → Double
  setNodeWidth : NodeBase → Double → NodeBase
  getNodeHeight : NodeBase → Double
  setNodeHeight : NodeBase → Double → NodeBase
  getEdgeWeight : EdgeBase → Double
  setEdgeWeight : EdgeBase → Double → EdgeBase
  getGroupLabel : GroupBase → String
  setGroupLabel : GroupBase → String → GroupBase
  getGroupX : GroupBase → Double
  setGroupX : GroupBase → Double → GroupBase
  getGroupY : GroupBase → Double
  setGroupY : GroupBase → Double → GroupBase
  getGroupWidth : GroupBase → Double
  setGroupWidth : GroupBase → Double → GroupBase
  getGroupHeight : GroupBase → Double
  setGroupHeight : GroupBase → Double → GroupBase

/-- Directed edge (`GenEdge`): source and destination weak references and a class name. -/
structure GenEdge (C : Config) where
  addr : Addr
  className : String
  base : C.EdgeBase
  src : WeakNode
  dst : WeakNode

/-- Node (`GenNode`): serializable flag (default `true`), in/out edge and node lists, group. -/
structure GenNode (C : Config) where
  addr : Addr
  className : String
  base : C.NodeBase
  serializable : Bool
  inEdges : List Addr
  outEdges : List Addr
  inNodes : List Addr
  outNodes : List Addr
  group : WeakGroup

/-- Group of nodes (`GenGroup`): member nodes, internal edges and adjacent edges. -/
structure GenGroup (C : Config) where
  addr : Addr
  className : String
  base : C.GroupBase
  nodes : List Addr
  edges : List Addr
  adjacentEdges : List Addr

/-- Graph (`GenGraph`): the owning containers `_nodes`, `_edges`, `_groups`, the root node
cache `_rootNodes`, the search index `_nodesSearch`, and the behaviours registered at run time
through the `Behaviourable` base (the static behaviours of the configuration are part of the
operations below). -/
structure GenGraph (C : Config) where
  nodes : List (GenNode C)
  rootNodes : List Addr
  nodesSearch : List Addr
  edges : List (GenEdge C)
  groups : List (GenGroup C)
  behaviours : List String

variable {C : Config}

/-- Default constructed graph: `GenGraph()`. -/
def GenGraph.empty : GenGraph C :=
  { nodes := [], rootNodes := [], nodesSearch := [], edges := [], groups := [], behaviours := [] }

/-- A node as `GenNode()` constructs it (class name "gtpo::Node", serializable, no edge). -/
def GenNode.new (a : Addr) : GenNode C :=
  { addr := a, className := "gtpo::Node", base := C.nodeBase, serializable := true,
    inEdges := [], outEdges := [], inNodes := [], outNodes := [], group := none }

/-- An edge as `GenEdge( src, dst )` constructs it (class name "gtpo::Edge"). -/
def GenEdge.new (a : Addr) (src dst : WeakNode) : GenEdge C :=
  { addr := a, className := "gtpo::Edge", base := C.edgeBase, src := src, dst := dst }

/-- A group as `GenGroup()` constructs it (class name "gtpo::Group", no member). -/
def GenGroup.new (a : Addr) : GenGroup C :=
  { addr := a, className := "gtpo::Group", base := C.groupBase, nodes := [], edges := [],
    adjacentEdges := [] }

/-- Embeds `GenNode::getInDegree`: size of the in edge container. -/
def GenNode.getInDegree (n : GenNode C) : Nat := n.inEdges.length

/-- Embeds `GenNode::getOutDegree`: size of the out edge container. -/
def GenNode.getOutDegree (n : GenNode C) : Nat := n.outEdges.length

/-- Embeds `GenNode::isSerializable`. -/
def GenNode.isSerializable (n : GenNode C) : Bool := n.serializable

/-- Embeds `GenNode::setSerializable`. -/
def GenNode.setSerializable (n : GenNode C) (s : Bool) : GenNode C := { n with serializable := s }

/-- Embeds `StdContainerAccessors::insert<std::vector<T>>::into`: `emplace_back`. -/
def insertInto {α : Type} (c : List α) (t : α) : List α := c ++ [t]

/-- Embeds `StdContainerAccessors::remove<std::vector<...>>::from`: the erase-remove idiom, which
deletes every element equal to `t`. -/
def removeFrom {α : Type} [DecidableEq α] (c : List α) (t : α) : List α :=
  c.filter (fun x => decide (x ≠ t))

/-- Embeds `StdContainerAccessors::insert<std::unordered_set<T>>::into`: no effect when present. -/
def insertIntoSet {α : Type} [DecidableEq α] (c : List α) (t : α) : List α :=
  if t ∈ c then c else c ++ [t]

/-- Embeds `GenGraph::getNodeCount`. -/
def GenGraph.getNodeCount (g : GenGraph C) : Nat := g.nodes.length

/-- Embeds `GenGraph::getRootNodeCount`. -/
def GenGraph.getRootNodeCount (g : GenGraph C) : Nat := g.rootNodes.length

/-- Embeds `GenGraph::getEdgeCount()`. -/
def GenGraph.getEdgeCount (g : GenGraph C) : Nat := g.edges.length

/-- Embeds `GenGraph::getGroupCount`. -/
def GenGraph.getGroupCount (g : GenGraph C) : Nat := g.groups.length

/-- Locking a weak node reference: the node object owned by the graph at that address. -/
def GenGraph.lockNode (g : GenGraph C) (w : WeakNode) : Option (GenNode C) :=
  match w with
  | none => none
  | some a => g.nodes.find? (fun n => decide (n.addr = a))

/-- Locking a weak edge reference. -/
def GenGraph.lockEdge (g : GenGraph C) (w : WeakEdge) : Option (GenEdge C) :=
  match w with
  | none => none
  | some a => g.edges.find? (fun e => decide (e.addr = a))

/-- Locking a weak group reference. -/
def GenGraph.lockGroup (g : GenGraph C) (w : WeakGroup) : Option (GenGroup C) :=
  match w with
  | none => none
  | some a => g.groups.find? (fun x => decide (x.addr = a))

/-- Every address the graph state mentions: the primitives it owns and the targets of the
weak references it holds. -/
def GenGraph.refs (g : GenGraph C) : List Addr :=
  g.nodes.map (fun n => n.addr) ++ (g.edges.map (fun e => e.addr) ++
    (g.groups.map (fun x => x.addr) ++ (g.rootNodes ++ (g.nodesSearch ++
    ((g.nodes.map (fun n => n.inEdges ++ n.outEdges ++ n.inNodes ++ n.outNodes ++
        n.group.toList)).flatten ++
    ((g.edges.map (fun e => e.src.toList ++ e.dst.toList)).flatten ++
    (g.groups.map (fun x => x.nodes ++ x.edges ++ x.adjacentEdges)).flatten))))))

/-- Address `std::make_shared` hands out for a new primitive: no live primitive of the graph
occupies it and no weak reference held by the graph designates it (a reference to a destroyed
object never compares equal to a reference to a new one). -/
def GenGraph.fresh (g : GenGraph C) : Addr := g.refs.foldr max 0 + 1

/-- Apply `f` to the node object at address `a`. -/
def GenGraph.updateNode (g : GenGraph C) (a : Addr) (f : GenNode C → GenNode C) : GenGraph C :=
  { g with nodes := g.nodes.map (fun n => if n.addr = a then f n else n) }

/-- Apply `f` to the group object at address `a`. -/
def GenGraph.updateGroup (g : GenGraph C) (a : Addr) (f : GenGroup C → GenGroup C) : GenGraph C :=
  { g with groups := g.groups.map (fun x => if x.addr = a then f x else x) }

/-- Embeds `GenGraph::containsNode`: membership test in the search container `_nodesSearch`. -/
def GenGraph.containsNode (g : GenGraph C) (w : WeakNode) : Bool :=
  match w with
  | none => false
  | some a => decide (a ∈ g.nodesSearch)

/-- Embeds `GenGraph::hasGroup`. -/
def GenGraph.hasGroup (g : GenGraph C) (w : WeakGroup) : Bool :=
  match w with
  | none => false
  | some a => decide (a ∈ g.groups.map (fun x => x.addr))

/-- The node a weak reference designates when that node is a member of the graph. -/
def GenGraph.memberNode (g : GenGraph C) (w : WeakNode) : Option (GenNode C) :=
  if g.containsNode w then g.lockNode w else none

/-- Modelled from the spec: `GenNode::addOutEdge` of the absent `gtpoNode.hpp`, "register an
edge as incident"; the graph passes edges whose source already is this node. -/
def GenNode.addOutEdge (n : GenNode C) (e : Addr) (dst : Addr) : GenNode C :=
  { n with outEdges := insertInto n.outEdges e, outNodes := insertInto n.outNodes dst }

/-- Modelled from the spec: `GenNode::addInEdge` of the absent `gtpoNode.hpp`, "register an
edge as incident"; the graph passes edges whose destination already is this node. -/
def GenNode.addInEdge (n : GenNode C) (e : Addr) (src : Addr) : GenNode C :=
  { n with inEdges := insertInto n.inEdges e, inNodes := insertInto n.inNodes src }

/-- Modelled from the spec: `GenNode::removeOutEdge` of the absent `gtpoNode.hpp`,
"deregister", for an edge the caller has checked to be registered. -/
def GenNode.removeOutEdge (n : GenNode C) (e : Addr) (dst : WeakNode) : GenNode C :=
  { n with outEdges := removeFrom n.outEdges e,
           outNodes := match dst with
             | some d => n.outNodes.erase d
             | none => n.outNodes }

/-- Modelled from the spec: `GenNode::removeInEdge` of the absent `gtpoNode.hpp`,
"deregister", for an edge the caller has checked to be registered. -/
def GenNode.removeInEdge (n : GenNode C) (e : Addr) (src : WeakNode) : GenNode C :=
  { n with inEdges := removeFrom n.inEdges e,
           inNodes := match src with
             | some s => n.inNodes.erase s
             | none => n.inNodes }

/-- Embeds `GenGroup::hasNode`. -/
def GenGroup.hasNode (x : GenGroup C) (w : WeakNode) : Bool :=
  match w with
  | none => false
  | some a => decide (a ∈ x.nodes)

/-- Modelled from the spec: the adjacent edge behaviours of the absent `gtpoBehaviour.h`,
"move each [edge] between the group's internal-edge set and adjacent-edge set based on whether
both endpoints are now members": both endpoints members gives an internal edge, exactly one an
adjacent edge, none an edge of neither set. -/
def GenGroup.reevaluate (x : GenGroup C) (e : GenEdge C) : GenGroup C :=
  if x.hasNode e.src && x.hasNode e.dst then
    { x with edges := insertIntoSet x.edges e.addr,
             adjacentEdges := removeFrom x.adjacentEdges e.addr }
  else if x.hasNode e.src || x.hasNode e.dst then
    { x with edges := removeFrom x.edges e.addr,
             adjacentEdges := insertIntoSet x.adjacentEdges e.addr }
  else
    { x with edges := removeFrom x.edges e.addr,
             adjacentEdges := removeFrom x.adjacentEdges e.addr }

/-- Modelled from the spec: `GraphGroupAjacentEdgesBehaviour` (absent `gtpoBehaviour.h`) on
"edge inserted": every group re-evaluates the new edge. -/
def GenGraph.notifyEdgeInserted (g : GenGraph C) (e : GenEdge C) : GenGraph C :=
  { g with groups := g.groups.map (fun x => x.reevaluate e) }

/-- Modelled from the spec: `GraphGroupAjacentEdgesBehaviour` (absent `gtpoBehaviour.h`) on
"edge removed": the edge leaves both edge sets of every group. -/
def GenGraph.notifyEdgeRemoved (g : GenGraph C) (e : Addr) : GenGraph C :=
  { g with groups := g.groups.map (fun x =>
      { x with edges := removeFrom x.edges e, adjacentEdges := removeFrom x.adjacentEdges e }) }

/-- Modelled from the spec: `GroupAdjacentEdgesBehaviour` (absent `gtpoBehaviour.h`), "on node
insertion/removal, re-evaluate that node's incident edges" for the group at address `a`. -/
def GenGraph.notifyGroupNode (g : GenGraph C) (a : Addr) (na : Addr) : GenGraph C :=
  match g.lockNode (some na) with
  | none => g
  | some n =>
    g.updateGroup a (fun x =>
      ((n.inEdges ++ n.outEdges).filterMap (fun ea => g.lockEdge (some ea))).foldl
        (fun y e => y.reevaluate e) x)

/-- Modelled from the spec: `GenGraph::insertNode` of the absent `gtpoGraph.hpp`, "adopts
externally constructed node into graph ownership; same post-conditions as createNode": the
node joins `_nodes` and `_nodesSearch` and is seeded in the root cache.  A null node and a
node the graph already holds ("duplicate insertion") are refused with a topology error; the
node is adopted as it arrives, its edge lists and group reference are not inspected. -/
def GenGraph.insertNode (g : GenGraph C) (node : Option (GenNode C)) :
    GenGraph C × Except Exception WeakNode :=
  match node with
  | none => (g, .error .bad_topology_error)
  | some n =>
    if g.containsNode (some n.addr) = true then (g, .error .bad_topology_error)
    else
      ({ g with nodes := insertInto g.nodes n,
                nodesSearch := insertIntoSet g.nodesSearch n.addr,
                rootNodes := insertInto g.rootNodes n.addr }, .ok (some n.addr))

/-- Modelled from the spec: `GenGraph::createNode()` of the absent `gtpoGraph.hpp`,
"constructs, inserts into `_nodes`/`_nodesSearch`, seeds root cache". -/
def GenGraph.createNode (g : GenGraph C) : GenGraph C × Except Exception WeakNode :=
  g.insertNode (some (GenNode.new g.fresh))

/-- Modelled from the spec: `GenGraph::createNode( className )` of the absent `gtpoGraph.hpp`;
the header says "Default implementation only create node and edges corresponding to
gtpo::GenNode::getClassName()", any other class name gives an empty reference. -/
def GenGraph.createNodeOfClass (g : GenGraph C) (nodeClassName : String) :
    GenGraph C × Except Exception WeakNode :=
  if nodeClassName = "gtpo::Node" then g.createNode else (g, .ok none)

/-- Modelled from the spec: `GenGraph::installRootNode` of the absent `gtpoGraph.hpp`, "manual
cache insertion; fails with a topology error unless the node's in-degree is actually 0". -/
def GenGraph.installRootNode (g : GenGraph C) (node : WeakNode) :
    GenGraph C × Except Exception Unit :=
  match g.lockNode node with
  | none => (g, .error .bad_topology_error)
  | some n =>
    if n.getInDegree = 0 then ({ g with rootNodes := insertInto g.rootNodes n.addr }, .ok ())
    else (g, .error .bad_topology_error)

/-- Modelled from the spec: `GenGraph::isRootNode` of the absent `gtpoGraph.hpp`, "returns
cache membership but additionally cross-checks in-degree==0, failing with a topology error on
mismatch". -/
def GenGraph.isRootNode (g : GenGraph C) (node : WeakNode) : Except Exception Bool :=
  match g.lockNode node with
  | none => .error .bad_topology_error
  | some n =>
    if decide (n.addr ∈ g.rootNodes) = decide (n.getInDegree = 0) then
      .ok (decide (n.addr ∈ g.rootNodes))
    else .error .bad_topology_error

/-- Modelled from the spec: the part of `createEdge`/`insertEdge` (absent `gtpoGraph.hpp`)
that wires an edge between two member nodes: "append edge to graph edge store, register with
`dst.addInEdge` and `src.addOutEdge`; if `dst`'s in-degree transitions 0→1, remove it from the
root cache", then the "edge inserted" notification. -/
def GenGraph.attachEdge (g : GenGraph C) (e : GenEdge C) (s d : GenNode C) : GenGraph C :=
  let g1 := g.updateNode s.addr (fun n => n.addOutEdge e.addr d.addr)
  let g2 := g1.updateNode d.addr (fun n => n.addInEdge e.addr s.addr)
  GenGraph.notifyEdgeInserted
    { g2 with edges := insertInto g.edges e,
              rootNodes := if d.getInDegree = 0 then removeFrom g.rootNodes d.addr
                           else g.rootNodes } e

/-- Modelled from the spec: `GenGraph::createEdge( source, destination )` of the absent
`gtpoGraph.hpp`, "fails with a topology error if source or destination is not a member of this
graph", the operation having no effect when the error is raised. -/
def GenGraph.createEdge (g : GenGraph C) (source destination : WeakNode) :
    GenGraph C × Except Exception WeakEdge :=
  match g.memberNode source, g.memberNode destination with
  | some s, some d =>
    let e : GenEdge C := GenEdge.new g.fresh (some s.addr) (some d.addr)
    (g.attachEdge e s d, .ok (some e.addr))
  | _, _ => (g, .error .bad_topology_error)

/-- Modelled from the spec: `GenGraph::createEdge( className, source, destination )` of the
absent `gtpoGraph.hpp`; as for nodes the default implementation only knows the class name of
`GenEdge::getClassName()`, any other class name gives an empty reference. -/
def GenGraph.createEdgeOfClass (g : GenGraph C) (className : String)
    (source destination : WeakNode) : GenGraph C × Except Exception WeakEdge :=
  if className = "gtpo::Edge" then g.createEdge source destination else (g, .ok none)

/-- Modelled from the spec: `GenGraph::insertEdge` of the absent `gtpoGraph.hpp`: the edge
"must have a valid source and destination set otherwise a bad topology exception will be
thrown", both members of this graph; a null edge and an edge the graph already holds are
refused. -/
def GenGraph.insertEdge (g : GenGraph C) (edge : Option (GenEdge C)) :
    GenGraph C × Except Exception WeakEdge :=
  match edge with
  | none => (g, .error .bad_topology_error)
  | some e =>
    if e.addr ∈ g.edges.map (fun x => x.addr) then (g, .error .bad_topology_error)
    else
      match g.memberNode e.src, g.memberNode e.dst with
      | some s, some d => (g.attachEdge e s d, .ok (some e.addr))
      | _, _ => (g, .error .bad_topology_error)

/-- Modelled from the spec: the unwinding of one edge (absent `gtpoGraph.hpp`): deregister it
at its source and destination, "if the edge's destination's in-degree transitions 1→0, reinsert
it into the root cache", erase it from the edge store, then the "edge removed" notification. -/
def GenGraph.detachEdge (g : GenGraph C) (e : GenEdge C) : GenGraph C :=
  let g1 := match e.src with
    | some s => g.updateNode s (fun n => n.removeOutEdge e.addr e.dst)
    | none => g
  let g2 := match e.dst with
    | some d => g1.updateNode d (fun n => n.removeInEdge e.addr e.src)
    | none => g1
  GenGraph.notifyEdgeRemoved
    { g2 with edges := g.edges.filter (fun x => decide (x.addr ≠ e.addr)),
              rootNodes := match g.lockNode e.dst with
                | some d =>
                  if d.inEdges ≠ [] ∧ removeFrom d.inEdges e.addr = [] then
                    insertInto g.rootNodes d.addr
                  else g.rootNodes
                | none => g.rootNodes } e.addr

/-- Modelled from the spec: `GenGraph::removeEdge( edge )` of the absent `gtpoGraph.hpp`,
"removes a specific instance"; the header: "throw a gtpo::bad_topology_error if suppression
fails (edge does not exists)".  The edge must be registered at its two member endpoints. -/
def GenGraph.removeEdge (g : GenGraph C) (edge : WeakEdge) : GenGraph C × Except Exception Unit :=
  match g.lockEdge edge with
  | none => (g, .error .bad_topology_error)
  | some e =>
    match g.memberNode e.src, g.memberNode e.dst with
    | some s, some d =>
      if e.addr ∈ s.outEdges ∧ e.addr ∈ d.inEdges then (g.detachEdge e, .ok ())
      else (g, .error .bad_topology_error)
    | _, _ => (g, .error .bad_topology_error)

/-- Edges from `source` to `destination`, in the order of the out edges of `source`:
the "linear-scan queries over edges incident to `src`, filtered by destination". -/
def GenGraph.edgesBetween (g : GenGraph C) (source destination : WeakNode) : List (GenEdge C) :=
  match g.memberNode source, g.memberNode destination with
  | some s, some d =>
    (s.outEdges.filterMap (fun ea => g.lockEdge (some ea))).filter
      (fun e => decide (e.dst = some d.addr))
  | _, _ => []

/-- Modelled from the spec: `GenGraph::findEdge` of the absent `gtpoGraph.hpp`. -/
def GenGraph.findEdge (g : GenGraph C) (source destination : WeakNode) : WeakEdge :=
  (g.edgesBetween source destination).head?.map (fun e => e.addr)

/-- Modelled from the spec: `GenGraph::hasEdge` of the absent `gtpoGraph.hpp`. -/
def GenGraph.hasEdge (g : GenGraph C) (source destination : WeakNode) : Bool :=
  (g.findEdge source destination).isSome

/-- Modelled from the spec: `GenGraph::getEdgeCount( source, destination )` of the absent
`gtpoGraph.hpp`. -/
def GenGraph.getEdgeCountBetween (g : GenGraph C) (source destination : WeakNode) : Nat :=
  (g.edgesBetween source destination).length

/-- Modelled from the spec: `GenGraph::removeEdge( source, destination )` of the absent
`gtpoGraph.hpp`, "removes the first matching edge only"; the header: "throw a
gtpo::bad_topology_error if suppression fails (either source or destination or edge does not
exists)". -/
def GenGraph.removeEdgeBetween (g : GenGraph C) (source destination : WeakNode) :
    GenGraph C × Except Exception Unit :=
  match g.findEdge source destination with
  | none => (g, .error .bad_topology_error)
  | some ea => g.removeEdge (some ea)

/-- Modelled from the spec: `GenGraph::removeAllEdges( source, destination )` of the absent
`gtpoGraph.hpp`, "removes every matching edge", with the failure cases of `removeEdge`. -/
def GenGraph.removeAllEdges (g : GenGraph C) (source destination : WeakNode) :
    GenGraph C × Except Exception Unit :=
  match g.edgesBetween source destination with
  | [] => (g, .error .bad_topology_error)
  | e :: es => ((e :: es).foldl (fun h x => h.detachEdge x) g, .ok ())

/-- Modelled from the spec: `GenGroup::insertNode` of the absent `gtpoGroup.hpp`, "adds node to
the member set, sets the node's group back-reference to this group, fails with a topology error
if the node is already a member or invalid", then the group behaviours.  The group and the node
live in the graph storage, so the operation is stated on the graph. -/
def GenGraph.groupInsertNode (g : GenGraph C) (group : WeakGroup) (node : WeakNode) :
    GenGraph C × Except Exception Unit :=
  match g.lockGroup group, g.lockNode node with
  | some x, some n =>
    if x.hasNode (some n.addr) then (g, .error .bad_topology_error)
    else
      let g1 := g.updateGroup x.addr (fun y => { y with nodes := insertInto y.nodes n.addr })
      let g2 := g1.updateNode n.addr (fun m => { m with group := some x.addr })
      (g2.notifyGroupNode x.addr n.addr, .ok ())
  | _, _ => (g, .error .bad_topology_error)

/-- Modelled from the spec: the effect of `GenGroup::removeNode` (absent `gtpoGroup.hpp`) on a
member: it leaves the member set, its group back-reference is cleared, then the group
behaviours run. -/
def GenGraph.groupDropNode (g : GenGraph C) (a : Addr) (na : Addr) : GenGraph C :=
  let g1 := g.updateGroup a (fun y => { y with nodes := removeFrom y.nodes na })
  let g2 := g1.updateNode na (fun m => { m with group := none })
  g2.notifyGroupNode a na

/-- Modelled from the spec: `GenGroup::removeNode` of the absent `gtpoGroup.hpp`, "inverse;
fails if node is not a member". -/
def GenGraph.groupRemoveNode (g : GenGraph C) (group : WeakGroup) (node : WeakNode) :
    GenGraph C × Except Exception Unit :=
  match g.lockGroup group, g.lockNode node with
  | some x, some n =>
    if x.hasNode (some n.addr) then (g.groupDropNode x.addr n.addr, .ok ())
    else (g, .error .bad_topology_error)
  | _, _ => (g, .error .bad_topology_error)

/-- Modelled from the spec: `GenGraph::insertGroup` of the absent `gtpoGraph.hpp`; a null group
and a group the graph already holds ("duplicate insertion") are refused with a topology
error; the group is adopted as it arrives, its member and edge sets are not inspected. -/
def GenGraph.insertGroup (g : GenGraph C) (group : Option (GenGroup C)) :
    GenGraph C × Except Exception WeakGroup :=
  match group with
  | none => (g, .error .bad_topology_error)
  | some x =>
    if g.hasGroup (some x.addr) = true then (g, .error .bad_topology_error)
    else ({ g with groups := insertInto g.groups x }, .ok (some x.addr))

/-- Modelled from the spec: `GenGraph::createGroup` of the absent `gtpoGraph.hpp`. -/
def GenGraph.createGroup (g : GenGraph C) : GenGraph C × Except Exception WeakGroup :=
  g.insertGroup (some (GenGroup.new g.fresh))

/-- Modelled from the spec: `createGroup( className )`, which the default group decoder calls
and `gtpoGraph.h` does not declare; as for nodes and edges only the class name of
`GenGroup::getClassName()` is known. -/
def GenGraph.createGroupOfClass (g : GenGraph C) (className : String) :
    GenGraph C × Except Exception WeakGroup :=
  if className = "gtpo::Group" then g.createGroup else (g, .ok none)

/-- Modelled from the spec: `GenGraph::removeGroup` of the absent `gtpoGraph.hpp`, "group
removal moves member nodes back to ungrouped state (clears each member's group back-reference)
without deleting the nodes themselves; fails with a topology error if the group is unknown". -/
def GenGraph.removeGroup (g : GenGraph C) (group : WeakGroup) :
    GenGraph C × Except Exception Unit :=
  match g.lockGroup group with
  | none => (g, .error .bad_topology_error)
  | some x =>
    ({ g with nodes := g.nodes.map (fun n =>
                if n.addr ∈ x.nodes then { n with group := none } else n),
              groups := g.groups.filter (fun y => decide (y.addr ≠ x.addr)) }, .ok ())

/-- Detach the edge at address `ea` when the graph still holds it. -/
def GenGraph.detachEdgeAt (g : GenGraph C) (ea : Addr) : GenGraph C :=
  match g.lockEdge (some ea) with
  | some e => g.detachEdge e
  | none => g

/-- Modelled from the spec: the unwinding `removeNode` performs on a member node (absent
`gtpoGraph.hpp`): "first detach all incident in/out edges (each edge removal cascades as
above) and, if the node belongs to a group, remove it from that group, before erasing from
`_nodes`/`_nodesSearch`/root cache". -/
def GenGraph.eraseNode (g : GenGraph C) (n : GenNode C) : GenGraph C :=
  let g1 := (n.inEdges ++ n.outEdges).foldl (fun h ea => h.detachEdgeAt ea) g
  let g2 := match n.group with
    | some a => g1.groupDropNode a n.addr
    | none => g1
  { g2 with nodes := g2.nodes.filter (fun m => decide (m.addr ≠ n.addr)),
            nodesSearch := removeFrom g2.nodesSearch n.addr,
            rootNodes := removeFrom g2.rootNodes n.addr }

/-- Modelled from the spec: `GenGraph::removeNode` of the absent `gtpoGraph.hpp`, "fails with
a topology error if node unknown", otherwise unwinds and erases the node. -/
def GenGraph.removeNode (g : GenGraph C) (weakNode : WeakNode) :
    GenGraph C × Except Exception Unit :=
  match g.memberNode weakNode with
  | none => (g, .error .bad_topology_error)
  | some n => (g.eraseNode n, .ok ())

/-- Modelled from the spec: `GenGraph::clear` of the absent `gtpoGraph.hpp`, "removes all nodes
(cascading edge/group cleanup as above), then all remaining groups, then disables/clears
behaviors"; the header: "Clear the graph from all its content (nodes, edges, groups,
behaviours)". -/
def GenGraph.clear (g : GenGraph C) : GenGraph C :=
  let g1 := g.nodes.foldl (fun h n =>
    match h.lockNode (some n.addr) with
    | some m => h.eraseNode m
    | none => h) g
  { g1 with edges := [], groups := [], behaviours := [] }

/-- Embeds `GenGraph::getNodeLabel`. -/
def GenGraph.getNodeLabel (_g : GenGraph C) (n : GenNode C) : String := C.getNodeLabel n.base

/-- Embeds `GenGraph::setNodeLabel`. -/
def GenGraph.setNodeLabel (g : GenGraph C) (n : GenNode C) (l : String) : GenGraph C :=
  g.updateNode n.addr (fun m => { m with base := C.setNodeLabel m.base l })

/-- Embeds `GenGraph::getNodeX`. -/
def GenGraph.getNodeX (_g : GenGraph C) (n : GenNode C) : Double := C.getNodeX n.base

/-- Embeds `GenGraph::setNodeX`. -/
def GenGraph.setNodeX (g : GenGraph C) (n : GenNode C) (x : Double) : GenGraph C :=
  g.updateNode n.addr (fun m => { m with base := C.setNodeX m.base x })

/-- Embeds `GenGraph::getNodeY`, which returns `Config::getNodeX( n )`. -/
def GenGraph.getNodeY (_g : GenGraph C) (n : GenNode C) : Double := C.getNodeX n.base

/-- Embeds `GenGraph::setNodeY`. -/
def GenGraph.setNodeY (g : GenGraph C) (n : GenNode C) (y : Double) : GenGraph C :=
  g.updateNode n.addr (fun m => { m with base := C.setNodeY m.base y })

/-- Embeds `GenGraph::getNodeWidth`. -/
def GenGraph.getNodeWidth (_g : GenGraph C) (n : GenNode C) : Double := C.getNodeWidth n.base

/-- Embeds `GenGraph::setNodeWidth`. -/
def GenGraph.setNodeWidth (g : GenGraph C) (n : GenNode C) (w : Double) : GenGraph C :=
  g.updateNode n.addr (fun m => { m with base := C.setNodeWidth m.base w })

/-- Embeds `GenGraph::getNodeHeight`. -/
def GenGraph.getNodeHeight (_g : GenGraph C) (n : GenNode C) : Double := C.getNodeHeight n.base

/-- Embeds `GenGraph::setNodeHeight`. -/
def GenGraph.setNodeHeight (g : GenGraph C) (n : GenNode C) (h : Double) : GenGraph C :=
  g.updateNode n.addr (fun m => { m with base := C.setNodeHeight m.base h })

/-- Embeds `GenGraph::getEdgeWeight`. -/
def GenGraph.getEdgeWeight (_g : GenGraph C) (e : GenEdge C) : Double := C.getEdgeWeight e.base

/-! ## Structural serializer (`gtpoProtoSerializer.hpp`) -/

/-- Modelled from the spec: the map types `ObjectIdMap`, `IdObjectMap` and the functor
registries are declared in the absent `gtpoProtoSerializer.h`; they are standard associative
containers with unique keys, of which the code uses `find`/`at`, `insert`, `size` and `clear`.
Entries are kept in insertion order. -/
abbrev StdMap (κ ν : Type) := List (κ × ν)

/-- Embeds `find`: the entry stored under `k`, if any (`at` throws `std::out_of_range` when absent). -/
def StdMap.find {κ ν : Type} [DecidableEq κ] (m : StdMap κ ν) (k : κ) : Option ν :=
  match m with
  | [] => none
  | (k1, v) :: rest => if k1 = k then some v else StdMap.find rest k

/-- Embeds `insert`: adds the pair unless the key is already present (the old value is kept). -/
def StdMap.insert {κ ν : Type} [DecidableEq κ] (m : StdMap κ ν) (k : κ) (v : ν) : StdMap κ ν :=
  match StdMap.find m k with
  | some _ => m
  | none => m ++ [(k, v)]

/-- Embeds `size`. -/
def StdMap.size {κ ν : Type} (m : StdMap κ ν) : Nat := m.length

/-- Object address to serialization id. -/
abbrev ObjectIdMap := StdMap Addr Int

/-- Serialization id to object address (`void*`, `none` being the null pointer). -/
abbrev IdObjectMap := StdMap Int (Option Addr)

namespace pb

/-- Modelled from the spec: node record of the absent `gtpo.proto`, "label (string), x, y,
width, height (numeric), node_id (int32, -1 if unmapped)". -/
structure GTpoNode where
  label : String
  x : Double
  y : Double
  width : Double
  height : Double
  node_id : Int
  deriving DecidableEq, Repr

/-- Modelled from the spec: edge record of the absent `gtpo.proto`, "edge_id, src_node_id,
dst_node_id (int32), weight (numeric)". -/
structure GTpoEdge where
  edge_id : Int
  src_node_id : Int
  dst_node_id : Int
  weight : Double
  deriving DecidableEq, Repr

/-- Modelled from the spec: group record of the absent `gtpo.proto`, "label, x, y, width,
height, group_id, and a repeated list of member node_ids". -/
structure GTpoGroup where
  label : String
  x : Double
  y : Double
  width : Double
  height : Double
  group_id : Int
  node_ids : List Int
  deriving DecidableEq, Repr

/-- A default constructed node record (every field at its protocol default). -/
def GTpoNode.default : GTpoNode :=
  { label := "", x := 0, y := 0, width := 0, height := 0, node_id := 0 }

/-- A default constructed edge record. -/
def GTpoEdge.default : GTpoEdge :=
  { edge_id := 0, src_node_id := 0, dst_node_id := 0, weight := 0 }

/-- A default constructed group record. -/
def GTpoGroup.default : GTpoGroup :=
  { label := "", x := 0, y := 0, width := 0, height := 0, group_id := 0, node_ids := [] }

/-- Embeds `google::protobuf::Any`: a type-tagged record.  `unset` is a default constructed `Any`
(what `add_nodes()` appends before anything is packed into it); `user` is a caller-defined
message given by its type name and its content. -/
inductive Any where
  | unset
  | node (m : GTpoNode)
  | edge (m : GTpoEdge)
  | group (m : GTpoGroup)
  | user (typeName : String) (content : List Nat)
  deriving DecidableEq, Repr

/-- Modelled from the spec: top-level message of the absent `gtpo.proto`, "node_count,
edge_count, group_count (int32 each); repeated opaque any-typed node/edge/group records; two
optional opaque user extension slots". -/
structure GTpoGraph where
  node_count : Int
  edge_count : Int
  group_count : Int
  nodes : List Any
  edges : List Any
  groups : List Any
  user1 : Any
  user2 : Any
  deriving DecidableEq, Repr

/-- A default constructed graph message. -/
def GTpoGraph.default : GTpoGraph :=
  { node_count := 0, edge_count := 0, group_count := 0, nodes := [], edges := [], groups := [],
    user1 := .unset, user2 := .unset }

/-- Embeds `Any::Is<T>()` for a caller-defined message type `T` given by its name; the three records
of the engine are no caller-defined type. -/
def Any.isUser (a : Any) (typeName : String) : Bool :=
  match a with
  | .user t _ => decide (t = typeName)
  | _ => false

end pb

/-- What a stream holds, as `ParseFromIstream` sees it: the encoding of a graph message, or
bytes that do not parse. -/
inductive Stream where
  | invalid
  | message (m : pb.GTpoGraph)
  deriving DecidableEq, Repr

/-- Embeds `GTpoGraph::ParseFromIstream`. -/
def ParseFromIstream (is : Stream) : Option pb.GTpoGraph :=
  match is with
  | .invalid => none
  | .message m => some m

/-- Embeds `GTpoGraph::SerializeToOstream` on a stream that accepts the write. -/
def SerializeToOstream (m : pb.GTpoGraph) : Stream := .message m

/-- Node encoder: `( Any* anyNodes, const WeakNode&, const ObjectIdMap& )`; the first argument
is the storage weak references are locked against, the result is the record `anyNodes` points
to after the call (`none` for a null pointer). -/
abbrev NodeOutFunctor (C : Config) :=
  GenGraph C → Option pb.Any → WeakNode → ObjectIdMap → Option pb.Any

/-- Edge encoder: as the node encoder, with the `bool` it returns. -/
abbrev EdgeOutFunctor (C : Config) :=
  GenGraph C → Option pb.Any → WeakEdge → ObjectIdMap → Bool × Option pb.Any

/-- Group encoder: as the node encoder, with the `bool` it returns. -/
abbrev GroupOutFunctor (C : Config) :=
  GenGraph C → Option pb.Any → WeakGroup → ObjectIdMap → Bool × Option pb.Any

/-- Node decoder: `( const Any&, Graph&, IdObjectMap& ) -> WeakNode`; the result carries the
graph and the map after the call and either the returned reference or the exception that
left the decoder. -/
abbrev NodeInFunctor (C : Config) :=
  pb.Any → GenGraph C → IdObjectMap → (GenGraph C × IdObjectMap) × Except Exception WeakNode

/-- Edge decoder: `( const Any&, Graph&, IdObjectMap& ) -> void*`. -/
abbrev EdgeInFunctor (C : Config) :=
  pb.Any → GenGraph C → IdObjectMap → (GenGraph C × IdObjectMap) × Except Exception (Option Addr)

/-- Group decoder: `( const Any&, Graph&, IdObjectMap& ) -> WeakGroup`. -/
abbrev GroupInFunctor (C : Config) :=
  pb.Any → GenGraph C → IdObjectMap → (GenGraph C × IdObjectMap) × Except Exception WeakGroup

/-- Embeds `ProtoSerializer::serializeGTpoNodeOut`. -/
def serializeGTpoNodeOut (heap : GenGraph C) (weakNode : WeakNode) (pbNode : pb.GTpoNode)
    (objectIdMap : ObjectIdMap) : pb.GTpoNode :=
  if objectIdMap.size = 0 then pbNode
  else
    match heap.lockNode weakNode with
    | none => pbNode
    | some node =>
      { pbNode with
        label := C.getNodeLabel node.base,
        x := C.getNodeX node.base,
        y := C.getNodeY node.base,
        width := C.getNodeWidth node.base,
        height := C.getNodeHeight node.base,
        node_id := match objectIdMap.find node.addr with
          | some id => id
          | none => -1 }

/-- Embeds `ProtoSerializer::serializeGTpoGroupOut`; the member list is left as it is
("FIXME serialize repeated node_ids"). -/
def serializeGTpoGroupOut (heap : GenGraph C) (weakGroup : WeakGroup) (pbGroup : pb.GTpoGroup)
    (objectIdMap : ObjectIdMap) : pb.GTpoGroup :=
  if objectIdMap.size = 0 then pbGroup
  else
    match heap.lockGroup weakGroup with
    | none => pbGroup
    | some group =>
      { pbGroup with
        label := C.getGroupLabel group.base,
        x := C.getGroupX group.base,
        y := C.getGroupY group.base,
        width := C.getGroupWidth group.base,
        height := C.getGroupHeight group.base,
        group_id := match objectIdMap.find group.addr with
          | some id => id
          | none => -1 }

/-- Default node encoder registered by the constructor. -/
def defaultNodeOutFunctor : NodeOutFunctor C :=
  fun heap anyNodes weakNode objectIdMap =>
    match anyNodes with
    | none => none
    | some a =>
      match heap.lockNode weakNode with
      | none => some a
      | some _ =>
        some (.node (serializeGTpoNodeOut heap weakNode pb.GTpoNode.default objectIdMap))

/-- Default edge encoder registered by the constructor. -/
def defaultEdgeOutFunctor : EdgeOutFunctor C :=
  fun heap anyEdges edge objectIdMap =>
    match anyEdges with
    | none => (false, none)
    | some a =>
      match heap.lockEdge edge with
      | none => (false, some a)
      | some sharedEdge =>
        let edgeId : Int := match objectIdMap.find sharedEdge.addr with
          | some id => id
          | none => -1
        match heap.lockNode sharedEdge.src, heap.lockNode sharedEdge.dst with
        | some srcNode, some dstNode =>
          match objectIdMap.find srcNode.addr, objectIdMap.find dstNode.addr with
          | some srcNodeId, some dstNodeId =>
            if srcNodeId ≠ -1 ∧ dstNodeId ≠ -1 then
              (true, some (.edge { edge_id := edgeId, src_node_id := srcNodeId,
                                   dst_node_id := dstNodeId,
                                   weight := C.getEdgeWeight sharedEdge.base }))
            else (false, some a)
          | _, _ => (false, some a)
        | _, _ => (false, some a)

/-- Default group encoder registered by the constructor. -/
def defaultGroupOutFunctor : GroupOutFunctor C :=
  fun heap anyGroups weakGroup objectIdMap =>
    match anyGroups with
    | none => (false, none)
    | some a =>
      match heap.lockGroup weakGroup with
      | none => (false, some a)
      | some _ =>
        (true, some (.group (serializeGTpoGroupOut heap weakGroup pb.GTpoGroup.default
          objectIdMap)))

/-- Apply `f` to the edge object at address `a`. -/
def GenGraph.updateEdge (g : GenGraph C) (a : Addr) (f : GenEdge C → GenEdge C) : GenGraph C :=
  { g with edges := g.edges.map (fun e => if e.addr = a then f e else e) }

/-- Embeds `GenGraph::setEdgeWeight`. -/
def GenGraph.setEdgeWeight (g : GenGraph C) (e : GenEdge C) (w : Double) : GenGraph C :=
  g.updateEdge e.addr (fun x => { x with base := C.setEdgeWeight x.base w })

/-- The getter overload of `GenGraph::setGroupLabel` (`setGroupLabel( const SharedGroup& )`),
which returns `Config::getGroupLabel( g )`. -/
def GenGraph.getGroupLabel (_g : GenGraph C) (x : GenGroup C) : String := C.getGroupLabel x.base

/-- Embeds `GenGraph::setGroupLabel`. -/
def GenGraph.setGroupLabel (g : GenGraph C) (x : GenGroup C) (l : String) : GenGraph C :=
  g.updateGroup x.addr (fun y => { y with base := C.setGroupLabel y.base l })

/-- The five setter calls of `serializeGTpoNodeIn`, in their order: label, x, y, width,
height. -/
def feedNode (b : C.NodeBase) (pbNode : pb.GTpoNode) : C.NodeBase :=
  C.setNodeHeight (C.setNodeWidth (C.setNodeY (C.setNodeX (C.setNodeLabel b pbNode.label)
    pbNode.x) pbNode.y) pbNode.width) pbNode.height

/-- The five setter calls of `serializeGTpoGroupIn`, in their order: label, x, y, width,
height. -/
def feedGroup (b : C.GroupBase) (pbGroup : pb.GTpoGroup) : C.GroupBase :=
  C.setGroupHeight (C.setGroupWidth (C.setGroupY (C.setGroupX (C.setGroupLabel b pbGroup.label)
    pbGroup.x) pbGroup.y) pbGroup.width) pbGroup.height

/-- Embeds `ProtoSerializer::serializeGTpoNodeIn`: records the node under the id of the record and
feeds it with the record's label, x, y, width and height, in that order. -/
def serializeGTpoNodeIn (pbNode : pb.GTpoNode) (graph : GenGraph C) (weakNode : WeakNode)
    (idObjectMap : IdObjectMap) : GenGraph C × IdObjectMap :=
  match graph.lockNode weakNode with
  | none => (graph, idObjectMap)
  | some node =>
    (graph.updateNode node.addr (fun n =>
        { n with base := feedNode n.base pbNode }),
      idObjectMap.insert pbNode.node_id (some node.addr))

/-- The member loop of `serializeGTpoGroupIn`: for every id `>= 0` the object is fetched with
`idObjectMap.at` (which throws `std::out_of_range` for an unknown id) and, when not null,
inserted in the group (which throws a topology error when refused).  Nothing catches here. -/
def serializeGTpoGroupInNodes (ga : Addr) (idObjectMap : IdObjectMap) :
    List Int → GenGraph C → GenGraph C × Except Exception Unit
  | [], g => (g, .ok ())
  | groupNodeId :: rest, g =>
    if groupNodeId ≥ 0 then
      match idObjectMap.find groupNodeId with
      | none => (g, .error .out_of_range)
      | some none => serializeGTpoGroupInNodes ga idObjectMap rest g
      | some (some na) =>
        match g.groupInsertNode (some ga) (some na) with
        | (g1, .ok _) => serializeGTpoGroupInNodes ga idObjectMap rest g1
        | (g1, .error e) => (g1, .error e)
    else serializeGTpoGroupInNodes ga idObjectMap rest g

/-- Embeds `ProtoSerializer::serializeGTpoGroupIn`. -/
def serializeGTpoGroupIn (pbGroup : pb.GTpoGroup) (graph : GenGraph C) (weakGroup : WeakGroup)
    (idObjectMap : IdObjectMap) : (GenGraph C × IdObjectMap) × Except Exception Unit :=
  match graph.lockGroup weakGroup with
  | none => ((graph, idObjectMap), .ok ())
  | some group =>
    let m1 := idObjectMap.insert pbGroup.group_id (some group.addr)
    let g1 := graph.updateGroup group.addr (fun x =>
        { x with base := feedGroup x.base pbGroup })
    match serializeGTpoGroupInNodes group.addr m1 pbGroup.node_ids g1 with
    | (g2, r) => ((g2, m1), r)

/-- Default node decoder registered by the constructor. -/
def defaultNodeInFunctor (nodeDefaultName : String) : NodeInFunctor C :=
  fun anyNode graph idObjectMap =>
    match anyNode with
    | .node pbNode =>
      match graph.createNodeOfClass nodeDefaultName with
      | (g1, .error e) => ((g1, idObjectMap), .error e)
      | (g1, .ok weakNode) =>
        match g1.lockNode weakNode with
        | some node => (serializeGTpoNodeIn pbNode g1 weakNode idObjectMap, .ok (some node.addr))
        | none => ((g1, idObjectMap), .ok none)
    | _ => ((graph, idObjectMap), .ok none)

/-- Default edge decoder registered by the constructor; its `catch (...)` turns every
exception into a null result. -/
def defaultEdgeInFunctor (edgeDefaultName : String) : EdgeInFunctor C :=
  fun anyEdge graph idObjectMap =>
    match anyEdge with
    | .edge pbEdge =>
      match idObjectMap.find pbEdge.src_node_id, idObjectMap.find pbEdge.dst_node_id with
      | some (some sourceObject), some (some destinationObject) =>
        match graph.createEdgeOfClass edgeDefaultName (some sourceObject)
            (some destinationObject) with
        | (g1, .error _) => ((g1, idObjectMap), .ok none)
        | (g1, .ok weakEdge) =>
          match g1.lockEdge weakEdge with
          | some edge =>
            ((g1.updateEdge edge.addr (fun x =>
                { x with base := C.setEdgeWeight x.base pbEdge.weight }),
              idObjectMap.insert pbEdge.edge_id (some edge.addr)), .ok (some edge.addr))
          | none => ((g1, idObjectMap), .ok none)
      | _, _ => ((graph, idObjectMap), .ok none)
    | _ => ((graph, idObjectMap), .ok none)

/-- Default group decoder registered by the constructor. -/
def defaultGroupInFunctor (groupDefaultName : String) : GroupInFunctor C :=
  fun anyGroup graph idObjectMap =>
    match anyGroup with
    | .group pbGroup =>
      match graph.createGroupOfClass groupDefaultName with
      | (g1, .error e) => ((g1, idObjectMap), .error e)
      | (g1, .ok weakGroup) =>
        match g1.lockGroup weakGroup with
        | some group =>
          match serializeGTpoGroupIn pbGroup g1 weakGroup idObjectMap with
          | (st, .ok _) => (st, .ok (some group.addr))
          | (st, .error e) => (st, .error e)
        | none => ((g1, idObjectMap), .ok none)
    | _ => ((graph, idObjectMap), .ok none)

/-- State of a `ProtoSerializer`: default class names, functor registries and the two id
maps. -/
structure ProtoSerializer (C : Config) where
  nodeDefaultName : String
  edgeDefaultName : String
  groupDefaultName : String
  nodeOutFunctors : StdMap String (NodeOutFunctor C)
  edgeOutFunctors : StdMap String (EdgeOutFunctor C)
  groupOutFunctors : StdMap String (GroupOutFunctor C)
  nodeInFunctors : List (NodeInFunctor C)
  edgeInFunctors : List (EdgeInFunctor C)
  groupInFunctors : List (GroupInFunctor C)
  objectIdMap : ObjectIdMap
  idObjectMap : IdObjectMap

namespace ProtoSerializer

/-- Embeds `ProtoSerializer::registerNodeOutFunctor`. -/
def registerNodeOutFunctor (s : ProtoSerializer C) (nodeClassName : String)
    (f : NodeOutFunctor C) : ProtoSerializer C :=
  { s with nodeOutFunctors := s.nodeOutFunctors.insert nodeClassName f }

/-- Embeds `ProtoSerializer::registerEdgeOutFunctor`. -/
def registerEdgeOutFunctor (s : ProtoSerializer C) (edgeClassName : String)
    (f : EdgeOutFunctor C) : ProtoSerializer C :=
  { s with edgeOutFunctors := s.edgeOutFunctors.insert edgeClassName f }

/-- Embeds `ProtoSerializer::registerGroupOutFunctor`. -/
def registerGroupOutFunctor (s : ProtoSerializer C) (groupClassName : String)
    (f : GroupOutFunctor C) : ProtoSerializer C :=
  { s with groupOutFunctors := s.groupOutFunctors.insert groupClassName f }

/-- Embeds `ProtoSerializer::registerNodeInFunctor`. -/
def registerNodeInFunctor (s : ProtoSerializer C) (f : NodeInFunctor C) : ProtoSerializer C :=
  { s with nodeInFunctors := s.nodeInFunctors ++ [f] }

/-- Embeds `ProtoSerializer::registerEdgeInFunctor`. -/
def registerEdgeInFunctor (s : ProtoSerializer C) (f : EdgeInFunctor C) : ProtoSerializer C :=
  { s with edgeInFunctors := s.edgeInFunctors ++ [f] }

/-- Embeds `ProtoSerializer::registerGroupInFunctor`. -/
def registerGroupInFunctor (s : ProtoSerializer C) (f : GroupInFunctor C) : ProtoSerializer C :=
  { s with groupInFunctors := s.groupInFunctors ++ [f] }

/-- A serializer before its constructor body runs: no functor, empty id maps. -/
def blank (nodeDefaultName edgeDefaultName groupDefaultName : String) : ProtoSerializer C :=
  { nodeDefaultName := nodeDefaultName, edgeDefaultName := edgeDefaultName,
    groupDefaultName := groupDefaultName, nodeOutFunctors := [], edgeOutFunctors := [],
    groupOutFunctors := [], nodeInFunctors := [], edgeInFunctors := [], groupInFunctors := [],
    objectIdMap := [], idObjectMap := [] }

/-- Embeds `ProtoSerializer::ProtoSerializer( nodeDefaultName, edgeDefaultName, groupDefaultName )`:
registers the six default functors. -/
def new (nodeDefaultName edgeDefaultName groupDefaultName : String) : ProtoSerializer C :=
  let s0 : ProtoSerializer C := blank nodeDefaultName edgeDefaultName groupDefaultName
  let s1 := s0.registerNodeOutFunctor nodeDefaultName defaultNodeOutFunctor
  let s2 := s1.registerNodeInFunctor (defaultNodeInFunctor nodeDefaultName)
  let s3 := s2.registerEdgeOutFunctor edgeDefaultName defaultEdgeOutFunctor
  let s4 := s3.registerEdgeInFunctor (defaultEdgeInFunctor edgeDefaultName)
  let s5 := s4.registerGroupOutFunctor groupDefaultName defaultGroupOutFunctor
  s5.registerGroupInFunctor (defaultGroupInFunctor groupDefaultName)

/-- The two loops of `generateObjectIdMap`: `insert( make_pair( object, ++id ) )` for every
object of the list, returning the map and the last id given. -/
def insertIds (m : ObjectIdMap) (id : Int) : List Addr → ObjectIdMap × Int
  | [] => (m, id)
  | a :: rest => insertIds (m.insert a (id + 1)) (id + 1) rest

/-- Embeds `ProtoSerializer::generateObjectIdMap`: the map is cleared, then the nodes and the edges
of the graph are numbered from 1 in the order of their containers. -/
def generateObjectIdMap (s : ProtoSerializer C) (graph : GenGraph C) : ProtoSerializer C :=
  let afterNodes := insertIds [] 0 (graph.nodes.map (fun n => n.addr))
  let afterEdges := insertIds afterNodes.1 afterNodes.2 (graph.edges.map (fun e => e.addr))
  { s with objectIdMap := afterEdges.1 }

end ProtoSerializer

/-- A caller-defined message (`google::protobuf::Message`) given by its type name and its
content. -/
structure Message where
  typeName : String
  content : List Nat
  deriving DecidableEq, Repr

/-- Embeds `Any::PackFrom` for a caller-defined message. -/
def pb.Any.PackFrom (m : Message) : pb.Any := .user m.typeName m.content

/-- Embeds `Any::UnpackTo` into a message object of type `typeName`: fails when the record holds a
message of another type. -/
def pb.Any.UnpackTo (a : pb.Any) (typeName : String) : Option Message :=
  match a with
  | .user t c => if t = typeName then some { typeName := t, content := c } else none
  | _ => none

/-- The user slot `serializeOut` writes for an optional caller-defined message: packed when
the pointer is not null, left unset otherwise. -/
def pb.Any.packOptional (user : Option Message) : pb.Any :=
  match user with
  | some m => pb.Any.PackFrom m
  | none => .unset

/-- What `serializeOut` leaves: the serializer (its id map may have been generated), the
stream written, the three counters and the two count reports written on `std::cerr`. -/
structure SerializeOutResult (C : Config) where
  serializer : ProtoSerializer C
  os : Stream
  serializedNodeCout : Int
  serializedEdgeCout : Int
  serializedGroupCout : Int
  nodeCountReport : Bool
  edgeCountReport : Bool

/-- What `serializeIn` leaves: the graph, the serializer (with its id to object map), the
three counters, the unpacked user messages, the two count reports written on `std::cerr`, and
the exception that left the call, if any (the other fields then give the state reached). -/
structure SerializeInResult (C : Config) where
  graph : GenGraph C
  serializer : ProtoSerializer C
  serializedNodeCout : Int
  serializedEdgeCout : Int
  serializedGroupCout : Int
  user1 : Option Message
  user2 : Option Message
  nodeCountReport : Bool
  edgeCountReport : Bool
  raised : Option Exception

namespace ProtoSerializer

/-- Node loop of `serializeOut`: the records appended to the message and
`serializedNodeCout`. -/
def serializeOutNodes (s : ProtoSerializer C) (graph : GenGraph C) (objectIdMap : ObjectIdMap) :
    List (GenNode C) → List pb.Any × Int
  | [] => ([], 0)
  | node :: rest =>
    let r := serializeOutNodes s graph objectIdMap rest
    if node.isSerializable = false then r
    else
      match s.nodeOutFunctors.find node.className with
      | some f =>
        ((f graph (some .unset) (some node.addr) objectIdMap).getD .unset :: r.1, r.2 + 1)
      | none => r

/-- Edge loop of `serializeOut`: `add_edges()` is evaluated as the encoder's argument, the
counter moves when the encoder returns `true`. -/
def serializeOutEdges (s : ProtoSerializer C) (graph : GenGraph C) (objectIdMap : ObjectIdMap) :
    List (GenEdge C) → List pb.Any × Int
  | [] => ([], 0)
  | edge :: rest =>
    let r := serializeOutEdges s graph objectIdMap rest
    match s.edgeOutFunctors.find edge.className with
    | some f =>
      let o := f graph (some .unset) (some edge.addr) objectIdMap
      (o.2.getD .unset :: r.1, if o.1 then r.2 + 1 else r.2)
    | none => r

/-- Group loop of `serializeOut`. -/
def serializeOutGroups (s : ProtoSerializer C) (graph : GenGraph C) (objectIdMap : ObjectIdMap) :
    List (GenGroup C) → List pb.Any × Int
  | [] => ([], 0)
  | group :: rest =>
    let r := serializeOutGroups s graph objectIdMap rest
    match s.groupOutFunctors.find group.className with
    | some f =>
      let o := f graph (some .unset) (some group.addr) objectIdMap
      (o.2.getD .unset :: r.1, if o.1 then r.2 + 1 else r.2)
    | none => r

/-- Embeds `ProtoSerializer::serializeOut( graph, os, progressNotifier, user1, user2 )`; the progress
notifier only observes and is left out. -/
def serializeOut (s : ProtoSerializer C) (graph : GenGraph C) (user1 user2 : Option Message) :
    SerializeOutResult C :=
  let s1 := if s.objectIdMap.size = 0 then s.generateObjectIdMap graph else s
  let objectIdMap := s1.objectIdMap
  let nodes := s1.serializeOutNodes graph objectIdMap graph.nodes
  let edges := s1.serializeOutEdges graph objectIdMap graph.edges
  let groups := s1.serializeOutGroups graph objectIdMap graph.groups
  let pbGraph : pb.GTpoGraph :=
    { node_count := (graph.getNodeCount : Int),
      edge_count := (graph.edges.length : Int),
      group_count := (graph.groups.length : Int),
      nodes := nodes.1, edges := edges.1, groups := groups.1,
      user1 := pb.Any.packOptional user1,
      user2 := pb.Any.packOptional user2 }
  { serializer := s1, os := SerializeToOstream pbGraph,
    serializedNodeCout := nodes.2, serializedEdgeCout := edges.2,
    serializedGroupCout := groups.2,
    nodeCountReport := decide (nodes.2 ≠ (graph.getNodeCount : Int)),
    edgeCountReport := decide (edges.2 ≠ (graph.edges.length : Int)) }

/-- Inner loop of the node phase of `serializeIn`: the decoders are tried in registration
order until one returns a reference that is not expired. -/
def runNodeInFunctors : List (NodeInFunctor C) → pb.Any → GenGraph C → IdObjectMap →
    (GenGraph C × IdObjectMap) × Except Exception Bool
  | [], _, g, m => ((g, m), .ok false)
  | f :: fs, anyNode, g, m =>
    match f anyNode g m with
    | (st, .error e) => (st, .error e)
    | (st, .ok node) =>
      if (st.1.lockNode node).isSome then (st, .ok true)
      else runNodeInFunctors fs anyNode st.1 st.2

/-- Inner loop of the edge phase: until a decoder returns a non-null pointer. -/
def runEdgeInFunctors : List (EdgeInFunctor C) → pb.Any → GenGraph C → IdObjectMap →
    (GenGraph C × IdObjectMap) × Except Exception Bool
  | [], _, g, m => ((g, m), .ok false)
  | f :: fs, anyEdge, g, m =>
    match f anyEdge g m with
    | (st, .error e) => (st, .error e)
    | (st, .ok p) =>
      if p.isSome then (st, .ok true)
      else runEdgeInFunctors fs anyEdge st.1 st.2

/-- Inner loop of the group phase: until a decoder returns a reference that is not expired. -/
def runGroupInFunctors : List (GroupInFunctor C) → pb.Any → GenGraph C → IdObjectMap →
    (GenGraph C × IdObjectMap) × Except Exception Bool
  | [], _, g, m => ((g, m), .ok false)
  | f :: fs, anyGroup, g, m =>
    match f anyGroup g m with
    | (st, .error e) => (st, .error e)
    | (st, .ok group) =>
      if (st.1.lockGroup group).isSome then (st, .ok true)
      else runGroupInFunctors fs anyGroup st.1 st.2

/-- One phase of `serializeIn`: every record of the list goes through the inner loop `run`,
the counter moves for each decoded record; an exception leaving a decoder ends the phase. -/
def serializeInPhase
    (run : pb.Any → GenGraph C → IdObjectMap → (GenGraph C × IdObjectMap) × Except Exception Bool) :
    List pb.Any → GenGraph C → IdObjectMap → Int →
    (GenGraph C × IdObjectMap × Int) × Option Exception
  | [], g, m, n => ((g, m, n), none)
  | a :: rest, g, m, n =>
    match run a g m with
    | (st, .error e) => ((st.1, st.2, n), some e)
    | (st, .ok true) => serializeInPhase run rest st.1 st.2 (n + 1)
    | (st, .ok false) => serializeInPhase run rest st.1 st.2 n

/-- Embeds `ProtoSerializer::serializeIn< User1, User2 >( is, graph, progressNotifier, user1, user2 )`;
the two message types are given by their names, the progress notifier is left out. -/
def serializeIn (s : ProtoSerializer C) (is : Stream) (graph : GenGraph C)
    (User1 User2 : String) : SerializeInResult C :=
  match ParseFromIstream is with
  | none =>
    { graph := graph, serializer := { s with idObjectMap := [] },
      serializedNodeCout := 0, serializedEdgeCout := 0, serializedGroupCout := 0,
      user1 := none, user2 := none,
      nodeCountReport := decide ((0 : Int) ≠ pb.GTpoGraph.default.node_count),
      edgeCountReport := decide ((0 : Int) ≠ (graph.edges.length : Int)),
      raised := none }
  | some inGraph =>
    match serializeInPhase (runNodeInFunctors s.nodeInFunctors) inGraph.nodes graph [] 0 with
    | ((g1, m1, n1), some e) =>
      { graph := g1, serializer := { s with idObjectMap := m1 },
        serializedNodeCout := n1, serializedEdgeCout := 0, serializedGroupCout := 0,
        user1 := none, user2 := none, nodeCountReport := false, edgeCountReport := false,
        raised := some e }
    | ((g1, m1, n1), none) =>
      let edgePhase :=
        if m1.size > 0 then
          serializeInPhase (runEdgeInFunctors s.edgeInFunctors) inGraph.edges g1 m1 0
        else ((g1, m1, 0), none)
      match edgePhase with
      | ((g2, m2, n2), some e) =>
        { graph := g2, serializer := { s with idObjectMap := m2 },
          serializedNodeCout := n1, serializedEdgeCout := n2, serializedGroupCout := 0,
          user1 := none, user2 := none, nodeCountReport := false, edgeCountReport := false,
          raised := some e }
      | ((g2, m2, n2), none) =>
        let groupPhase :=
          if m1.size > 0 then
            serializeInPhase (runGroupInFunctors s.groupInFunctors) inGraph.groups g2 m2 0
          else ((g2, m2, 0), none)
        match groupPhase with
        | ((g3, m3, n3), some e) =>
          { graph := g3, serializer := { s with idObjectMap := m3 },
            serializedNodeCout := n1, serializedEdgeCout := n2, serializedGroupCout := n3,
            user1 := none, user2 := none, nodeCountReport := false, edgeCountReport := false,
            raised := some e }
        | ((g3, m3, n3), none) =>
          { graph := g3, serializer := { s with idObjectMap := m3 },
            serializedNodeCout := n1, serializedEdgeCout := n2, serializedGroupCout := n3,
            user1 := if inGraph.user1.isUser User1 then inGraph.user1.UnpackTo User1 else none,
            user2 := if inGraph.user2.isUser User1 then inGraph.user2.UnpackTo User2 else none,
            nodeCountReport := decide (n1 ≠ inGraph.node_count),
            edgeCountReport := decide (n2 ≠ (g3.edges.length : Int)),
            raised := none }

end ProtoSerializer

/-- Graph states reachable from the empty graph by the mutating operations of `GenGraph`
and `GenGroup`, whether the call succeeds or raises. -/
inductive Reachable : GenGraph C → Prop where
  | empty : Reachable GenGraph.empty
  | createNode {g : GenGraph C} : Reachable g → Reachable g.createNode.1
  | insertNode {g : GenGraph C} (node : Option (GenNode C)) :
      Reachable g → Reachable (g.insertNode node).1
  | createEdge {g : GenGraph C} (source destination : WeakNode) :
      Reachable g → Reachable (g.createEdge source destination).1
  | insertEdge {g : GenGraph C} (edge : Option (GenEdge C)) :
      Reachable g → Reachable (g.insertEdge edge).1
  | removeEdge {g : GenGraph C} (edge : WeakEdge) :
      Reachable g → Reachable (g.removeEdge edge).1
  | removeEdgeBetween {g : GenGraph C} (source destination : WeakNode) :
      Reachable g → Reachable (g.removeEdgeBetween source destination).1
  | removeAllEdges {g : GenGraph C} (source destination : WeakNode) :
      Reachable g → Reachable (g.removeAllEdges source destination).1
  | removeNode {g : GenGraph C} (node : WeakNode) :
      Reachable g → Reachable (g.removeNode node).1
  | createGroup {g : GenGraph C} : Reachable g → Reachable g.createGroup.1
  | insertGroup {g : GenGraph C} (group : Option (GenGroup C)) :
      Reachable g → Reachable (g.insertGroup group).1
  | removeGroup {g : GenGraph C} (group : WeakGroup) :
      Reachable g → Reachable (g.removeGroup group).1
  | groupInsertNode {g : GenGraph C} (group : WeakGroup) (node : WeakNode) :
      Reachable g → Reachable (g.groupInsertNode group node).1
  | groupRemoveNode {g : GenGraph C} (group : WeakGroup) (node : WeakNode) :
      Reachable g → Reachable (g.groupRemoveNode group node).1
  | clear {g : GenGraph C} : Reachable g → Reachable g.clear

/-- Graph states reachable from the empty graph by the mutating operations of `GenGraph` and
`GenGroup`, whether the call succeeds or raises, when every node handed to `insertNode`
satisfies `N` and every group handed to `insertGroup` satisfies `G`. -/
inductive ReachableBy (N : GenNode C → Prop) (G : GenGroup C → Prop) : GenGraph C → Prop where
  | empty : ReachableBy N G GenGraph.empty
  | createNode {g : GenGraph C} : ReachableBy N G g → ReachableBy N G g.createNode.1
  | insertNode {g : GenGraph C} (node : Option (GenNode C)) :
      (∀ n, node = some n → N n) → ReachableBy N G g → ReachableBy N G (g.insertNode node).1
  | createEdge {g : GenGraph C} (source destination : WeakNode) :
      ReachableBy N G g → ReachableBy N G (g.createEdge source destination).1
  | insertEdge {g : GenGraph C} (edge : Option (GenEdge C)) :
      ReachableBy N G g → ReachableBy N G (g.insertEdge edge).1
  | removeEdge {g : GenGraph C} (edge : WeakEdge) :
      ReachableBy N G g → ReachableBy N G (g.removeEdge edge).1
  | removeEdgeBetween {g : GenGraph C} (source destination : WeakNode) :
      ReachableBy N G g → ReachableBy N G (g.removeEdgeBetween source destination).1
  | removeAllEdges {g : GenGraph C} (source destination : WeakNode) :
      ReachableBy N G g → ReachableBy N G (g.removeAllEdges source destination).1
  | removeNode {g : GenGraph C} (node : WeakNode) :
      ReachableBy N G g → ReachableBy N G (g.removeNode node).1
  | createGroup {g : GenGraph C} : ReachableBy N G g → ReachableBy N G g.createGroup.1
  | insertGroup {g : GenGraph C} (group : Option (GenGroup C)) :
      (∀ x, group = some x → G x) → ReachableBy N G g →
      ReachableBy N G (g.insertGroup group).1
  | removeGroup {g : GenGraph C} (group : WeakGroup) :
      ReachableBy N G g → ReachableBy N G (g.removeGroup group).1
  | groupInsertNode {g : GenGraph C} (group : WeakGroup) (node : WeakNode) :
      ReachableBy N G g → ReachableBy N G (g.groupInsertNode group node).1
  | groupRemoveNode {g : GenGraph C} (group : WeakGroup) (node : WeakNode) :
      ReachableBy N G g → ReachableBy N G (g.groupRemoveNode group node).1
  | clear {g : GenGraph C} : ReachableBy N G g → ReachableBy N G g.clear

/-- An inserted node arrives without in edge, as a node that no graph has wired yet does. -/
def GenNode.Rootless (n : GenNode C) : Prop := n.inEdges = []

/-- An inserted group arrives without member node: nodes join a group of the graph through
`GenGroup::insertNode`. -/
def GenGroup.Memberless (x : GenGroup C) : Prop := x.nodes = []

/-- No condition on an inserted object. -/
def Unconstrained {α : Type} (_ : α) : Prop := True

/-- In-edge bookkeeping of a graph: the address and in edges of every node, the root node
cache and the search index. -/
structure RootView where
  ins : List (Addr × List Addr)
  root : List Addr
  search : List Addr

/-- The in-edge bookkeeping of a graph. -/
def GenGraph.rootView (g : GenGraph C) : RootView :=
  { ins := g.nodes.map (fun n => (n.addr, n.inEdges)), root := g.rootNodes,
    search := g.nodesSearch }

/-- Consistency of the in-edge bookkeeping: node addresses are distinct and the search index
mirrors the nodes; when `rooted` holds (every node joined the graph without in edge), the root
cache moreover has no duplicate and holds exactly the nodes without in edge. -/
structure RootView.Inv (v : RootView) (rooted : Prop) : Prop where
  nodup : (v.ins.map Prod.fst).Nodup
  rootNodup : rooted → v.root.Nodup
  root_iff : rooted → ∀ a, a ∈ v.root ↔ (a, []) ∈ v.ins
  search_iff : ∀ a, a ∈ v.search ↔ a ∈ v.ins.map Prod.fst

/-- Root cache after an in edge `e` left a node at address `da` whose in edges were `o`
(`none` when no node lives there): the node is reinserted when its in edges become empty. -/
def RootView.rootAfterDrop (root : List Addr) (da e : Addr) (o : Option (List Addr)) :
    List Addr :=
  match o with
  | some dIn => if dIn ≠ [] ∧ removeFrom dIn e = [] then insertInto root da else root
  | none => root

/-- The pairs `generateObjectIdMap` produces for a list of distinct objects it meets with the
counter at `id`: the objects in their order with the ids `id + 1`, `id + 2`, and so on. -/
def numbered (id : Int) : List Addr → List (Addr × Int)
  | [] => []
  | a :: rest => (a, id + 1) :: numbered (id + 1) rest

/-- Label, x, y, width and height the accessor policy reads from a node. -/
def Config.nodeProps (C : Config) (b : C.NodeBase) : String × Double × Double × Double × Double :=
  (C.getNodeLabel b, C.getNodeX b, C.getNodeY b, C.getNodeWidth b, C.getNodeHeight b)

/-- Label, x, y, width and height the accessor policy reads from a group. -/
def Config.groupProps (C : Config) (b : C.GroupBase) :
    String × Double × Double × Double × Double :=
  (C.getGroupLabel b, C.getGroupX b, C.getGroupY b, C.getGroupWidth b, C.getGroupHeight b)

/-- An accessor policy gives back what the serializer wrote: after the setter calls of the
decoders, made with values that were read through the policy, the getters return these
values (a policy that stores what it is given does, and so does the no-op default policy). -/
structure Config.GivesBack (C : Config) : Prop where
  node : ∀ (b b0 : C.NodeBase) (id : Int),
    C.nodeProps (feedNode b
      { label := C.getNodeLabel b0, x := C.getNodeX b0, y := C.getNodeY b0,
        width := C.getNodeWidth b0, height := C.getNodeHeight b0, node_id := id }) =
      C.nodeProps b0
  edge : ∀ (b b0 : C.EdgeBase),
    C.getEdgeWeight (C.setEdgeWeight b (C.getEdgeWeight b0)) = C.getEdgeWeight b0
  group : ∀ (b b0 : C.GroupBase) (id : Int) (ids : List Int),
    C.groupProps (feedGroup b
      { label := C.getGroupLabel b0, x := C.getGroupX b0, y := C.getGroupY b0,
        width := C.getGroupWidth b0, height := C.getGroupHeight b0, group_id := id,
        node_ids := ids }) =
      C.groupProps b0

/-- The graph after the default node decoder handled a node record: a new node at the fresh
address, fed with the record. -/
def GenGraph.decodedNode (g : GenGraph C) (r : pb.GTpoNode) : GenGraph C :=
  g.createNode.1.updateNode g.fresh (fun n => { n with base := feedNode n.base r })

/-- The graph after the default edge decoder handled an edge record whose endpoints resolved
to the member nodes `s` and `d`: a new edge at the fresh address, with the recorded weight. -/
def GenGraph.decodedEdge (g : GenGraph C) (r : pb.GTpoEdge) (s d : GenNode C) : GenGraph C :=
  (g.attachEdge (GenEdge.new g.fresh (some s.addr) (some d.addr)) s d).updateEdge g.fresh
    (fun x => { x with base := C.setEdgeWeight x.base r.weight })

/-- The graph after the default group decoder handled a group record without member: a new
group at the fresh address, fed with the record. -/
def GenGraph.decodedGroup (g : GenGraph C) (r : pb.GTpoGroup) : GenGraph C :=
  g.createGroup.1.updateGroup g.fresh (fun x => { x with base := feedGroup x.base r })

/-- Graph and id to object map after the default node decoder handled the records of a list,
one after the other. -/
def GenGraph.decodedNodes (g : GenGraph C) (m : IdObjectMap) :
    List pb.GTpoNode → GenGraph C × IdObjectMap
  | [] => (g, m)
  | r :: rest =>
    GenGraph.decodedNodes (g.decodedNode r) (StdMap.insert m r.node_id (some g.fresh)) rest

/-- The record the default edge encoder packs for an edge whose endpoints are alive and
numbered by the id map. -/
def encodedEdge (objectIdMap : ObjectIdMap) (e : GenEdge C) : pb.GTpoEdge :=
  { edge_id := (StdMap.find objectIdMap e.addr).getD (-1),
    src_node_id := ((e.src.bind (fun a => StdMap.find objectIdMap a))).getD (-1),
    dst_node_id := ((e.dst.bind (fun a => StdMap.find objectIdMap a))).getD (-1),
    weight := C.getEdgeWeight e.base }

/-- Encoding a graph with `serializeOut` and decoding the stream written with `serializeIn`,
by the same serializer, into a fresh empty graph. -/
def ProtoSerializer.roundTrip (s : ProtoSerializer C) (graph : GenGraph C)
    (user1 user2 : Option Message) (User1 User2 : String) : SerializeInResult C :=
  (s.serializeOut graph user1 user2).serializer.serializeIn (s.serializeOut graph user1 user2).os
    GenGraph.empty User1 User2

/-- The edges of the graph that go from `source` to `destination`: the parallel edges the two
removal operations by endpoints are specified on. -/
def GenGraph.parallelEdges (g : GenGraph C) (source destination : WeakNode) :
    List (GenEdge C) :=
  g.edges.filter (fun e => decide (e.src = source ∧ e.dst = destination))

/-- What `detachEdge` does to a node object: the edge leaves the out edges of its source and
the in edges of its destination. -/
def GenNode.detached (e : GenEdge C) (n : GenNode C) : GenNode C :=
  let n1 := if e.src = some n.addr then n.removeOutEdge e.addr e.dst else n
  if e.dst = some n.addr then n1.removeInEdge e.addr e.src else n1

/-- What `attachEdge` does to a node object: the edge joins the out edges of its source and the
in edges of its destination. -/
def GenNode.attached (e : GenEdge C) (s d : GenNode C) (n : GenNode C) : GenNode C :=
  let n1 := if n.addr = s.addr then n.addOutEdge e.addr d.addr else n
  if n.addr = d.addr then n1.addInEdge e.addr s.addr else n1

/-- The group files the edge as the group adjacency invariant demands: an edge whose source
and destination are both members is in `getEdges()` and not in `getAdjacentEdges()`, an edge
with exactly one endpoint among the members is in `getAdjacentEdges()` and not in
`getEdges()`. -/
def GenGroup.Files (x : GenGroup C) (e : GenEdge C) : Prop :=
  (x.hasNode e.src = true ∧ x.hasNode e.dst = true →
    e.addr ∈ x.edges ∧ e.addr ∉ x.adjacentEdges) ∧
  (x.hasNode e.src ≠ x.hasNode e.dst →
    e.addr ∈ x.adjacentEdges ∧ e.addr ∉ x.edges)

/-- Consistency of the topology the graph operations keep: the edges are distinct objects,
both endpoints of every edge are nodes of the graph and every edge is registered as out edge
at its source and as in edge at its destination; when `filed` holds (every group joined the
graph without member), every group moreover files every edge as the group adjacency invariant
demands. -/
structure GenGraph.Linked (g : GenGraph C) (filed : Prop) : Prop where
  edgeNodup : (g.edges.map (fun e => e.addr)).Nodup
  ends : ∀ e ∈ g.edges, ∃ s d, e.src = some s ∧ e.dst = some d ∧
    s ∈ g.nodes.map (fun n => n.addr) ∧ d ∈ g.nodes.map (fun n => n.addr)
  reg : ∀ e ∈ g.edges, ∀ n ∈ g.nodes,
    (e.src = some n.addr → e.addr ∈ n.outEdges) ∧ (e.dst = some n.addr → e.addr ∈ n.inEdges)
  files : filed → ∀ x ∈ g.groups, ∀ e ∈ g.edges, x.Files e

/-! ## Fixtures used by the witnesses -/

/-- Properties a storing accessor policy keeps with a primitive. -/
structure Props where
  label : String
  x : Double
  y : Double
  width : Double
  height : Double
  weight : Double
  deriving DecidableEq, Repr

/-- An accessor policy that stores the values it is given (the kind of policy a presentation
layer supplies); every primitive starts with an empty label and zero values. -/
def storingConfig : Config :=
  { NodeBase := Props, EdgeBase := Props, GroupBase := Props,
    nodeBase := { label := "", x := 0, y := 0, width := 0, height := 0, weight := 0 },
    edgeBase := { label := "", x := 0, y := 0, width := 0, height := 0, weight := 0 },
    groupBase := { label := "", x := 0, y := 0, width := 0, height := 0, weight := 0 },
    getNodeLabel := fun b => b.label, setNodeLabel := fun b v => { b with label := v },
    getNodeX := fun b => b.x, setNodeX := fun b v => { b with x := v },
    getNodeY := fun b => b.y, setNodeY := fun b v => { b with y := v },
    getNodeWidth := fun b => b.width, setNodeWidth := fun b v => { b with width := v },
    getNodeHeight := fun b => b.height, setNodeHeight := fun b v => { b with height := v },
    getEdgeWeight := fun b => b.weight, setEdgeWeight := fun b v => { b with weight := v },
    getGroupLabel := fun b => b.label, setGroupLabel := fun b v => { b with label := v },
    getGroupX := fun b => b.x, setGroupX := fun b v => { b with x := v },
    getGroupY := fun b => b.y, setGroupY := fun b v => { b with y := v },
    getGroupWidth := fun b => b.width, setGroupWidth := fun b v => { b with width := v },
    getGroupHeight := fun b => b.height, setGroupHeight := fun b v => { b with height := v } }

/-- Two nodes (addresses 1 and 2) joined by one edge 1 -> 2 (address 3). -/
def twoNodesOneEdge : GenGraph storingConfig :=
  ((GenGraph.empty.createNode.1).createNode.1.createEdge (some 1) (some 2)).1

/-- The graph `twoNodesOneEdge` with a group (address 4) that holds node 1. -/
def groupedGraph : GenGraph storingConfig :=
  ((twoNodesOneEdge.createGroup.1).groupInsertNode (some 4) (some 1)).1

/-- A serializer constructed with the class names of the three primitives. -/
def defaultSerializer : ProtoSerializer storingConfig :=
  ProtoSerializer.new "gtpo::Node" "gtpo::Edge" "gtpo::Group"

/-- Node 1 of `twoNodesOneEdge`: the source of edge 3. -/
def sourceNode : GenNode storingConfig :=
  { addr := 1, className := "gtpo::Node", base := storingConfig.nodeBase, serializable := true,
    inEdges := [], outEdges := [3], inNodes := [], outNodes := [2], group := none }

/-- Node 2 of `twoNodesOneEdge`: the destination of edge 3. -/
def destinationNode : GenNode storingConfig :=
  { addr := 2, className := "gtpo::Node", base := storingConfig.nodeBase, serializable := true,
    inEdges := [3], outEdges := [], inNodes := [1], outNodes := [], group := none }

/-- Node 1 of `groupedGraph`: the source of edge 3, member of group 4. -/
def groupedNode : GenNode storingConfig :=
  { addr := 1, className := "gtpo::Node", base := storingConfig.nodeBase, serializable := true,
    inEdges := [], outEdges := [3], inNodes := [], outNodes := [2], group := some 4 }

/-- A graph whose only node (address 1) is a control node: its serializable flag is off. -/
def controlNodeGraph : GenGraph storingConfig :=
  (GenGraph.empty.createNode.1).updateNode 1 (fun n => n.setSerializable false)

/-- A message with one node record (id 1) and two group records: the first lists the member
id 5, which no node record defines, the second lists no member. -/
def unresolvedMemberMessage : pb.GTpoGraph :=
  { node_count := 1, edge_count := 0, group_count := 2,
    nodes := [.node { label := "n", x := 0, y := 0, width := 0, height := 0, node_id := 1 }],
    edges := [],
    groups := [.group { label := "a", x := 0, y := 0, width := 0, height := 0, group_id := 2,
                        node_ids := [5] },
               .group { label := "b", x := 0, y := 0, width := 0, height := 0, group_id := 3,
                        node_ids := [] }],
    user1 := .unset, user2 := .unset }

/-- A message with one node record (id 1) and two edge records: the first names the
destination id 9, which no node record defines, the second is a loop on node 1. -/
def unresolvedEdgeMessage : pb.GTpoGraph :=
  { node_count := 1, edge_count := 2, group_count := 0,
    nodes := [.node { label := "n", x := 0, y := 0, width := 0, height := 0, node_id := 1 }],
    edges := [.edge { edge_id := 2, src_node_id := 1, dst_node_id := 9, weight := 0 },
              .edge { edge_id := 3, src_node_id := 1, dst_node_id := 1, weight := 4 }],
    groups := [], user1 := .unset, user2 := .unset }

/-- A node whose stored x is 1 and whose stored y is 2. -/
def offAxisNode : GenNode storingConfig :=
  { addr := 1, className := "gtpo::Node",
    base := { label := "", x := 1, y := 2, width := 0, height := 0, weight := 0 },
    serializable := true, inEdges := [], outEdges := [], inNodes := [], outNodes := [],
    group := none }

/-- A graph that owns `offAxisNode` only. -/
def offAxisGraph : GenGraph storingConfig :=
  (GenGraph.empty.insertNode (some offAxisNode)).1

/-- The graph `groupedGraph` with one behaviour attached by the user. -/
def observedGraph : GenGraph storingConfig :=
  { groupedGraph with behaviours := ["observer"] }

/-- Two nodes (addresses 1 and 2), two parallel edges 1 -> 2 (addresses 3 and 4) and one edge
2 -> 1 (address 5). -/
def parallelGraph : GenGraph storingConfig :=
  (((twoNodesOneEdge.createEdge (some 1) (some 2)).1).createEdge (some 2) (some 1)).1

/-- Two nodes (addresses 1 and 2) put into a group (address 3) before the edge 1 -> 2
(address 4) is created. -/
def memberPairGraph : GenGraph storingConfig :=
  ((((GenGraph.empty.createNode.1.createNode.1.createGroup.1).groupInsertNode (some 3)
    (some 1)).1.groupInsertNode (some 3) (some 2)).1.createEdge (some 1) (some 2)).1

/-- A caller-defined payload of type "U1". -/
def firstPayload : Message := { typeName := "U1", content := [1] }

/-- A caller-defined payload of type "U2". -/
def secondPayload : Message := { typeName := "U2", content := [2] }

/-- A message with one well-formed group record and no node record. -/
def groupsOnlyMessage : pb.GTpoGraph :=
  { node_count := 0, edge_count := 0, group_count := 1,
    nodes := [], edges := [],
    groups := [.group { label := "a", x := 0, y := 0, width := 0, height := 0, group_id := 1,
                        node_ids := [] }],
    user1 := .unset, user2 := .unset }

/-- A serializer that has written `twoNodesOneEdge` once: its id map numbers the nodes 1 and 2
and the edge 3. -/
def usedSerializer : ProtoSerializer storingConfig :=
  (defaultSerializer.serializeOut twoNodesOneEdge none none).serializer

/-- The graph `twoNodesOneEdge` after a node (address 4) and an edge 1 -> 4 (address 5) were
added to it. -/
def grownGraph : GenGraph storingConfig :=
  ((twoNodesOneEdge.createNode.1).createEdge (some 1) (some 4)).1

/-- A caller's node encoder that packs a marker message into the record it is given. -/
def markerNodeOutFunctor : NodeOutFunctor storingConfig :=
  fun _ anyNodes _ _ => anyNodes.map (fun _ => pb.Any.user "marker" [])

/-- A caller's edge encoder that packs a marker message and reports success. -/
def markerEdgeOutFunctor : EdgeOutFunctor storingConfig :=
  fun _ anyEdges _ _ => (true, anyEdges.map (fun _ => pb.Any.user "marker" []))

/-- A caller's group encoder that packs a marker message and reports success. -/
def markerGroupOutFunctor : GroupOutFunctor storingConfig :=
  fun _ anyGroups _ _ => (true, anyGroups.map (fun _ => pb.Any.user "marker" []))

/-- A new serializer on which the caller registered marker encoders under the three default
class names. -/
def shadowedSerializer : ProtoSerializer storingConfig :=
  ((defaultSerializer.registerNodeOutFunctor "gtpo::Node"
    markerNodeOutFunctor).registerEdgeOutFunctor "gtpo::Edge"
    markerEdgeOutFunctor).registerGroupOutFunctor "gtpo::Group" markerGroupOutFunctor

/-- The graph `twoNodesOneEdge` with node 2, the destination of its edge, turned into a
control node: its serializable flag is off. -/
def controlEdgeGraph : GenGraph storingConfig :=
  twoNodesOneEdge.updateNode 2 (fun n => n.setSerializable false)

/-- The edge 1 -> 2 (address 3) of `twoNodesOneEdge`. -/
def firstEdge : GenEdge storingConfig := GenEdge.new 3 (some 1) (some 2)

/-- Node 2 of `controlEdgeGraph`: the destination of edge 3, not serializable. -/
def controlDestinationNode : GenNode storingConfig := destinationNode.setSerializable false

/-- The node `destinationNode`, which still carries the in edge 3 of the graph it comes from,
handed to an empty graph by `insertNode`. -/
def adoptingGraph : GenGraph storingConfig :=
  (GenGraph.empty.insertNode (some destinationNode)).1

/-- A node constructed outside the graph (address 7), with no edge. -/
def looseNode : GenNode storingConfig := GenNode.new 7

/-- The graph `twoNodesOneEdge` after `insertNode` adopted `looseNode` and an edge 1 -> 7
(address 8) was created. -/
def adoptedGraph : GenGraph storingConfig :=
  ((twoNodesOneEdge.insertNode (some looseNode)).1.createEdge (some 1) (some 7)).1

/-- A group constructed outside the graph (address 4) that lists the nodes 1 and 2 as members
and has no edge in either of its edge sets. -/
def filledGroup : GenGroup storingConfig :=
  { addr := 4, className := "gtpo::Group", base := storingConfig.groupBase, nodes := [1, 2],
    edges := [], adjacentEdges := [] }

/-- The graph `twoNodesOneEdge` after `insertGroup` adopted `filledGroup`. -/
def filledGroupGraph : GenGraph storingConfig :=
  (twoNodesOneEdge.insertGroup (some filledGroup)).1

/-- A group constructed outside the graph (address 9), without member. -/
def looseGroup : GenGroup storingConfig := GenGroup.new 9

/-- The graph `twoNodesOneEdge` after `insertGroup` adopted `looseGroup` and node 1 joined
it. -/
def adoptedGroupGraph : GenGraph storingConfig :=
  ((twoNodesOneEdge.insertGroup (some looseGroup)).1.groupInsertNode (some 9) (some 1)).1

/-- The graph `groupedGraph` with a second group (address 5) that node 1 joined too: node 1
is a member of group 4 and of group 5, its group reference names group 5. -/
def twoGroupsGraph : GenGraph storingConfig :=
  ((groupedGraph.createGroup.1).groupInsertNode (some 5) (some 1)).1

/-- Node 1 of `twoGroupsGraph`: the source of edge 3, with the group reference 5. -/
def regroupedNode : GenNode storingConfig :=
  { addr := 1, className := "gtpo::Node", base := storingConfig.nodeBase, serializable := true,
    inEdges := [], outEdges := [3], inNodes := [], outNodes := [2], group := some 5 }

/-- A node constructed outside the graph (address 7) whose out edge list names edge 3, which
in `twoNodesOneEdge` goes from node 1 to node 2. -/
def staleNode : GenNode storingConfig :=
  { addr := 7, className := "gtpo::Node", base := storingConfig.nodeBase, serializable := true,
    inEdges := [], outEdges := [3], inNodes := [], outNodes := [], group := none }

/-- The graph `twoNodesOneEdge` after `insertNode` adopted `staleNode` and one edge 7 -> 2
(address 8) was created: one edge goes from node 7 to node 2, and the out edge list of node 7
is [3, 8]. -/
def staleGraph : GenGraph storingConfig :=
  ((twoNodesOneEdge.insertNode (some staleNode)).1.createEdge (some 7) (some 2)).1

/-- Node 7 of `staleGraph`. -/
def staleSourceNode : GenNode storingConfig :=
  { addr := 7, className := "gtpo::Node", base := storingConfig.nodeBase, serializable := true,
    inEdges := [], outEdges := [3, 8], inNodes := [], outNodes := [2], group := none }

/-- Node 1 of `parallelGraph`: source of the edges 3 and 4, destination of edge 5. -/
def parallelSourceNode : GenNode storingConfig :=
  { addr := 1, className := "gtpo::Node", base := storingConfig.nodeBase,
    serializable := true, inEdges := [5], outEdges := [3, 4], inNodes := [2],
    outNodes := [2, 2], group := none }

/-- Node 2 of `parallelGraph`: destination of the edges 3 and 4, source of edge 5. -/
def parallelDestinationNode : GenNode storingConfig :=
  { addr := 2, className := "gtpo::Node", base := storingConfig.nodeBase,
    serializable := true, inEdges := [3, 4], outEdges := [5], inNodes := [1, 1],
    outNodes := [1], group := none }

/-! ## Model composer watcher (`qcmContainerModelComposerWatcher.h`) -/

/-- A source model as the watcher sees it through its pointer: the object, given by its
address, and the items an iteration over it yields. -/
structure SourceModel (Item : Type) where
  addr : Addr
  items : List Item

/-- The operations of the composed model the watcher calls on `_implTarget`: `append( item )`,
`insert( item, i )` and `remove( item )`, acting on the item sequence of the composed model.
`ContainerModelComposer` is declared in the absent `qcmContainerModelComposer.h`; its
operations are parameters of the embedding. -/
structure ComposerOps (Item : Type) where
  append : List Item → Item → List Item
  insert : List Item → Item → Nat → List Item
  remove : List Item → Item → List Item

/-- State of a `ContainerModelComposerWatcher` with its target: the item sequence of the
composed model `_target` and the two source pointers `_m1` and `_m2` (`none` for a null
pointer).  Signal connections only observe and are left out. -/
structure ContainerModelComposerWatcher (Item : Type) where
  target : List Item
  m1 : Option (SourceModel Item)
  m2 : Option (SourceModel Item)

namespace ContainerModelComposerWatcher

variable {Item : Type}

/-- An empty composed model with no source set. -/
def empty : ContainerModelComposerWatcher Item := { target := [], m1 := none, m2 := none }

/-- Embeds `ContainerModelComposerWatcherImpl::insertAllM1Items`: a fast append of the items of `m1`
when `_m2` is null or empty, otherwise `insert( m1Item, i++ )` from index 0. -/
def insertAllM1Items (ops : ComposerOps Item) (w : ContainerModelComposerWatcher Item)
    (m1 : Option (SourceModel Item)) : ContainerModelComposerWatcher Item :=
  let fast : Bool := match w.m2 with
    | none => true
    | some m2Model => decide (m2Model.items.length = 0)
  if fast then
    match m1 with
    | some m1Model =>
      { w with target := m1Model.items.foldl (fun t m1Item => ops.append t m1Item) w.target }
    | none => w
  else
    match m1 with
    | some m1Model =>
      { w with target := (m1Model.items.foldl
          (fun (p : List Item × Nat) m1Item => (ops.insert p.1 m1Item p.2, p.2 + 1))
          (w.target, 0)).1 }
    | none => w

/-- Embeds `ContainerModelComposerWatcherImpl::appendAllM2Items`. -/
def appendAllM2Items (ops : ComposerOps Item) (w : ContainerModelComposerWatcher Item)
    (m2 : Option (SourceModel Item)) : ContainerModelComposerWatcher Item :=
  match m2 with
  | some m2Model =>
    { w with target := m2Model.items.foldl (fun t m2Item => ops.append t m2Item) w.target }
  | none => w

/-- Embeds `ContainerModelComposerWatcherImpl::removeAllM1Items`. -/
def removeAllM1Items (ops : ComposerOps Item) (w : ContainerModelComposerWatcher Item) :
    ContainerModelComposerWatcher Item :=
  match w.m1 with
  | some m1Model =>
    { w with target := m1Model.items.foldl (fun t m1Item => ops.remove t m1Item) w.target }
  | none => w

/-- Embeds `ContainerModelComposerWatcherImpl::removeAllM2Items`. -/
def removeAllM2Items (ops : ComposerOps Item) (w : ContainerModelComposerWatcher Item) :
    ContainerModelComposerWatcher Item :=
  match w.m2 with
  | some m2Model =>
    { w with target := m2Model.items.foldl (fun t m2Item => ops.remove t m2Item) w.target }
  | none => w

/-- Embeds `ContainerModelComposerWatcher::setM1`: nothing happens when `m1` is the pointer `_m1`
holds; otherwise the items of the former source are removed, those of `m1` inserted, and
`_m1` is set. -/
def setM1 (ops : ComposerOps Item) (w : ContainerModelComposerWatcher Item)
    (m1 : Option (SourceModel Item)) : ContainerModelComposerWatcher Item :=
  if m1.map (fun m => m.addr) ≠ w.m1.map (fun m => m.addr) then
    let w1 := if w.m1.isSome then removeAllM1Items ops w else w
    let w2 := insertAllM1Items ops w1 m1
    { w2 with m1 := m1 }
  else w

/-- Embeds `ContainerModelComposerWatcher::setM2`. -/
def setM2 (ops : ComposerOps Item) (w : ContainerModelComposerWatcher Item)
    (m2 : Option (SourceModel Item)) : ContainerModelComposerWatcher Item :=
  if m2.map (fun m => m.addr) ≠ w.m2.map (fun m => m.addr) then
    let w1 := if w.m2.isSome then removeAllM2Items ops w else w
    let w2 := appendAllM2Items ops w1 m2
    { w2 with m2 := m2 }
  else w

end ContainerModelComposerWatcher

/-- A composed model that keeps its items in a sequence: `append` adds at the end,
`insert( item, i )` puts the item before position `i`, `remove` deletes the item. -/
def sequenceOps : ComposerOps Nat :=
  { append := fun l x => l ++ [x],
    insert := fun l x i => l.take i ++ x :: l.drop i,
    remove := fun l x => l.erase x }

/-! ## Theorems -/

theorem mem_removeFrom {α : Type} [DecidableEq α] (c : List α) (t x : α) :
    x ∈ removeFrom c t ↔ x ∈ c ∧ x ≠ t := by
  simp [removeFrom]

theorem nodup_removeFrom {α : Type} [DecidableEq α] (c : List α) (t : α) (h : c.Nodup) :
    (removeFrom c t).Nodup := by
  unfold removeFrom
  exact h.filter _

theorem mem_insertIntoSet {α : Type} [DecidableEq α] (c : List α) (t x : α) :
    x ∈ insertIntoSet c t ↔ x ∈ c ∨ x = t := by
  unfold insertIntoSet
  split
  · constructor
    · intro h; exact Or.inl h
    · rintro (h | h)
      · exact h
      · subst h; assumption
  · simp

theorem mem_insertInto {α : Type} (c : List α) (t x : α) :
    x ∈ insertInto c t ↔ x ∈ c ∨ x = t := by
  simp [insertInto]

/-- Adding a node at an address the index does not know; under `rooted` the node comes without
in edge. -/
theorem RootView.Inv.addNode {v : RootView} {F : Prop} (h : v.Inv F) (a : Addr)
    (x : List Addr) (hx : F → x = []) (ha : a ∉ v.search) :
    RootView.Inv { ins := insertInto v.ins (a, x), root := insertInto v.root a,
                   search := insertIntoSet v.search a } F := by
  have hn : a ∉ v.ins.map Prod.fst := fun hc => ha ((h.search_iff a).2 hc)
  have hr : F → a ∉ v.root := by
    intro hF hc
    have := (h.root_iff hF a).1 hc
    exact hn (List.mem_map_of_mem Prod.fst this)
  constructor
  · simp only [insertInto, List.map_append, List.map_cons, List.map_nil]
    rw [List.nodup_append]
    refine ⟨h.nodup, by simp, ?_⟩
    intro y hy hy2
    simp at hy2
    subst hy2
    exact hn hy
  · intro hF
    simp only [insertInto]
    rw [List.nodup_append]
    refine ⟨h.rootNodup hF, by simp, ?_⟩
    intro y hy hy2
    simp at hy2
    subst hy2
    exact hr hF hy
  · intro hF b
    have hx0 := hx hF
    subst hx0
    simp only [mem_insertInto, h.root_iff hF b]
    constructor
    · rintro (hb | hb)
      · exact Or.inl hb
      · right; rw [hb]
    · rintro (hb | hb)
      · exact Or.inl hb
      · right; exact (Prod.mk.inj hb).1
  · intro b
    simp only [mem_insertIntoSet, h.search_iff b, insertInto, List.map_append, List.mem_append,
      List.map_cons, List.map_nil, List.mem_singleton]

theorem RootView.Inv.unique {v : RootView} {F : Prop} (h : v.Inv F) {a : Addr} {x y : List Addr}
    (hx : (a, x) ∈ v.ins) (hy : (a, y) ∈ v.ins) : x = y := by
  have := List.inj_on_of_nodup_map h.nodup hx hy rfl
  exact (Prod.mk.inj this).2

theorem map_fst_map_if (l : List (Addr × List Addr)) (da : Addr) (f : List Addr → List Addr) :
    (l.map (fun p => if p.1 = da then (p.1, f p.2) else p)).map Prod.fst = l.map Prod.fst := by
  rw [List.map_map]
  apply List.map_congr_left
  intro p _
  simp only [Function.comp]
  split <;> rfl

theorem mem_map_if (l : List (Addr × List Addr)) (da : Addr) (f : List Addr → List Addr)
    (a : Addr) (x : List Addr) :
    (a, x) ∈ l.map (fun p => if p.1 = da then (p.1, f p.2) else p) ↔
      (a ≠ da ∧ (a, x) ∈ l) ∨ (a = da ∧ ∃ y, (a, y) ∈ l ∧ x = f y) := by
  simp only [List.mem_map]
  constructor
  · rintro ⟨⟨b, y⟩, hm, he⟩
    by_cases hb : b = da
    · simp only [hb, if_true] at he
      have h1 := (Prod.mk.inj he).1
      have h2 := (Prod.mk.inj he).2
      right
      refine ⟨h1.symm, y, ?_, h2.symm⟩
      rw [← h1, ← hb]; exact hm
    · simp only [hb, if_false] at he
      have h1 := (Prod.mk.inj he).1
      have h2 := (Prod.mk.inj he).2
      left
      subst h1; subst h2
      exact ⟨hb, hm⟩
  · rintro (⟨hne, hm⟩ | ⟨he, y, hm, hx⟩)
    · exact ⟨(a, x), hm, by simp [hne]⟩
    · exact ⟨(a, y), hm, by simp [he, hx]⟩

/-- Registering an in edge at the node at address `da`, whose in edges were `dIn`. -/
theorem RootView.Inv.addIn {v : RootView} {F : Prop} (h : v.Inv F) (da e : Addr)
    (dIn : List Addr) (hd : (da, dIn) ∈ v.ins) :
    RootView.Inv
      { ins := v.ins.map (fun p => if p.1 = da then (p.1, insertInto p.2 e) else p),
        root := if dIn.length = 0 then removeFrom v.root da else v.root,
        search := v.search } F := by
  constructor
  · exact (congrArg List.Nodup (map_fst_map_if v.ins da (fun y => insertInto y e))).mpr h.nodup
  · intro hF
    dsimp only
    split
    · exact nodup_removeFrom _ _ (h.rootNodup hF)
    · exact h.rootNodup hF
  · intro hF a
    refine Iff.trans ?_ (mem_map_if v.ins da (fun y => insertInto y e) a []).symm
    dsimp only
    by_cases ha : a = da
    · subst ha
      have hne : ∀ y : List Addr, ([] : List Addr) ≠ insertInto y e := by
        intro y; simp [insertInto]
      constructor
      · intro hr
        exfalso
        split at hr
        · exact ((mem_removeFrom _ _ _).1 hr).2 rfl
        · rename_i hl
          have := (h.root_iff hF a).1 hr
          have := h.unique this hd
          subst this
          exact hl rfl
      · rintro (⟨hc, _⟩ | ⟨_, y, _, hy⟩)
        · exact absurd rfl hc
        · exact absurd hy (hne y)
    · constructor
      · intro hr
        left
        refine ⟨ha, (h.root_iff hF a).1 ?_⟩
        split at hr
        · exact ((mem_removeFrom _ _ _).1 hr).1
        · exact hr
      · rintro (⟨_, hm⟩ | ⟨hc, _⟩)
        · have := (h.root_iff hF a).2 hm
          split
          · exact (mem_removeFrom _ _ _).2 ⟨this, ha⟩
          · exact this
        · exact absurd hc ha
  · intro a
    exact (h.search_iff a).trans
      (Eq.to_iff (congrArg (fun l => a ∈ l)
        (map_fst_map_if v.ins da (fun y => insertInto y e)).symm))

/-- Deregistering an in edge at the node at address `da`; `o` is what locking that node
gave. -/
theorem RootView.Inv.dropIn {v : RootView} {F : Prop} (h : v.Inv F) (da e : Addr)
    (o : Option (List Addr))
    (hs : ∀ dIn, o = some dIn → (da, dIn) ∈ v.ins)
    (hn : o = none → da ∉ v.ins.map Prod.fst) :
    RootView.Inv
      { ins := v.ins.map (fun p => if p.1 = da then (p.1, removeFrom p.2 e) else p),
        root := RootView.rootAfterDrop v.root da e o,
        search := v.search } F := by
  have hroot : ∀ a, a ∈ RootView.rootAfterDrop v.root da e o ↔
        a ∈ v.root ∨ (a = da ∧ ∃ dIn, o = some dIn ∧ dIn ≠ [] ∧ removeFrom dIn e = []) := by
    intro a
    cases o with
    | none => simp [RootView.rootAfterDrop]
    | some dIn =>
      simp only [RootView.rootAfterDrop]
      split
      · rename_i hc
        simp only [mem_insertInto]
        constructor
        · rintro (h1 | h1)
          · exact Or.inl h1
          · exact Or.inr ⟨h1, dIn, rfl, hc⟩
        · rintro (h1 | ⟨h1, _⟩)
          · exact Or.inl h1
          · exact Or.inr h1
      · rename_i hc
        constructor
        · intro h1; exact Or.inl h1
        · rintro (h1 | ⟨_, d2, hd2, hc2⟩)
          · exact h1
          · cases hd2; exact absurd hc2 hc
  constructor
  · exact (congrArg List.Nodup (map_fst_map_if v.ins da (fun y => removeFrom y e))).mpr h.nodup
  · intro hF
    cases o with
    | none => exact h.rootNodup hF
    | some dIn =>
      dsimp only [RootView.rootAfterDrop]
      split
      · rename_i hc
        simp only [insertInto]
        rw [List.nodup_append]
        refine ⟨h.rootNodup hF, by simp, ?_⟩
        intro x hx hx2
        simp at hx2
        subst hx2
        have := (h.root_iff hF x).1 hx
        have := h.unique this (hs dIn rfl)
        exact hc.1 this.symm
      · exact h.rootNodup hF
  · intro hF a
    refine Iff.trans (hroot a) ?_
    refine Iff.trans ?_ (mem_map_if v.ins da (fun y => removeFrom y e) a []).symm
    dsimp only
    constructor
    · rintro (hr | ⟨ha, dIn, ho, hne, hrm⟩)
      · have hm := (h.root_iff hF a).1 hr
        by_cases ha : a = da
        · right
          exact ⟨ha, [], hm, by simp [removeFrom]⟩
        · left; exact ⟨ha, hm⟩
      · right
        subst ha
        exact ⟨rfl, dIn, hs dIn ho, hrm.symm⟩
    · rintro (⟨_, hm⟩ | ⟨ha, y, hm, hy⟩)
      · exact Or.inl ((h.root_iff hF a).2 hm)
      · subst ha
        by_cases hy0 : y = []
        · subst hy0
          exact Or.inl ((h.root_iff hF a).2 hm)
        · right
          refine ⟨rfl, y, ?_, hy0, hy.symm⟩
          cases ho : o with
          | none =>
            exact absurd (List.mem_map_of_mem Prod.fst hm) (hn ho)
          | some d2 =>
            have := h.unique (hs d2 ho) hm
            rw [this]
  · intro a
    exact (h.search_iff a).trans
      (Eq.to_iff (congrArg (fun l => a ∈ l)
        (map_fst_map_if v.ins da (fun y => removeFrom y e)).symm))

/-- Erasing the node at address `a` from the three containers. -/
theorem RootView.Inv.dropNode {v : RootView} {F : Prop} (h : v.Inv F) (a : Addr) :
    RootView.Inv
      { ins := v.ins.filter (fun p => decide (p.1 ≠ a)),
        root := removeFrom v.root a,
        search := removeFrom v.search a } F := by
  constructor
  · have : (v.ins.filter (fun p => decide (p.1 ≠ a))).map Prod.fst =
        (v.ins.map Prod.fst).filter (fun x => decide (x ≠ a)) := by
      rw [List.filter_map]; rfl
    rw [this]
    exact h.nodup.filter _
  · intro hF
    exact nodup_removeFrom _ _ (h.rootNodup hF)
  · intro hF b
    simp only [mem_removeFrom, h.root_iff hF b, List.mem_filter, decide_eq_true_eq]
  · intro b
    simp only [mem_removeFrom, h.search_iff b, List.mem_map, List.mem_filter, decide_eq_true_eq]
    constructor
    · rintro ⟨⟨p, hp, hpe⟩, hne⟩
      exact ⟨p, ⟨hp, by rw [hpe]; exact hne⟩, hpe⟩
    · rintro ⟨p, ⟨hp, hne⟩, hpe⟩
      exact ⟨⟨p, hp, hpe⟩, by rw [← hpe]; exact hne⟩

theorem GenGraph.lockNode_some {g : GenGraph C} {w : WeakNode} {n : GenNode C}
    (h : g.lockNode w = some n) : n ∈ g.nodes ∧ w = some n.addr := by
  cases w with
  | none => simp [GenGraph.lockNode] at h
  | some a =>
    simp only [GenGraph.lockNode] at h
    refine ⟨List.mem_of_find?_eq_some h, ?_⟩
    have := List.find?_some h
    simp at this
    rw [this]

theorem GenGraph.lockNode_none {g : GenGraph C} {a : Addr}
    (h : g.lockNode (some a) = none) : a ∉ g.nodes.map (fun n => n.addr) := by
  simp only [GenGraph.lockNode, List.find?_eq_none] at h
  intro hc
  obtain ⟨n, hn, hna⟩ := List.mem_map.1 hc
  exact h n hn (by simpa using hna)

theorem GenGraph.memberNode_some {g : GenGraph C} {w : WeakNode} {n : GenNode C}
    (h : g.memberNode w = some n) :
    n ∈ g.nodes ∧ w = some n.addr ∧ n.addr ∈ g.nodesSearch := by
  unfold GenGraph.memberNode at h
  split at h
  · rename_i hc
    obtain ⟨h1, h2⟩ := GenGraph.lockNode_some h
    refine ⟨h1, h2, ?_⟩
    subst h2
    simpa [GenGraph.containsNode] using hc
  · cases h

theorem GenGraph.rootView_updateNode (g : GenGraph C) (a : Addr) (f : GenNode C → GenNode C)
    (hf : ∀ n, (f n).addr = n.addr ∧ (f n).inEdges = n.inEdges) :
    (g.updateNode a f).rootView = g.rootView := by
  simp only [GenGraph.rootView, GenGraph.updateNode, List.map_map]
  congr 1
  apply List.map_congr_left
  intro n _
  simp only [Function.comp]
  split
  · rw [(hf n).1, (hf n).2]
  · rfl

theorem GenGraph.ins_updateNode (g : GenGraph C) (a : Addr) (f : GenNode C → GenNode C)
    (k : List Addr → List Addr)
    (hf : ∀ n, (f n).addr = n.addr ∧ (f n).inEdges = k n.inEdges) :
    (g.updateNode a f).nodes.map (fun n => (n.addr, n.inEdges)) =
      (g.nodes.map (fun n => (n.addr, n.inEdges))).map
        (fun p => if p.1 = a then (p.1, k p.2) else p) := by
  simp only [GenGraph.updateNode, List.map_map]
  apply List.map_congr_left
  intro n _
  simp only [Function.comp]
  split
  · rw [(hf n).1, (hf n).2]
  · rfl

theorem GenGraph.rootView_attachEdge (g : GenGraph C) (e : GenEdge C) (s d : GenNode C) :
    (g.attachEdge e s d).rootView =
      { ins := g.rootView.ins.map
          (fun p => if p.1 = d.addr then (p.1, insertInto p.2 e.addr) else p),
        root := if d.inEdges.length = 0 then removeFrom g.rootView.root d.addr
                else g.rootView.root,
        search := g.rootView.search } := by
  have h1 := GenGraph.rootView_updateNode g s.addr (fun n => n.addOutEdge e.addr d.addr)
    (fun n => ⟨rfl, rfl⟩)
  have h2 := GenGraph.ins_updateNode (g.updateNode s.addr (fun n => n.addOutEdge e.addr d.addr))
    d.addr (fun n => n.addInEdge e.addr s.addr) (fun y => insertInto y e.addr)
    (fun n => ⟨rfl, rfl⟩)
  have h3 : (g.updateNode s.addr (fun n => n.addOutEdge e.addr d.addr)).nodes.map
      (fun n => (n.addr, n.inEdges)) = g.nodes.map (fun n => (n.addr, n.inEdges)) :=
    congrArg RootView.ins h1
  rw [h3] at h2
  simp only [GenGraph.rootView, GenGraph.attachEdge, GenGraph.notifyEdgeInserted,
    GenNode.getInDegree]
  congr 1

theorem GenGraph.inv_attachEdge {g : GenGraph C} {F : Prop} (h : g.rootView.Inv F) (e : GenEdge C)
    (s d : GenNode C) (hd : d ∈ g.nodes) : (g.attachEdge e s d).rootView.Inv F := by
  rw [GenGraph.rootView_attachEdge]
  apply RootView.Inv.addIn h
  simp only [GenGraph.rootView, List.mem_map]
  exact ⟨d, hd, rfl⟩

theorem GenGraph.inv_insertNode {g : GenGraph C} {F : Prop} (h : g.rootView.Inv F)
    (node : Option (GenNode C)) (hnode : F → ∀ n, node = some n → n.inEdges = []) :
    (g.insertNode node).1.rootView.Inv F := by
  unfold GenGraph.insertNode
  cases node with
  | none => exact h
  | some n =>
    dsimp only
    split
    · exact h
    · rename_i hc
      simp only [GenGraph.containsNode, decide_eq_true_eq] at hc
      have := RootView.Inv.addNode h n.addr n.inEdges (fun hF => hnode hF n rfl) hc
      simp only [GenGraph.rootView, insertInto, List.map_append, List.map_cons, List.map_nil]
        at this ⊢
      exact this

theorem foldr_max_ge (l : List Nat) (a : Nat) (h : a ∈ l) : a ≤ l.foldr max 0 := by
  induction l with
  | nil => cases h
  | cons x xs ih =>
    simp only [List.foldr_cons]
    rcases List.mem_cons.1 h with h1 | h1
    · subst h1; exact le_max_left _ _
    · exact le_trans (ih h1) (le_max_right _ _)

theorem GenGraph.fresh_not_mem (g : GenGraph C) (a : Addr) (h : a ∈ g.refs) : a ≠ g.fresh := by
  intro hc
  subst hc
  exact Nat.not_succ_le_self _ (foldr_max_ge g.refs g.fresh h)

theorem GenGraph.fresh_not_search (g : GenGraph C) : g.fresh ∉ g.nodesSearch := by
  intro h
  exact g.fresh_not_mem g.fresh (by simp [GenGraph.refs, h]) rfl

theorem GenGraph.fresh_not_node (g : GenGraph C) : ∀ n ∈ g.nodes, n.addr ≠ g.fresh := by
  intro n hn
  apply g.fresh_not_mem
  simp only [GenGraph.refs, List.mem_append, List.mem_map]
  exact Or.inl ⟨n, hn, rfl⟩

theorem GenGraph.fresh_not_edge (g : GenGraph C) : ∀ e ∈ g.edges, e.addr ≠ g.fresh := by
  intro e he
  apply g.fresh_not_mem
  simp only [GenGraph.refs, List.mem_append, List.mem_map]
  exact Or.inr (Or.inl ⟨e, he, rfl⟩)

theorem GenGraph.fresh_not_group (g : GenGraph C) : ∀ x ∈ g.groups, x.addr ≠ g.fresh := by
  intro x hx
  apply g.fresh_not_mem
  simp only [GenGraph.refs, List.mem_append, List.mem_map]
  exact Or.inr (Or.inr (Or.inl ⟨x, hx, rfl⟩))

theorem GenGraph.fresh_not_root (g : GenGraph C) : g.fresh ∉ g.rootNodes := by
  intro h
  exact g.fresh_not_mem g.fresh (by simp [GenGraph.refs, h]) rfl

theorem GenGraph.rootView_detachEdge_some (g : GenGraph C) (e : GenEdge C) (da : Addr)
    (hd : e.dst = some da) :
    (g.detachEdge e).rootView =
      { ins := g.rootView.ins.map
          (fun p => if p.1 = da then (p.1, removeFrom p.2 e.addr) else p),
        root := RootView.rootAfterDrop g.rootView.root da e.addr
          ((g.lockNode (some da)).map (fun n => n.inEdges)),
        search := g.rootView.search } := by
  have hroot : (match g.lockNode e.dst with
      | some d =>
        if d.inEdges ≠ [] ∧ removeFrom d.inEdges e.addr = [] then insertInto g.rootNodes d.addr
        else g.rootNodes
      | none => g.rootNodes) =
      RootView.rootAfterDrop g.rootNodes da e.addr
        ((g.lockNode (some da)).map (fun n => n.inEdges)) := by
    rw [hd]
    cases hl : g.lockNode (some da) with
    | none => rfl
    | some d =>
      have := (GenGraph.lockNode_some hl).2
      simp only [Option.some.injEq] at this
      simp only [Option.map_some', RootView.rootAfterDrop, this]
  cases hs : e.src with
  | none =>
    have h2 := GenGraph.ins_updateNode g da (fun n => n.removeInEdge e.addr e.src)
      (fun y => removeFrom y e.addr) (fun n => ⟨rfl, rfl⟩)
    simp only [GenGraph.rootView, GenGraph.detachEdge, GenGraph.notifyEdgeRemoved, hs, hd]
    rw [hs] at h2
    rw [hd] at hroot
    rw [h2, hroot]
    rfl
  | some sa =>
    have h1 := GenGraph.rootView_updateNode g sa (fun n => n.removeOutEdge e.addr e.dst)
      (fun n => ⟨rfl, rfl⟩)
    have h2 := GenGraph.ins_updateNode (g.updateNode sa (fun n => n.removeOutEdge e.addr e.dst))
      da (fun n => n.removeInEdge e.addr e.src)
      (fun y => removeFrom y e.addr) (fun n => ⟨rfl, rfl⟩)
    have h3 : (g.updateNode sa (fun n => n.removeOutEdge e.addr e.dst)).nodes.map
        (fun n => (n.addr, n.inEdges)) = g.nodes.map (fun n => (n.addr, n.inEdges)) :=
      congrArg RootView.ins h1
    rw [h3] at h2
    simp only [GenGraph.rootView, GenGraph.detachEdge, GenGraph.notifyEdgeRemoved, hs, hd]
    rw [hd, hs] at h2
    rw [hd] at hroot
    rw [h2, hroot]
    rfl

theorem GenGraph.rootView_detachEdge_none (g : GenGraph C) (e : GenEdge C)
    (hd : e.dst = none) : (g.detachEdge e).rootView = g.rootView := by
  cases hs : e.src with
  | none =>
    simp only [GenGraph.rootView, GenGraph.detachEdge, GenGraph.notifyEdgeRemoved, hs, hd,
      GenGraph.lockNode]
  | some sa =>
    have h1 := GenGraph.rootView_updateNode g sa (fun n => n.removeOutEdge e.addr none)
      (fun n => ⟨rfl, rfl⟩)
    simp only [GenGraph.rootView, GenGraph.detachEdge, GenGraph.notifyEdgeRemoved, hs, hd,
      GenGraph.lockNode] at h1 ⊢
    simp only [RootView.mk.injEq] at h1
    rw [h1.1]
    rfl

theorem GenGraph.inv_detachEdge {g : GenGraph C} {F : Prop} (h : g.rootView.Inv F) (e : GenEdge C) :
    (g.detachEdge e).rootView.Inv F := by
  cases hd : e.dst with
  | none => rw [GenGraph.rootView_detachEdge_none g e hd]; exact h
  | some da =>
    rw [GenGraph.rootView_detachEdge_some g e da hd]
    apply RootView.Inv.dropIn h
    · intro dIn ho
      cases hl : g.lockNode (some da) with
      | none => rw [hl] at ho; cases ho
      | some d =>
        rw [hl] at ho
        simp only [Option.map_some', Option.some.injEq] at ho
        obtain ⟨h1, h2⟩ := GenGraph.lockNode_some hl
        simp only [Option.some.injEq] at h2
        simp only [GenGraph.rootView, List.mem_map]
        exact ⟨d, h1, by rw [h2, ho]⟩
    · intro ho
      cases hl : g.lockNode (some da) with
      | none =>
        have := GenGraph.lockNode_none hl
        simpa [GenGraph.rootView, List.map_map] using this
      | some d => rw [hl] at ho; cases ho

theorem GenGraph.rootView_notifyGroupNode (g : GenGraph C) (a na : Addr) :
    (g.notifyGroupNode a na).rootView = g.rootView := by
  unfold GenGraph.notifyGroupNode
  split <;> rfl

theorem GenGraph.rootView_groupDropNode (g : GenGraph C) (a na : Addr) :
    (g.groupDropNode a na).rootView = g.rootView := by
  unfold GenGraph.groupDropNode
  rw [GenGraph.rootView_notifyGroupNode]
  refine Eq.trans (GenGraph.rootView_updateNode _ _ _ ?_) rfl
  intro n
  exact ⟨rfl, rfl⟩

theorem GenGraph.inv_detachEdgeAt {g : GenGraph C} {F : Prop} (h : g.rootView.Inv F) (ea : Addr) :
    (g.detachEdgeAt ea).rootView.Inv F := by
  unfold GenGraph.detachEdgeAt
  split
  · exact GenGraph.inv_detachEdge h _
  · exact h

theorem GenGraph.inv_foldl {α : Type} {F : Prop} (f : GenGraph C → α → GenGraph C)
    (hf : ∀ (g : GenGraph C) (x : α), g.rootView.Inv F → (f g x).rootView.Inv F)
    (l : List α) (g : GenGraph C) (h : g.rootView.Inv F) : (l.foldl f g).rootView.Inv F := by
  induction l generalizing g with
  | nil => exact h
  | cons x xs ih => exact ih (f g x) (hf g x h)

theorem GenGraph.inv_eraseNode {g : GenGraph C} {F : Prop} (h : g.rootView.Inv F) (n : GenNode C) :
    (g.eraseNode n).rootView.Inv F := by
  have h1 := GenGraph.inv_foldl (fun (k : GenGraph C) ea => k.detachEdgeAt ea)
    (fun k ea hk => GenGraph.inv_detachEdgeAt hk ea) (n.inEdges ++ n.outEdges) g h
  have h2 : ∀ k : GenGraph C, k.rootView.Inv F →
      (match n.group with
        | some a => k.groupDropNode a n.addr
        | none => k).rootView.Inv F := by
    intro k hk
    cases n.group with
    | none => exact hk
    | some a => dsimp only; rw [GenGraph.rootView_groupDropNode]; exact hk
  have h3 := RootView.Inv.dropNode (h2 _ h1) n.addr
  simp only [GenGraph.rootView, List.filter_map] at h3 ⊢
  exact h3

theorem GenGraph.inv_createEdge {g : GenGraph C} {F : Prop} (h : g.rootView.Inv F)
    (source destination : WeakNode) : (g.createEdge source destination).1.rootView.Inv F := by
  unfold GenGraph.createEdge
  split
  · rename_i s d hs hd
    exact GenGraph.inv_attachEdge h _ s d (GenGraph.memberNode_some hd).1
  · exact h

theorem GenGraph.inv_insertEdge {g : GenGraph C} {F : Prop} (h : g.rootView.Inv F)
    (edge : Option (GenEdge C)) : (g.insertEdge edge).1.rootView.Inv F := by
  unfold GenGraph.insertEdge
  cases edge with
  | none => exact h
  | some e =>
    dsimp only
    split
    · exact h
    · split
      · rename_i s d hs hd
        exact GenGraph.inv_attachEdge h _ s d (GenGraph.memberNode_some hd).1
      · exact h

theorem GenGraph.inv_removeEdge {g : GenGraph C} {F : Prop} (h : g.rootView.Inv F) (edge : WeakEdge) :
    (g.removeEdge edge).1.rootView.Inv F := by
  unfold GenGraph.removeEdge
  split
  · exact h
  · split
    · split
      · exact GenGraph.inv_detachEdge h _
      · exact h
    · exact h

theorem GenGraph.inv_removeEdgeBetween {g : GenGraph C} {F : Prop} (h : g.rootView.Inv F)
    (source destination : WeakNode) :
    (g.removeEdgeBetween source destination).1.rootView.Inv F := by
  unfold GenGraph.removeEdgeBetween
  split
  · exact h
  · exact GenGraph.inv_removeEdge h _

theorem GenGraph.inv_removeAllEdges {g : GenGraph C} {F : Prop} (h : g.rootView.Inv F)
    (source destination : WeakNode) :
    (g.removeAllEdges source destination).1.rootView.Inv F := by
  unfold GenGraph.removeAllEdges
  split
  · exact h
  · exact GenGraph.inv_foldl (fun (k : GenGraph C) x => k.detachEdge x)
      (fun k x hk => GenGraph.inv_detachEdge hk x) _ g h

theorem GenGraph.inv_removeNode {g : GenGraph C} {F : Prop} (h : g.rootView.Inv F) (node : WeakNode) :
    (g.removeNode node).1.rootView.Inv F := by
  unfold GenGraph.removeNode
  split
  · exact h
  · exact GenGraph.inv_eraseNode h _

theorem GenGraph.rootView_insertGroup (g : GenGraph C) (group : Option (GenGroup C)) :
    (g.insertGroup group).1.rootView = g.rootView := by
  unfold GenGraph.insertGroup
  cases group with
  | none => rfl
  | some x => dsimp only; split <;> rfl

theorem GenGraph.rootView_removeGroup (g : GenGraph C) (group : WeakGroup) :
    (g.removeGroup group).1.rootView = g.rootView := by
  unfold GenGraph.removeGroup
  split
  · rfl
  · simp only [GenGraph.rootView, List.map_map]
    congr 1
    apply List.map_congr_left
    intro n _
    simp only [Function.comp]
    split <;> rfl

theorem GenGraph.rootView_groupInsertNode (g : GenGraph C) (group : WeakGroup)
    (node : WeakNode) : (g.groupInsertNode group node).1.rootView = g.rootView := by
  unfold GenGraph.groupInsertNode
  split
  · split
    · rfl
    · dsimp only
      rw [GenGraph.rootView_notifyGroupNode]
      refine Eq.trans (GenGraph.rootView_updateNode _ _ _ ?_) rfl
      intro n
      exact ⟨rfl, rfl⟩
  · rfl

theorem GenGraph.rootView_groupRemoveNode (g : GenGraph C) (group : WeakGroup)
    (node : WeakNode) : (g.groupRemoveNode group node).1.rootView = g.rootView := by
  unfold GenGraph.groupRemoveNode
  split
  · split
    · exact GenGraph.rootView_groupDropNode _ _ _
    · rfl
  · rfl

theorem GenGraph.inv_clear {g : GenGraph C} {F : Prop} (h : g.rootView.Inv F) : g.clear.rootView.Inv F := by
  unfold GenGraph.clear
  have h1 := GenGraph.inv_foldl
    (fun (k : GenGraph C) (n : GenNode C) =>
      match k.lockNode (some n.addr) with
      | some m => k.eraseNode m
      | none => k)
    (fun k n hk => by
      dsimp only
      split
      · exact GenGraph.inv_eraseNode hk _
      · exact hk) g.nodes g h
  exact h1

theorem GenGraph.inv_empty (F : Prop) : (GenGraph.empty : GenGraph C).rootView.Inv F := by
  constructor <;> simp [GenGraph.empty, GenGraph.rootView]

/-- Every reachable graph keeps its in-edge bookkeeping consistent, the root cache included
when the inserted nodes arrive without in edge. -/
theorem ReachableBy.inv {N : GenNode C → Prop} {G : GenGroup C → Prop} {g : GenGraph C}
    (h : ReachableBy N G g) : g.rootView.Inv (∀ n, N n → n.inEdges = []) := by
  induction h with
  | empty => exact GenGraph.inv_empty _
  | createNode _ ih => exact GenGraph.inv_insertNode ih _ (fun _ n hn => by cases hn; rfl)
  | insertNode node hN _ ih =>
    exact GenGraph.inv_insertNode ih node (fun hF n hn => hF n (hN n hn))
  | createEdge s d _ ih => exact GenGraph.inv_createEdge ih s d
  | insertEdge e _ ih => exact GenGraph.inv_insertEdge ih e
  | removeEdge e _ ih => exact GenGraph.inv_removeEdge ih e
  | removeEdgeBetween s d _ ih => exact GenGraph.inv_removeEdgeBetween ih s d
  | removeAllEdges s d _ ih => exact GenGraph.inv_removeAllEdges ih s d
  | removeNode n _ ih => exact GenGraph.inv_removeNode ih n
  | createGroup _ ih => unfold GenGraph.createGroup; rw [GenGraph.rootView_insertGroup]; exact ih
  | insertGroup x _ _ ih => rw [GenGraph.rootView_insertGroup]; exact ih
  | removeGroup x _ ih => rw [GenGraph.rootView_removeGroup]; exact ih
  | groupInsertNode x n _ ih => rw [GenGraph.rootView_groupInsertNode]; exact ih
  | groupRemoveNode x n _ ih => rw [GenGraph.rootView_groupRemoveNode]; exact ih
  | clear _ ih => exact GenGraph.inv_clear ih

/-- The operations reach the same states when nothing is asked of the inserted objects. -/
theorem Reachable.by_any {g : GenGraph C} (h : Reachable g) :
    ReachableBy (Unconstrained : GenNode C → Prop) (Unconstrained : GenGroup C → Prop) g := by
  induction h with
  | empty => exact ReachableBy.empty
  | createNode _ ih => exact ReachableBy.createNode ih
  | insertNode node _ ih => exact ReachableBy.insertNode node (fun _ _ => trivial) ih
  | createEdge s d _ ih => exact ReachableBy.createEdge s d ih
  | insertEdge e _ ih => exact ReachableBy.insertEdge e ih
  | removeEdge e _ ih => exact ReachableBy.removeEdge e ih
  | removeEdgeBetween s d _ ih => exact ReachableBy.removeEdgeBetween s d ih
  | removeAllEdges s d _ ih => exact ReachableBy.removeAllEdges s d ih
  | removeNode n _ ih => exact ReachableBy.removeNode n ih
  | createGroup _ ih => exact ReachableBy.createGroup ih
  | insertGroup x _ ih => exact ReachableBy.insertGroup x (fun _ _ => trivial) ih
  | removeGroup x _ ih => exact ReachableBy.removeGroup x ih
  | groupInsertNode x n _ ih => exact ReachableBy.groupInsertNode x n ih
  | groupRemoveNode x n _ ih => exact ReachableBy.groupRemoveNode x n ih
  | clear _ ih => exact ReachableBy.clear ih

/-- A state reached under conditions on the inserted objects is a reachable state. -/
theorem ReachableBy.reachable {N : GenNode C → Prop} {G : GenGroup C → Prop} {g : GenGraph C}
    (h : ReachableBy N G g) : Reachable g := by
  induction h with
  | empty => exact Reachable.empty
  | createNode _ ih => exact Reachable.createNode ih
  | insertNode node _ _ ih => exact Reachable.insertNode node ih
  | createEdge s d _ ih => exact Reachable.createEdge s d ih
  | insertEdge e _ ih => exact Reachable.insertEdge e ih
  | removeEdge e _ ih => exact Reachable.removeEdge e ih
  | removeEdgeBetween s d _ ih => exact Reachable.removeEdgeBetween s d ih
  | removeAllEdges s d _ ih => exact Reachable.removeAllEdges s d ih
  | removeNode n _ ih => exact Reachable.removeNode n ih
  | createGroup _ ih => exact Reachable.createGroup ih
  | insertGroup x _ _ ih => exact Reachable.insertGroup x ih
  | removeGroup x _ ih => exact Reachable.removeGroup x ih
  | groupInsertNode x n _ ih => exact Reachable.groupInsertNode x n ih
  | groupRemoveNode x n _ ih => exact Reachable.groupRemoveNode x n ih
  | clear _ ih => exact Reachable.clear ih

theorem GenGraph.lockNode_updateNode (g : GenGraph C) (a : Addr) (f : GenNode C → GenNode C)
    (hf : ∀ n, (f n).addr = n.addr) (w : WeakNode) :
    (g.updateNode a f).lockNode w =
      (g.lockNode w).map (fun n => if n.addr = a then f n else n) := by
  cases w with
  | none => rfl
  | some b =>
    simp only [GenGraph.lockNode, GenGraph.updateNode, List.find?_map]
    have hp : ((fun n : GenNode C => decide (n.addr = b)) ∘
        fun n => if n.addr = a then f n else n) = fun n => decide (n.addr = b) := by
      funext n
      simp only [Function.comp]
      split
      · rw [hf n]
      · rfl
    rw [hp]

theorem GenGraph.lockNode_attachEdge (g : GenGraph C) (e : GenEdge C) (s d : GenNode C)
    (w : WeakNode) :
    (g.attachEdge e s d).lockNode w =
      (g.lockNode w).map (fun n =>
        let n1 := if n.addr = s.addr then n.addOutEdge e.addr d.addr else n
        if n.addr = d.addr then n1.addInEdge e.addr s.addr else n1) := by
  have h1 := GenGraph.lockNode_updateNode g s.addr (fun n => n.addOutEdge e.addr d.addr)
    (fun _ => rfl) w
  have h2 := GenGraph.lockNode_updateNode
    (g.updateNode s.addr (fun n => n.addOutEdge e.addr d.addr)) d.addr
    (fun n => n.addInEdge e.addr s.addr) (fun _ => rfl) w
  rw [h1, Option.map_map] at h2
  have h3 : (g.attachEdge e s d).lockNode w =
      ((g.updateNode s.addr (fun n => n.addOutEdge e.addr d.addr)).updateNode d.addr
        (fun n => n.addInEdge e.addr s.addr)).lockNode w := by
    cases w <;> rfl
  rw [h3, h2]
  congr 1
  funext n
  simp only [Function.comp]
  by_cases hs : n.addr = s.addr
  · simp [hs, GenNode.addOutEdge, GenNode.addInEdge]
  · simp [hs, GenNode.addOutEdge, GenNode.addInEdge]

theorem GenGraph.memberNode_lock {g : GenGraph C} {w : WeakNode} {n : GenNode C}
    (h : g.memberNode w = some n) : g.lockNode w = some n := by
  unfold GenGraph.memberNode at h
  split at h
  · exact h
  · cases h

/-- C3: for member nodes `source` and `destination`, `createEdge` succeeds and afterwards the
in-degree of the destination and the out-degree of the source are exactly 1 more than before,
the edge count of the graph is 1 more than before, and a destination that had no incoming edge
is no longer in the root node cache. -/
theorem createEdge_degrees_and_root (g : GenGraph C) (source destination : WeakNode)
    (s d : GenNode C) (hs : g.memberNode source = some s)
    (hd : g.memberNode destination = some d) :
    (∃ e, (g.createEdge source destination).2 = .ok (some e)) ∧
    ((g.createEdge source destination).1.lockNode destination).map GenNode.getInDegree =
      some (d.getInDegree + 1) ∧
    ((g.createEdge source destination).1.lockNode source).map GenNode.getOutDegree =
      some (s.getOutDegree + 1) ∧
    (g.createEdge source destination).1.getEdgeCount = g.getEdgeCount + 1 ∧
    (d.getInDegree = 0 → d.addr ∉ (g.createEdge source destination).1.rootNodes) := by
  have hs1 := GenGraph.memberNode_lock hs
  have hd1 := GenGraph.memberNode_lock hd
  simp only [GenGraph.createEdge, hs, hd]
  refine ⟨⟨_, rfl⟩, ?_, ?_, ?_, ?_⟩
  · rw [GenGraph.lockNode_attachEdge, hd1]
    simp only [Option.map_some', if_true, GenNode.getInDegree, GenNode.addInEdge, insertInto,
      Option.some.injEq, List.length_append, List.length_singleton]
    split <;> rfl
  · rw [GenGraph.lockNode_attachEdge, hs1]
    simp only [Option.map_some', if_true, GenNode.getOutDegree, Option.some.injEq]
    split <;> simp [GenNode.addInEdge, GenNode.addOutEdge, insertInto]
  · simp [GenGraph.attachEdge, GenGraph.notifyEdgeInserted, GenGraph.getEdgeCount, insertInto,
      GenGraph.updateNode]
  · intro h0
    simp only [GenGraph.attachEdge, GenGraph.notifyEdgeInserted, GenGraph.updateNode, h0,
      if_true, mem_removeFrom]
    exact fun hc => hc.2 rfl

/-- C4: `createNode()` returns a node that is contained in the graph (`containsNode` is true
and the node count grew by 1), has in-degree 0 and is a member of the root node cache. -/
theorem createNode_contained_root (g : GenGraph C) :
    g.createNode.2 = .ok (some g.fresh) ∧
    g.createNode.1.containsNode (some g.fresh) = true ∧
    g.createNode.1.getNodeCount = g.getNodeCount + 1 ∧
    (g.createNode.1.lockNode (some g.fresh)).map GenNode.getInDegree = some 0 ∧
    g.fresh ∈ g.createNode.1.rootNodes := by
  have hf := g.fresh_not_search
  have hc : ¬ (g.containsNode (some (GenNode.new g.fresh : GenNode C).addr) = true) := by
    simp [GenGraph.containsNode, GenNode.new, hf]
  simp only [GenGraph.createNode, GenGraph.insertNode, hc, if_false]
  refine ⟨rfl, ?_, ?_, ?_, ?_⟩
  · simp [GenGraph.containsNode, mem_insertIntoSet, GenNode.new]
  · simp [GenGraph.getNodeCount, insertInto]
  · have : g.nodes.find? (fun n => decide (n.addr = g.fresh)) = none := by
      rw [List.find?_eq_none]
      intro n hn
      simpa using g.fresh_not_node n hn
    simp [GenGraph.lockNode, insertInto, List.find?_append, this, GenNode.new,
      GenNode.getInDegree]
  · simp [mem_insertInto, GenNode.new]

/-- C6: when the source or the destination is expired or is not a node of the graph,
`createEdge` and `insertEdge` raise a topology error and leave the graph as it was (same nodes,
edges, degrees and root node cache: the state is unchanged). -/
theorem createEdge_insertEdge_reject (g : GenGraph C) (source destination : WeakNode)
    (h : g.containsNode source = false ∨ g.containsNode destination = false) :
    g.createEdge source destination = (g, .error .bad_topology_error) ∧
    ∀ e : GenEdge C, e.src = source → e.dst = destination →
      g.insertEdge (some e) = (g, .error .bad_topology_error) := by
  have hm : g.memberNode source = none ∨ g.memberNode destination = none := by
    rcases h with h | h
    · left; simp [GenGraph.memberNode, h]
    · right; simp [GenGraph.memberNode, h]
  constructor
  · unfold GenGraph.createEdge
    split
    · rename_i hs hd
      rcases hm with hm | hm
      · rw [hm] at hs; cases hs
      · rw [hm] at hd; cases hd
    · rfl
  · intro e hes hed
    unfold GenGraph.insertEdge
    dsimp only
    split
    · rfl
    · split
      · rename_i hs hd
        rw [hes] at hs
        rw [hed] at hd
        rcases hm with hm | hm
        · rw [hm] at hs; cases hs
        · rw [hm] at hd; cases hd
      · rfl

theorem GenGraph.root_iff_of_inv {g : GenGraph C} {F : Prop} (h : g.rootView.Inv F) (hF : F)
    (n : GenNode C) (hn : n ∈ g.nodes) : n.addr ∈ g.rootNodes ↔ n.getInDegree = 0 := by
  have hmem : (n.addr, n.inEdges) ∈ g.rootView.ins := by
    simp only [GenGraph.rootView, List.mem_map]
    exact ⟨n, hn, rfl⟩
  have h1 := h.root_iff hF n.addr
  simp only [GenNode.getInDegree, List.length_eq_zero]
  constructor
  · intro hr
    exact h.unique hmem (h1.1 hr)
  · intro h0
    apply h1.2
    rw [← h0]
    exact hmem

theorem GenGraph.rootCount_of_inv {g : GenGraph C} {F : Prop} (h : g.rootView.Inv F)
    (hF : F) :
    g.getRootNodeCount = (g.nodes.filter (fun n => decide (n.getInDegree = 0))).length := by
  have hnd : ((g.nodes.filter (fun n => decide (n.getInDegree = 0))).map
      (fun n => n.addr)).Nodup := by
    have h0 : (g.nodes.map (fun n => n.addr)).Nodup := by
      have := h.nodup
      simpa [GenGraph.rootView, List.map_map, Function.comp] using this
    exact (List.filter_sublist g.nodes).map _ |>.nodup h0
  have hperm : g.rootNodes.Perm ((g.nodes.filter (fun n => decide (n.getInDegree = 0))).map
      (fun n => n.addr)) := by
    have hr : g.rootNodes.Nodup := h.rootNodup hF
    rw [List.perm_ext_iff_of_nodup hr hnd]
    intro a
    simp only [List.mem_map, List.mem_filter, decide_eq_true_eq]
    constructor
    · intro ha
      have := (h.root_iff hF a).1 ha
      simp only [GenGraph.rootView, List.mem_map] at this
      obtain ⟨n, hn, hne⟩ := this
      have h1 := (Prod.mk.inj hne).1
      have h2 := (Prod.mk.inj hne).2
      exact ⟨n, ⟨hn, by simp [GenNode.getInDegree, h2]⟩, h1⟩
    · rintro ⟨n, ⟨hn, h0⟩, hna⟩
      rw [← hna]
      exact (GenGraph.root_iff_of_inv h hF n hn).2 h0
  have := hperm.length_eq
  simpa [GenGraph.getRootNodeCount] using this

theorem GenGraph.lockNode_of_inv {g : GenGraph C} {F : Prop} (h : g.rootView.Inv F)
    (n : GenNode C)
    (hn : n ∈ g.nodes) : g.lockNode (some n.addr) = some n := by
  cases hl : g.lockNode (some n.addr) with
  | none =>
    exact absurd (List.mem_map_of_mem (fun n => n.addr) hn) (GenGraph.lockNode_none hl)
  | some m =>
    obtain ⟨hm, hma⟩ := GenGraph.lockNode_some hl
    simp only [Option.some.injEq] at hma
    have h0 : (g.nodes.map (fun n => n.addr)).Nodup := by
      have := h.nodup
      simpa [GenGraph.rootView, List.map_map, Function.comp] using this
    rw [List.inj_on_of_nodup_map h0 hm hn hma.symm]

/-- C2 (amended): in every graph state reachable from the empty graph by the operations of
`GenGraph` and `GenGroup`, when every node handed to `insertNode` arrives without in edge, a
node of the graph is in the root node cache if and only if its in-degree is exactly 0
(`isRootNode` answers accordingly and raises no error), and `getRootNodeCount()` equals the
number of nodes with no incoming edge. -/
theorem rootless_inserts_root_cache_iff_in_degree_zero {g : GenGraph C}
    (h : ReachableBy GenNode.Rootless Unconstrained g) :
    (∀ n ∈ g.nodes, (n.addr ∈ g.rootNodes ↔ n.getInDegree = 0)) ∧
    (∀ n ∈ g.nodes, g.isRootNode (some n.addr) = .ok (decide (n.getInDegree = 0))) ∧
    g.getRootNodeCount = (g.nodes.filter (fun n => decide (n.getInDegree = 0))).length := by
  have hi := h.inv
  have hF : ∀ n : GenNode C, n.Rootless → n.inEdges = [] := fun _ hn => hn
  refine ⟨fun n hn => GenGraph.root_iff_of_inv hi hF n hn, ?_, GenGraph.rootCount_of_inv hi hF⟩
  intro n hn
  have h1 := GenGraph.root_iff_of_inv hi hF n hn
  have h2 : decide (n.addr ∈ g.rootNodes) = decide (n.getInDegree = 0) := by
    simp only [decide_eq_decide]
    exact h1
  simp only [GenGraph.isRootNode, GenGraph.lockNode_of_inv hi n hn, h2, if_true]

theorem GenGraph.edges_detachEdge (g : GenGraph C) (e : GenEdge C) :
    (g.detachEdge e).edges = g.edges.filter (fun x => decide (x.addr ≠ e.addr)) := by
  unfold GenGraph.detachEdge
  cases e.src <;> cases e.dst <;> rfl

theorem GenGraph.edges_detachEdgeAt (g : GenGraph C) (ea : Addr) :
    ∀ x ∈ (g.detachEdgeAt ea).edges, x ∈ g.edges ∧ x.addr ≠ ea := by
  intro x hx
  unfold GenGraph.detachEdgeAt at hx
  split at hx
  · rename_i e he
    rw [GenGraph.edges_detachEdge] at hx
    simp only [List.mem_filter, decide_eq_true_eq] at hx
    have := List.find?_some he
    simp only [decide_eq_true_eq] at this
    exact ⟨hx.1, by rw [← this]; exact hx.2⟩
  · rename_i he
    simp only [GenGraph.lockEdge, List.find?_eq_none, decide_eq_true_eq] at he
    exact ⟨hx, he x hx⟩

theorem GenGraph.edges_foldl_detachEdgeAt (l : List Addr) (g : GenGraph C) :
    ∀ x ∈ (l.foldl (fun h ea => h.detachEdgeAt ea) g).edges, x ∈ g.edges ∧ x.addr ∉ l := by
  induction l generalizing g with
  | nil => intro x hx; exact ⟨hx, by simp⟩
  | cons a rest ih =>
    intro x hx
    simp only [List.foldl_cons] at hx
    obtain ⟨h1, h2⟩ := ih (g.detachEdgeAt a) x hx
    obtain ⟨h3, h4⟩ := GenGraph.edges_detachEdgeAt g a x h1
    refine ⟨h3, ?_⟩
    simp only [List.mem_cons, not_or]
    exact ⟨h4, h2⟩

theorem GenGraph.members_detachEdge (g : GenGraph C) (e : GenEdge C) :
    (g.detachEdge e).groups.map (fun x => (x.addr, x.nodes)) =
      g.groups.map (fun x => (x.addr, x.nodes)) := by
  unfold GenGraph.detachEdge
  cases e.src <;> cases e.dst <;>
    simp [GenGraph.notifyEdgeRemoved, GenGraph.updateNode, List.map_map, Function.comp]

theorem GenGraph.members_foldl_detachEdgeAt (l : List Addr) (g : GenGraph C) :
    (l.foldl (fun h ea => h.detachEdgeAt ea) g).groups.map (fun x => (x.addr, x.nodes)) =
      g.groups.map (fun x => (x.addr, x.nodes)) := by
  induction l generalizing g with
  | nil => rfl
  | cons a rest ih =>
    simp only [List.foldl_cons]
    rw [ih]
    unfold GenGraph.detachEdgeAt
    split
    · exact GenGraph.members_detachEdge _ _
    · rfl

theorem GenGroup.reevaluate_frame (x : GenGroup C) (e : GenEdge C) :
    (x.reevaluate e).addr = x.addr ∧ (x.reevaluate e).nodes = x.nodes ∧
      (x.reevaluate e).base = x.base ∧ (x.reevaluate e).className = x.className := by
  unfold GenGroup.reevaluate
  split
  · exact ⟨rfl, rfl, rfl, rfl⟩
  · split <;> exact ⟨rfl, rfl, rfl, rfl⟩

theorem GenGroup.foldl_reevaluate_frame (l : List (GenEdge C)) (x : GenGroup C) :
    (l.foldl (fun y e => y.reevaluate e) x).addr = x.addr ∧
      (l.foldl (fun y e => y.reevaluate e) x).nodes = x.nodes ∧
      (l.foldl (fun y e => y.reevaluate e) x).base = x.base ∧
      (l.foldl (fun y e => y.reevaluate e) x).className = x.className := by
  induction l generalizing x with
  | nil => exact ⟨rfl, rfl, rfl, rfl⟩
  | cons e rest ih =>
    simp only [List.foldl_cons]
    obtain ⟨h1, h2, h3, h4⟩ := ih (x.reevaluate e)
    obtain ⟨k1, k2, k3, k4⟩ := x.reevaluate_frame e
    exact ⟨h1.trans k1, h2.trans k2, h3.trans k3, h4.trans k4⟩

theorem GenGraph.members_notifyGroupNode (g : GenGraph C) (a na : Addr) :
    (g.notifyGroupNode a na).groups.map (fun x => (x.addr, x.nodes)) =
      g.groups.map (fun x => (x.addr, x.nodes)) := by
  unfold GenGraph.notifyGroupNode
  split
  · rfl
  · simp only [GenGraph.updateGroup, List.map_map]
    apply List.map_congr_left
    intro x _
    simp only [Function.comp]
    split
    · obtain ⟨h1, h2, _⟩ := GenGroup.foldl_reevaluate_frame
        (List.filterMap (fun ea => g.lockEdge (some ea)) (_ ++ _)) x
      rw [h1, h2]
    · rfl

theorem GenGraph.members_groupDropNode (g : GenGraph C) (a na : Addr) :
    ∀ p ∈ (g.groupDropNode a na).groups.map (fun x => (x.addr, x.nodes)),
      p.1 = a → na ∉ p.2 := by
  unfold GenGraph.groupDropNode
  dsimp only
  rw [GenGraph.members_notifyGroupNode]
  intro p hp hpa
  simp only [GenGraph.updateNode, GenGraph.updateGroup, List.map_map, List.mem_map,
    Function.comp] at hp
  obtain ⟨x, _, hx⟩ := hp
  subst hx
  by_cases hxa : x.addr = a
  · simp only [hxa, if_true, mem_removeFrom]
    exact fun hc => hc.2 rfl
  · simp only [hxa, if_false] at hpa

theorem GenGraph.members_groupDropNode_sub (g : GenGraph C) (a na : Addr) :
    ∀ p ∈ (g.groupDropNode a na).groups.map (fun x => (x.addr, x.nodes)),
      ∃ q ∈ g.groups.map (fun x => (x.addr, x.nodes)), p.1 = q.1 ∧ ∀ b ∈ p.2, b ∈ q.2 := by
  unfold GenGraph.groupDropNode
  dsimp only
  rw [GenGraph.members_notifyGroupNode]
  intro p hp
  simp only [GenGraph.updateNode, GenGraph.updateGroup, List.map_map, List.mem_map,
    Function.comp] at hp
  obtain ⟨x, hxm, hx⟩ := hp
  subst hx
  refine ⟨(x.addr, x.nodes), List.mem_map.2 ⟨x, hxm, rfl⟩, ?_, ?_⟩
  · split <;> rfl
  · intro b hb
    split at hb
    · exact ((mem_removeFrom _ _ _).1 hb).1
    · exact hb

theorem GenGraph.edges_groupDropNode (g : GenGraph C) (a na : Addr) :
    (g.groupDropNode a na).edges = g.edges := by
  unfold GenGraph.groupDropNode GenGraph.notifyGroupNode
  dsimp only
  split <;> rfl

/-- After `removeNode(n)` on a member node at which the edges of the graph are registered and
which only the group named by its group reference lists: `containsNode(n)` is false, `n` is in
neither the node collection nor the root node cache nor the member set of any group, and no
edge left in the graph has `n` as its source or destination. -/
theorem GenGraph.removeNode_unwinds (g : GenGraph C) (weakNode : WeakNode) (n : GenNode C)
    (hn : g.memberNode weakNode = some n)
    (hreg : ∀ e ∈ g.edges, (e.src = some n.addr → e.addr ∈ n.outEdges) ∧
      (e.dst = some n.addr → e.addr ∈ n.inEdges))
    (hgrp : ∀ x ∈ g.groups, n.addr ∈ x.nodes → n.group = some x.addr) :
    (g.removeNode weakNode).2 = .ok () ∧
    (g.removeNode weakNode).1.containsNode weakNode = false ∧
    (∀ m ∈ (g.removeNode weakNode).1.nodes, m.addr ≠ n.addr) ∧
    n.addr ∉ (g.removeNode weakNode).1.rootNodes ∧
    (∀ x ∈ (g.removeNode weakNode).1.groups, n.addr ∉ x.nodes) ∧
    (∀ e ∈ (g.removeNode weakNode).1.edges, e.src ≠ some n.addr ∧ e.dst ≠ some n.addr) := by
  have hw := (GenGraph.memberNode_some hn).2.1
  subst hw
  simp only [GenGraph.removeNode, hn]
  refine ⟨trivial, ?_, ?_, ?_, ?_, ?_⟩
  · simp [GenGraph.eraseNode, GenGraph.containsNode, mem_removeFrom]
  · intro m hm
    simp only [GenGraph.eraseNode, List.mem_filter, decide_eq_true_eq] at hm
    exact hm.2
  · simp [GenGraph.eraseNode, mem_removeFrom]
  · intro x hx hmem
    simp only [GenGraph.eraseNode] at hx
    cases hg : n.group with
    | none =>
      simp only [hg] at hx
      have hx1 := List.mem_map_of_mem (fun (x : GenGroup C) => (x.addr, x.nodes)) hx
      rw [GenGraph.members_foldl_detachEdgeAt, List.mem_map] at hx1
      obtain ⟨y, hy, hye⟩ := hx1
      have h1 := (Prod.mk.inj hye).2
      have := hgrp y hy (by rw [h1]; exact hmem)
      rw [hg] at this
      cases this
    | some a =>
      simp only [hg] at hx
      have hx1 := List.mem_map_of_mem (fun (x : GenGroup C) => (x.addr, x.nodes)) hx
      by_cases hxa : x.addr = a
      · exact GenGraph.members_groupDropNode _ a n.addr (x.addr, x.nodes) hx1 hxa hmem
      · obtain ⟨q, hq, hq1, hq2⟩ :=
          GenGraph.members_groupDropNode_sub _ a n.addr (x.addr, x.nodes) hx1
        rw [GenGraph.members_foldl_detachEdgeAt, List.mem_map] at hq
        obtain ⟨y, hy, hye⟩ := hq
        subst hye
        have := hgrp y hy (hq2 _ hmem)
        rw [hg] at this
        simp only [Option.some.injEq] at this
        exact hxa (hq1.trans this.symm)
  · intro e he
    have he1 : e ∈ ((n.inEdges ++ n.outEdges).foldl
        (fun (h : GenGraph C) ea => h.detachEdgeAt ea) g).edges := by
      simp only [GenGraph.eraseNode] at he
      cases hg : n.group with
      | none => simpa [hg] using he
      | some a => simpa [hg, GenGraph.edges_groupDropNode] using he
    obtain ⟨h1, h2⟩ := GenGraph.edges_foldl_detachEdgeAt _ g e he1
    simp only [List.mem_append, not_or] at h2
    exact ⟨fun hc => h2.2 ((hreg e h1).1 hc), fun hc => h2.1 ((hreg e h1).2 hc)⟩

theorem StdMap.find_append {κ ν : Type} [DecidableEq κ] (m1 m2 : StdMap κ ν) (k : κ) :
    StdMap.find (m1 ++ m2) k =
      match StdMap.find m1 k with
      | some v => some v
      | none => StdMap.find m2 k := by
  induction m1 with
  | nil => rfl
  | cons p rest ih =>
    obtain ⟨k1, v1⟩ := p
    simp only [List.cons_append, StdMap.find]
    split
    · rfl
    · exact ih

theorem StdMap.find_insert {κ ν : Type} [DecidableEq κ] (m : StdMap κ ν) (k : κ) (v : ν)
    (k2 : κ) :
    StdMap.find (StdMap.insert m k v) k2 =
      match StdMap.find m k2 with
      | some w => some w
      | none => if k = k2 then some v else none := by
  unfold StdMap.insert
  cases hk : StdMap.find m k with
  | some w =>
    dsimp only
    cases hk2 : StdMap.find m k2 with
    | some w2 => rfl
    | none =>
      dsimp only
      split
      · rename_i he
        rw [he, hk2] at hk
        cases hk
      · rfl
  | none =>
    dsimp only
    rw [StdMap.find_append]
    cases hk2 : StdMap.find m k2 with
    | some w2 => rfl
    | none => simp [StdMap.find]

theorem StdMap.find_none_of_not_mem {κ ν : Type} [DecidableEq κ] (m : StdMap κ ν) (k : κ)
    (h : k ∉ m.map Prod.fst) : StdMap.find m k = none := by
  induction m with
  | nil => rfl
  | cons p rest ih =>
    obtain ⟨k1, v1⟩ := p
    simp only [List.map_cons, List.mem_cons, not_or] at h
    simp only [StdMap.find]
    rw [if_neg (fun hc => h.1 hc.symm)]
    exact ih h.2

theorem StdMap.mem_of_find {κ ν : Type} [DecidableEq κ] (m : StdMap κ ν) (k : κ) (v : ν)
    (h : StdMap.find m k = some v) : (k, v) ∈ m := by
  induction m with
  | nil => cases h
  | cons p rest ih =>
    obtain ⟨k1, v1⟩ := p
    simp only [StdMap.find] at h
    split at h
    · rename_i he
      cases h
      rw [he]
      exact List.mem_cons_self _ _
    · exact List.mem_cons_of_mem _ (ih h)

theorem numbered_fst (id : Int) (l : List Addr) : (numbered id l).map Prod.fst = l := by
  induction l generalizing id with
  | nil => rfl
  | cons a rest ih => simp [numbered, ih]

theorem numbered_length (id : Int) (l : List Addr) : (numbered id l).length = l.length := by
  induction l generalizing id with
  | nil => rfl
  | cons a rest ih => simp [numbered, ih]

theorem numbered_find (id : Int) (l : List Addr) (hnd : l.Nodup) (i : Nat) (a : Addr)
    (h : l[i]? = some a) : StdMap.find (numbered id l) a = some (id + i + 1) := by
  induction l generalizing id i with
  | nil => simp at h
  | cons b rest ih =>
    cases i with
    | zero =>
      simp only [List.getElem?_cons_zero, Option.some.injEq] at h
      subst h
      simp [numbered, StdMap.find]
    | succ j =>
      simp only [List.getElem?_cons_succ] at h
      have hne : b ≠ a := by
        intro hc
        subst hc
        exact (List.nodup_cons.1 hnd).1 (List.getElem?_mem h)
      simp only [numbered, StdMap.find, if_neg hne]
      rw [ih (id + 1) (List.nodup_cons.1 hnd).2 j h]
      simp only [Nat.cast_add, Nat.cast_one, Option.some.injEq]
      ring

theorem numbered_mem (id : Int) (l : List Addr) (a : Addr) (v : Int)
    (h : (a, v) ∈ numbered id l) : ∃ i : Nat, l[i]? = some a ∧ v = id + i + 1 := by
  induction l generalizing id with
  | nil => simp [numbered] at h
  | cons b rest ih =>
    simp only [numbered, List.mem_cons, Prod.mk.injEq] at h
    rcases h with ⟨h1, h2⟩ | h
    · exact ⟨0, by simp [h1], by simp [h2]⟩
    · obtain ⟨i, hi, hv⟩ := ih (id + 1) h
      refine ⟨i + 1, by simpa using hi, ?_⟩
      rw [hv]
      simp only [Nat.cast_add, Nat.cast_one]
      ring

theorem ProtoSerializer.insertIds_eq (m : ObjectIdMap) (id : Int) (l : List Addr)
    (hnd : l.Nodup) (hdis : ∀ a ∈ l, a ∉ m.map Prod.fst) :
    ProtoSerializer.insertIds m id l = (m ++ numbered id l, id + l.length) := by
  induction l generalizing m id with
  | nil => simp [ProtoSerializer.insertIds, numbered]
  | cons a rest ih =>
    have hna : StdMap.find m a = none :=
      StdMap.find_none_of_not_mem m a (hdis a (List.mem_cons_self _ _))
    have hins : StdMap.insert m a (id + 1) = m ++ [(a, id + 1)] := by
      simp [StdMap.insert, hna]
    simp only [ProtoSerializer.insertIds, hins]
    rw [ih _ _ (List.nodup_cons.1 hnd).2]
    · simp only [numbered, List.append_assoc, List.singleton_append, List.length_cons,
        Nat.cast_add, Nat.cast_one, Prod.mk.injEq, true_and]
      ring
    · intro b hb
      simp only [List.map_append, List.map_cons, List.map_nil, List.mem_append,
        List.mem_singleton, not_or]
      refine ⟨hdis b (List.mem_cons_of_mem _ hb), ?_⟩
      intro hc
      subst hc
      exact (List.nodup_cons.1 hnd).1 hb

theorem ProtoSerializer.generateObjectIdMap_eq (s : ProtoSerializer C) (graph : GenGraph C)
    (hnd : (graph.nodes.map (fun n => n.addr) ++ graph.edges.map (fun e => e.addr)).Nodup) :
    (s.generateObjectIdMap graph).objectIdMap =
      numbered 0 (graph.nodes.map (fun n => n.addr)) ++
        numbered (graph.nodes.length : Int) (graph.edges.map (fun e => e.addr)) := by
  obtain ⟨h1, h2, h3⟩ := List.nodup_append.1 hnd
  simp only [ProtoSerializer.generateObjectIdMap]
  rw [ProtoSerializer.insertIds_eq [] 0 _ h1 (by simp)]
  simp only [List.nil_append, List.length_map, zero_add]
  rw [ProtoSerializer.insertIds_eq _ _ _ h2]
  intro a ha
  rw [numbered_fst]
  exact fun hc => h3 hc ha

theorem ProtoSerializer.generateObjectIdMap_find (s : ProtoSerializer C) (graph : GenGraph C)
    (hnd : (graph.nodes.map (fun n => n.addr) ++ graph.edges.map (fun e => e.addr)).Nodup)
    (a : Addr) (id : Int) :
    StdMap.find (s.generateObjectIdMap graph).objectIdMap a = some id ↔
      (∃ i : Nat, (graph.nodes.map (fun n => n.addr))[i]? = some a ∧ id = (i : Int) + 1) ∨
      (∃ j : Nat, (graph.edges.map (fun e => e.addr))[j]? = some a ∧
        id = (graph.nodes.length : Int) + j + 1) := by
  obtain ⟨h1, h2, h3⟩ := List.nodup_append.1 hnd
  rw [ProtoSerializer.generateObjectIdMap_eq s graph hnd]
  constructor
  · intro hf
    have hm := StdMap.mem_of_find _ _ _ hf
    rcases List.mem_append.1 hm with hm | hm
    · obtain ⟨i, hi, hv⟩ := numbered_mem _ _ _ _ hm
      exact Or.inl ⟨i, hi, by rw [hv]; ring⟩
    · obtain ⟨j, hj, hv⟩ := numbered_mem _ _ _ _ hm
      exact Or.inr ⟨j, hj, hv⟩
  · rintro (⟨i, hi, hv⟩ | ⟨j, hj, hv⟩)
    · rw [StdMap.find_append, numbered_find 0 _ h1 i a hi, hv]
      simp
    · have hna : a ∉ (numbered 0 (graph.nodes.map (fun n => n.addr))).map Prod.fst := by
        rw [numbered_fst]
        exact fun hc => h3 hc (List.getElem?_mem hj)
      rw [StdMap.find_append, StdMap.find_none_of_not_mem _ _ hna,
        numbered_find _ _ h2 j a hj, hv]

/-- C7: for a graph with `N` nodes and `E` edges (distinct objects), `generateObjectIdMap`
returns a map that does not depend on the previous content, has exactly `N + E` entries, gives
the i-th node id `i` and the j-th edge id `N + j` (counting from 1), so that the ids are
exactly `1..N+E` and no two primitives share an id. -/
theorem generateObjectIdMap_dense_ids (s : ProtoSerializer C) (graph : GenGraph C)
    (hnd : (graph.nodes.map (fun n => n.addr) ++ graph.edges.map (fun e => e.addr)).Nodup) :
    (∀ s2 : ProtoSerializer C, (s2.generateObjectIdMap graph).objectIdMap =
      (s.generateObjectIdMap graph).objectIdMap) ∧
    (s.generateObjectIdMap graph).objectIdMap.size = graph.nodes.length + graph.edges.length ∧
    (∀ (i : Nat) (n : GenNode C), graph.nodes[i]? = some n →
      StdMap.find (s.generateObjectIdMap graph).objectIdMap n.addr = some ((i : Int) + 1)) ∧
    (∀ (j : Nat) (e : GenEdge C), graph.edges[j]? = some e →
      StdMap.find (s.generateObjectIdMap graph).objectIdMap e.addr =
        some ((graph.nodes.length : Int) + j + 1)) ∧
    (∀ (a : Addr) (id : Int), StdMap.find (s.generateObjectIdMap graph).objectIdMap a = some id →
      1 ≤ id ∧ id ≤ (graph.nodes.length : Int) + graph.edges.length) ∧
    (∀ id : Int, 1 ≤ id → id ≤ (graph.nodes.length : Int) + graph.edges.length →
      ∃ a, StdMap.find (s.generateObjectIdMap graph).objectIdMap a = some id) ∧
    (∀ (a b : Addr) (id : Int),
      StdMap.find (s.generateObjectIdMap graph).objectIdMap a = some id →
      StdMap.find (s.generateObjectIdMap graph).objectIdMap b = some id → a = b) := by
  have hlen : ∀ {α : Type} (l : List α) (i : Nat) (x : α), l[i]? = some x → i < l.length := by
    intro α l i x h
    by_contra hc
    rw [List.getElem?_eq_none (Nat.le_of_not_lt hc)] at h
    cases h
  refine ⟨fun _ => rfl, ?_, ?_, ?_, ?_, ?_, ?_⟩
  · rw [ProtoSerializer.generateObjectIdMap_eq s graph hnd]
    simp [StdMap.size, numbered_length]
  · intro i n hi
    rw [ProtoSerializer.generateObjectIdMap_find s graph hnd]
    exact Or.inl ⟨i, by simp [List.getElem?_map, hi], rfl⟩
  · intro j e hj
    rw [ProtoSerializer.generateObjectIdMap_find s graph hnd]
    exact Or.inr ⟨j, by simp [List.getElem?_map, hj], rfl⟩
  · intro a id hf
    rcases (ProtoSerializer.generateObjectIdMap_find s graph hnd a id).1 hf with
      ⟨i, hi, hv⟩ | ⟨j, hj, hv⟩
    · have := hlen _ _ _ hi
      simp only [List.length_map] at this
      omega
    · have := hlen _ _ _ hj
      simp only [List.length_map] at this
      omega
  · intro id h1 h2
    by_cases hc : id ≤ (graph.nodes.length : Int)
    · have hi : (id - 1).toNat < (graph.nodes.map (fun n => n.addr)).length := by
        simp only [List.length_map]; omega
      refine ⟨(graph.nodes.map (fun n => n.addr))[(id - 1).toNat], ?_⟩
      rw [ProtoSerializer.generateObjectIdMap_find s graph hnd]
      exact Or.inl ⟨(id - 1).toNat, List.getElem?_eq_getElem hi, by omega⟩
    · have hj : (id - 1 - graph.nodes.length).toNat <
          (graph.edges.map (fun e => e.addr)).length := by
        simp only [List.length_map]; omega
      refine ⟨(graph.edges.map (fun e => e.addr))[(id - 1 - graph.nodes.length).toNat], ?_⟩
      rw [ProtoSerializer.generateObjectIdMap_find s graph hnd]
      exact Or.inr ⟨(id - 1 - graph.nodes.length).toNat, List.getElem?_eq_getElem hj, by omega⟩
  · intro a b id ha hb
    rcases (ProtoSerializer.generateObjectIdMap_find s graph hnd a id).1 ha with
      ⟨i, hi, hv⟩ | ⟨j, hj, hv⟩ <;>
    rcases (ProtoSerializer.generateObjectIdMap_find s graph hnd b id).1 hb with
      ⟨i2, hi2, hv2⟩ | ⟨j2, hj2, hv2⟩
    · have : i = i2 := by omega
      subst this
      rw [hi] at hi2
      exact Option.some.inj hi2
    · have := hlen _ _ _ hi
      simp only [List.length_map] at this
      omega
    · have := hlen _ _ _ hi2
      simp only [List.length_map] at this
      omega
    · have : j = j2 := by omega
      subst this
      rw [hj] at hj2
      exact Option.some.inj hj2

theorem ProtoSerializer.serializeOutNodes_eq (s : ProtoSerializer C) (graph : GenGraph C)
    (m : ObjectIdMap) (l : List (GenNode C)) :
    (s.serializeOutNodes graph m l).1 =
      (l.filter (fun n => n.isSerializable &&
          (StdMap.find s.nodeOutFunctors n.className).isSome)).map
        (fun n => match StdMap.find s.nodeOutFunctors n.className with
          | some f => (f graph (some .unset) (some n.addr) m).getD .unset
          | none => .unset) ∧
    (s.serializeOutNodes graph m l).2 = ((s.serializeOutNodes graph m l).1.length : Int) := by
  induction l with
  | nil => simp [ProtoSerializer.serializeOutNodes]
  | cons n rest ih =>
    simp only [ProtoSerializer.serializeOutNodes]
    cases hs : n.isSerializable with
    | false => simpa [List.filter_cons, hs] using ih
    | true =>
      cases hf : StdMap.find s.nodeOutFunctors n.className with
      | none => simpa [List.filter_cons, hs, hf] using ih
      | some f =>
        simp only [List.filter_cons, hs, hf, Option.isSome_some, Bool.and_self, if_true,
          List.map_cons, List.length_cons, Nat.cast_add, Nat.cast_one]
        exact ⟨by simp [ih.1], by simp [ih.2]⟩

/-- C8: `serializeOut` writes no node record for a node whose serializable flag is false or
whose class name has no registered encoder and exactly one record, the one its encoder fills,
for every other node, in the order of the node collection of the graph; a skipped node does
not stop the nodes that follow. -/
theorem serializeOut_node_records (s : ProtoSerializer C) (graph : GenGraph C)
    (user1 user2 : Option Message) :
    ∃ m, (s.serializeOut graph user1 user2).os = .message m ∧
      m.nodes =
        (graph.nodes.filter (fun n => n.isSerializable &&
            (StdMap.find s.nodeOutFunctors n.className).isSome)).map
          (fun n => match StdMap.find s.nodeOutFunctors n.className with
            | some f => (f graph (some .unset) (some n.addr)
                (s.serializeOut graph user1 user2).serializer.objectIdMap).getD .unset
            | none => .unset) ∧
      m.nodes.length =
        (graph.nodes.filter (fun n => n.isSerializable &&
            (StdMap.find s.nodeOutFunctors n.className).isSome)).length ∧
      (s.serializeOut graph user1 user2).serializedNodeCout = (m.nodes.length : Int) := by
  have hfun : (if s.objectIdMap.size = 0 then s.generateObjectIdMap graph
      else s).nodeOutFunctors = s.nodeOutFunctors := by
    split <;> rfl
  have key := ProtoSerializer.serializeOutNodes_eq
    (if s.objectIdMap.size = 0 then s.generateObjectIdMap graph else s) graph
    (if s.objectIdMap.size = 0 then s.generateObjectIdMap graph else s).objectIdMap graph.nodes
  rw [hfun] at key
  refine ⟨_, rfl, key.1, ?_, key.2⟩
  rw [key.1, List.length_map]

theorem defaultEdgeOutFunctor_fwd (heap : GenGraph C) (a : pb.Any) (edge : WeakEdge)
    (objectIdMap : ObjectIdMap)
    (h : (defaultEdgeOutFunctor heap (some a) edge objectIdMap).1 = true) :
    ∃ e src dst srcId dstId, heap.lockEdge edge = some e ∧
      heap.lockNode e.src = some src ∧ heap.lockNode e.dst = some dst ∧
      StdMap.find objectIdMap src.addr = some srcId ∧
      StdMap.find objectIdMap dst.addr = some dstId ∧ srcId ≠ -1 ∧ dstId ≠ -1 ∧
      (defaultEdgeOutFunctor heap (some a) edge objectIdMap).2 =
        some (.edge { edge_id := (StdMap.find objectIdMap e.addr).getD (-1),
                      src_node_id := srcId, dst_node_id := dstId,
                      weight := C.getEdgeWeight e.base }) := by
  unfold defaultEdgeOutFunctor at h ⊢
  dsimp only at h ⊢
  cases he : heap.lockEdge edge with
  | none => simp [he] at h
  | some e =>
    cases hs : heap.lockNode e.src with
    | none => simp [he, hs] at h
    | some src =>
      cases hd : heap.lockNode e.dst with
      | none => simp [he, hs, hd] at h
      | some dst =>
        cases hsi : StdMap.find objectIdMap src.addr with
        | none => simp [he, hs, hd, hsi] at h
        | some srcId =>
          cases hdi : StdMap.find objectIdMap dst.addr with
          | none => simp [he, hs, hd, hsi, hdi] at h
          | some dstId =>
            by_cases hc : srcId ≠ -1 ∧ dstId ≠ -1
            · refine ⟨e, src, dst, srcId, dstId, rfl, hs, hd, hsi, hdi, hc.1, hc.2, ?_⟩
              simp only [hs, hd, hsi, hdi]
              rw [if_pos hc]
              cases StdMap.find objectIdMap e.addr <;> rfl
            · simp only [he, hs, hd, hsi, hdi] at h
              rw [if_neg hc] at h
              cases h

theorem defaultEdgeOutFunctor_bwd (heap : GenGraph C) (a : pb.Any) (edge : WeakEdge)
    (objectIdMap : ObjectIdMap) (e : GenEdge C) (src dst : GenNode C) (srcId dstId : Int)
    (he : heap.lockEdge edge = some e) (hs : heap.lockNode e.src = some src)
    (hd : heap.lockNode e.dst = some dst) (hsi : StdMap.find objectIdMap src.addr = some srcId)
    (hdi : StdMap.find objectIdMap dst.addr = some dstId) (h1 : srcId ≠ -1) (h2 : dstId ≠ -1) :
    defaultEdgeOutFunctor heap (some a) edge objectIdMap =
      (true, some (.edge { edge_id := (StdMap.find objectIdMap e.addr).getD (-1),
                           src_node_id := srcId, dst_node_id := dstId,
                           weight := C.getEdgeWeight e.base })) := by
  unfold defaultEdgeOutFunctor
  have hc : srcId ≠ -1 ∧ dstId ≠ -1 := ⟨h1, h2⟩
  simp only [he, hs, hd, hsi, hdi]
  rw [if_pos hc]
  cases StdMap.find objectIdMap e.addr <;> rfl

/-- C10: given a record to fill, the default edge encoder returns true if and only if the edge
is alive, its source and destination nodes are alive and both have an id other than -1 in the
id map; when it returns true the record it packs carries the map's ids of the source and of
the destination, the map's id of the edge (-1 when the edge has none) and the weight the
accessor policy gives for the edge. -/
theorem defaultEdgeOutFunctor_true_iff (heap : GenGraph C) (a : pb.Any) (edge : WeakEdge)
    (objectIdMap : ObjectIdMap) :
    ((defaultEdgeOutFunctor heap (some a) edge objectIdMap).1 = true ↔
      ∃ e src dst srcId dstId, heap.lockEdge edge = some e ∧
        heap.lockNode e.src = some src ∧ heap.lockNode e.dst = some dst ∧
        StdMap.find objectIdMap src.addr = some srcId ∧
        StdMap.find objectIdMap dst.addr = some dstId ∧ srcId ≠ -1 ∧ dstId ≠ -1) ∧
    ((defaultEdgeOutFunctor heap (some a) edge objectIdMap).1 = true →
      ∃ e src dst srcId dstId, heap.lockEdge edge = some e ∧
        heap.lockNode e.src = some src ∧ heap.lockNode e.dst = some dst ∧
        StdMap.find objectIdMap src.addr = some srcId ∧
        StdMap.find objectIdMap dst.addr = some dstId ∧
        (defaultEdgeOutFunctor heap (some a) edge objectIdMap).2 =
          some (.edge { edge_id := (StdMap.find objectIdMap e.addr).getD (-1),
                        src_node_id := srcId, dst_node_id := dstId,
                        weight := C.getEdgeWeight e.base })) := by
  refine ⟨⟨?_, ?_⟩, ?_⟩
  · intro h
    obtain ⟨e, src, dst, srcId, dstId, h1, h2, h3, h4, h5, h6, h7, _⟩ :=
      defaultEdgeOutFunctor_fwd heap a edge objectIdMap h
    exact ⟨e, src, dst, srcId, dstId, h1, h2, h3, h4, h5, h6, h7⟩
  · rintro ⟨e, src, dst, srcId, dstId, h1, h2, h3, h4, h5, h6, h7⟩
    rw [defaultEdgeOutFunctor_bwd heap a edge objectIdMap e src dst srcId dstId h1 h2 h3 h4 h5
      h6 h7]
  · intro h
    obtain ⟨e, src, dst, srcId, dstId, h1, h2, h3, h4, h5, _, _, h8⟩ :=
      defaultEdgeOutFunctor_fwd heap a edge objectIdMap h
    exact ⟨e, src, dst, srcId, dstId, h1, h2, h3, h4, h5, h8⟩

/-- The fixture graph is built by three operations from the empty graph. -/
theorem twoNodesOneEdge_reachable : Reachable twoNodesOneEdge :=
  Reachable.createEdge (some 1) (some 2) (Reachable.createNode (Reachable.createNode
    Reachable.empty))

/-- Witness: a second edge 2 -> 1 created in `twoNodesOneEdge`. -/
theorem createEdge_degrees_and_root_witness :
    twoNodesOneEdge.memberNode (some 2) = some destinationNode ∧
    twoNodesOneEdge.memberNode (some 1) = some sourceNode ∧
    ((∃ e, (twoNodesOneEdge.createEdge (some 2) (some 1)).2 = .ok (some e)) ∧
    ((twoNodesOneEdge.createEdge (some 2) (some 1)).1.lockNode (some 1)).map GenNode.getInDegree =
      some (sourceNode.getInDegree + 1) ∧
    ((twoNodesOneEdge.createEdge (some 2) (some 1)).1.lockNode (some 2)).map GenNode.getOutDegree =
      some (destinationNode.getOutDegree + 1) ∧
    (twoNodesOneEdge.createEdge (some 2) (some 1)).1.getEdgeCount =
      twoNodesOneEdge.getEdgeCount + 1 ∧
    (sourceNode.getInDegree = 0 →
      sourceNode.addr ∉ (twoNodesOneEdge.createEdge (some 2) (some 1)).1.rootNodes)) :=
  ⟨rfl, rfl,
    createEdge_degrees_and_root twoNodesOneEdge (some 2) (some 1) destinationNode sourceNode
      rfl rfl⟩

/-- Witness: address 7 is no node of `twoNodesOneEdge`. -/
theorem createEdge_insertEdge_reject_witness :
    (twoNodesOneEdge.containsNode (some 1) = false ∨
      twoNodesOneEdge.containsNode (some 7) = false) ∧
    (twoNodesOneEdge.createEdge (some 1) (some 7) =
      (twoNodesOneEdge, .error .bad_topology_error) ∧
    ∀ e : GenEdge storingConfig, e.src = some 1 → e.dst = some 7 →
      twoNodesOneEdge.insertEdge (some e) = (twoNodesOneEdge, .error .bad_topology_error)) :=
  ⟨Or.inr rfl, createEdge_insertEdge_reject twoNodesOneEdge (some 1) (some 7) (Or.inr rfl)⟩

/-- Witness: the id map generated for `groupedGraph`. -/
theorem generateObjectIdMap_dense_ids_witness :
    (groupedGraph.nodes.map (fun n => n.addr) ++ groupedGraph.edges.map (fun e => e.addr)).Nodup ∧
    (defaultSerializer.generateObjectIdMap groupedGraph).objectIdMap.size =
      groupedGraph.nodes.length + groupedGraph.edges.length ∧
    (defaultSerializer.generateObjectIdMap groupedGraph).objectIdMap = [(1, 1), (2, 2), (3, 3)] :=
  ⟨by decide, (generateObjectIdMap_dense_ids defaultSerializer groupedGraph (by decide)).2.1,
    by decide⟩

/-- C9 (defect): the default group encoder leaves the member list of the record empty.  For the
group of `groupedGraph`, whose member is node 1 with id 1 in the id map, the record written by
`serializeOut` has no `node_ids`, and the group decoded from it has no member. -/
theorem serializeGTpoGroupOut_drops_members :
    groupedGraph.groups.map (fun x => x.nodes) = [[1]] ∧
    StdMap.find (defaultSerializer.serializeOut groupedGraph none none).serializer.objectIdMap 1
      = some 1 ∧
    (∃ m, (defaultSerializer.serializeOut groupedGraph none none).os = .message m ∧
      m.groups = [.group { label := "", x := 0, y := 0, width := 0, height := 0, group_id := -1,
                           node_ids := [] }]) ∧
    (((defaultSerializer.serializeOut groupedGraph none none).serializer.serializeIn
        (defaultSerializer.serializeOut groupedGraph none none).os GenGraph.empty "" "").graph.groups.map
      (fun x => x.nodes)) = [[]] := by
  refine ⟨by decide, by decide, ⟨_, rfl, by decide⟩, by decide⟩

theorem GenGraph.createNode_eq (g : GenGraph C) :
    g.createNode =
      ({ g with nodes := g.nodes ++ [GenNode.new g.fresh],
                nodesSearch := g.nodesSearch ++ [g.fresh],
                rootNodes := g.rootNodes ++ [g.fresh] }, .ok (some g.fresh)) := by
  have hf := g.fresh_not_search
  have hc : ¬ (g.containsNode (some (GenNode.new g.fresh : GenNode C).addr) = true) := by
    simp [GenGraph.containsNode, GenNode.new, hf]
  simp only [GenGraph.createNode, GenGraph.insertNode, hc, if_false]
  have h2 : insertIntoSet g.nodesSearch (GenNode.new g.fresh : GenNode C).addr =
      g.nodesSearch ++ [g.fresh] := by
    simp [insertIntoSet, GenNode.new, hf]
  rw [h2]
  rfl

theorem find?_append_fresh {α : Type} (l : List α) (x : α) (p : α → Bool)
    (h : ∀ y ∈ l, p y = false) (hx : p x = true) : (l ++ [x]).find? p = some x := by
  rw [List.find?_append]
  have : l.find? p = none := by
    rw [List.find?_eq_none]
    intro y hy
    simp [h y hy]
  simp [this, hx]

theorem map_if_fresh {α : Type} (l : List α) (key : α → Addr) (a : Addr) (f : α → α)
    (h : ∀ y ∈ l, key y ≠ a) : l.map (fun y => if key y = a then f y else y) = l := by
  conv_rhs => rw [← List.map_id l]
  apply List.map_congr_left
  intro y hy
  simp [h y hy]

theorem GenGraph.decodedNode_eq (g : GenGraph C) (r : pb.GTpoNode) :
    g.decodedNode r =
      { g with nodes := g.nodes ++ [{ (GenNode.new g.fresh : GenNode C) with
                                        base := feedNode C.nodeBase r }],
               nodesSearch := g.nodesSearch ++ [g.fresh],
               rootNodes := g.rootNodes ++ [g.fresh] } := by
  simp only [GenGraph.decodedNode, GenGraph.createNode_eq, GenGraph.updateNode, List.map_append,
    List.map_cons, List.map_nil]
  rw [map_if_fresh g.nodes (fun n => n.addr) g.fresh _ g.fresh_not_node]
  simp [GenNode.new]

theorem runNodeInFunctors_default (g : GenGraph C) (m : IdObjectMap) (r : pb.GTpoNode) :
    ProtoSerializer.runNodeInFunctors [defaultNodeInFunctor "gtpo::Node"] (.node r) g m =
      ((g.decodedNode r, StdMap.insert m r.node_id (some g.fresh)), .ok true) := by
  have hlock : (g.createNode.1).lockNode (some g.fresh) = some (GenNode.new g.fresh) := by
    rw [GenGraph.createNode_eq]
    simp only [GenGraph.lockNode]
    apply find?_append_fresh
    · intro y hy
      simpa using g.fresh_not_node y hy
    · simp [GenNode.new]
  have hlock2 : (g.decodedNode r).lockNode (some g.fresh) =
      some { (GenNode.new g.fresh : GenNode C) with base := feedNode C.nodeBase r } := by
    rw [GenGraph.decodedNode_eq]
    simp only [GenGraph.lockNode]
    apply find?_append_fresh
    · intro y hy
      simpa using g.fresh_not_node y hy
    · simp [GenNode.new]
  have hdec : (defaultNodeInFunctor "gtpo::Node" : NodeInFunctor C) (.node r) g m =
      ((g.decodedNode r, StdMap.insert m r.node_id (some g.fresh)), .ok (some g.fresh)) := by
    simp only [defaultNodeInFunctor, GenGraph.createNodeOfClass, if_true]
    have hcn : g.createNode = (g.createNode.1, .ok (some g.fresh)) := by
      rw [GenGraph.createNode_eq]
    rw [hcn]
    simp only [hlock, serializeGTpoNodeIn]
    rfl
  simp only [ProtoSerializer.runNodeInFunctors, hdec, hlock2, Option.isSome_some, if_true]

theorem serializeInPhase_nodes (recs : List pb.GTpoNode) (g : GenGraph C) (m : IdObjectMap)
    (n : Int) :
    ProtoSerializer.serializeInPhase
        (ProtoSerializer.runNodeInFunctors [defaultNodeInFunctor "gtpo::Node"])
        (recs.map pb.Any.node) g m n =
      (((g.decodedNodes m recs).1, (g.decodedNodes m recs).2, n + recs.length), none) := by
  induction recs generalizing g m n with
  | nil => simp [ProtoSerializer.serializeInPhase, GenGraph.decodedNodes]
  | cons r rest ih =>
    simp only [List.map_cons, ProtoSerializer.serializeInPhase, runNodeInFunctors_default,
      GenGraph.decodedNodes, ih, List.length_cons, Nat.cast_add, Nat.cast_one]
    congr 3
    ring

theorem StdMap.find_insert_self {κ ν : Type} [DecidableEq κ] (m : StdMap κ ν) (k : κ) (v : ν) :
    ∃ w, StdMap.find (StdMap.insert m k v) k = some w := by
  rw [StdMap.find_insert]
  cases StdMap.find m k with
  | some w => exact ⟨w, rfl⟩
  | none => exact ⟨v, by simp⟩

theorem StdMap.find_insert_mono {κ ν : Type} [DecidableEq κ] (m : StdMap κ ν) (k : κ) (v : ν)
    (k2 : κ) (w : ν) (h : StdMap.find m k2 = some w) :
    StdMap.find (StdMap.insert m k v) k2 = some w := by
  rw [StdMap.find_insert, h]

theorem StdMap.find_insert_cases {κ ν : Type} [DecidableEq κ] (m : StdMap κ ν) (k : κ) (v : ν)
    (k2 : κ) (w : ν) (h : StdMap.find (StdMap.insert m k v) k2 = some w) :
    StdMap.find m k2 = some w ∨ w = v := by
  rw [StdMap.find_insert] at h
  cases hf : StdMap.find m k2 with
  | some w2 =>
    rw [hf] at h
    exact Or.inl h
  | none =>
    rw [hf] at h
    dsimp only at h
    split at h
    · exact Or.inr (Option.some.inj h).symm
    · cases h

theorem GenGraph.decodedNodes_frame (recs : List pb.GTpoNode) (g : GenGraph C)
    (m : IdObjectMap) (hJ : g.nodesSearch = g.nodes.map (fun n => n.addr)) :
    (g.decodedNodes m recs).1.nodesSearch =
      (g.decodedNodes m recs).1.nodes.map (fun n => n.addr) ∧
    (g.decodedNodes m recs).1.nodes.map (fun n => n.base) =
      g.nodes.map (fun n => n.base) ++ recs.map (fun r => feedNode C.nodeBase r) ∧
    (g.decodedNodes m recs).1.edges = g.edges ∧
    (g.decodedNodes m recs).1.groups = g.groups := by
  induction recs generalizing g m with
  | nil => simp [GenGraph.decodedNodes, hJ]
  | cons r rest ih =>
    simp only [GenGraph.decodedNodes]
    have hJ1 : (g.decodedNode r).nodesSearch = (g.decodedNode r).nodes.map (fun n => n.addr) := by
      rw [GenGraph.decodedNode_eq]
      simp [hJ, GenNode.new]
    obtain ⟨h1, h2, h3, h4⟩ := ih (g.decodedNode r) (StdMap.insert m r.node_id (some g.fresh)) hJ1
    refine ⟨h1, ?_, ?_, ?_⟩
    · rw [h2, GenGraph.decodedNode_eq]
      simp
    · rw [h3, GenGraph.decodedNode_eq]
    · rw [h4, GenGraph.decodedNode_eq]

theorem GenGraph.decodedNodes_map (recs : List pb.GTpoNode) (g : GenGraph C) (m : IdObjectMap)
    (hV : ∀ id v, StdMap.find m id = some v →
      ∃ a, v = some a ∧ a ∈ g.nodes.map (fun n => n.addr)) :
    (∀ id v, StdMap.find (g.decodedNodes m recs).2 id = some v →
      ∃ a, v = some a ∧ a ∈ (g.decodedNodes m recs).1.nodes.map (fun n => n.addr)) ∧
    (∀ r ∈ recs, ∃ v, StdMap.find (g.decodedNodes m recs).2 r.node_id = some v) ∧
    (∀ id v, StdMap.find m id = some v →
      StdMap.find (g.decodedNodes m recs).2 id = some v) := by
  induction recs generalizing g m with
  | nil =>
    refine ⟨hV, ?_, fun _ _ h => h⟩
    intro r hr
    cases hr
  | cons r rest ih =>
    simp only [GenGraph.decodedNodes]
    have hV1 : ∀ id v, StdMap.find (StdMap.insert m r.node_id (some g.fresh)) id = some v →
        ∃ a, v = some a ∧ a ∈ (g.decodedNode r).nodes.map (fun n => n.addr) := by
      intro id v hf
      rw [GenGraph.decodedNode_eq]
      simp only [List.map_append, List.map_cons, List.map_nil, List.mem_append,
        List.mem_singleton]
      rcases StdMap.find_insert_cases _ _ _ _ _ hf with h | h
      · obtain ⟨a, ha1, ha2⟩ := hV id v h
        exact ⟨a, ha1, Or.inl ha2⟩
      · exact ⟨g.fresh, h, Or.inr rfl⟩
    obtain ⟨h1, h2, h3⟩ := ih (g.decodedNode r) (StdMap.insert m r.node_id (some g.fresh)) hV1
    refine ⟨h1, ?_, ?_⟩
    · intro r2 hr2
      rcases List.mem_cons.1 hr2 with hr2 | hr2
      · subst hr2
        obtain ⟨w, hw⟩ := StdMap.find_insert_self m r2.node_id (some g.fresh)
        exact ⟨w, h3 _ _ hw⟩
      · exact h2 r2 hr2
    · intro id v hf
      exact h3 id v (StdMap.find_insert_mono _ _ _ _ _ hf)

theorem GenGraph.lockNode_of_mem (g : GenGraph C) (a : Addr)
    (h : a ∈ g.nodes.map (fun n => n.addr)) : ∃ n, g.lockNode (some a) = some n := by
  cases hl : g.lockNode (some a) with
  | none => exact absurd h (GenGraph.lockNode_none hl)
  | some n => exact ⟨n, rfl⟩

theorem GenGraph.memberNode_of_mem (g : GenGraph C) (a : Addr)
    (hJ : g.nodesSearch = g.nodes.map (fun n => n.addr))
    (h : a ∈ g.nodes.map (fun n => n.addr)) : ∃ n, g.memberNode (some a) = some n := by
  obtain ⟨n, hn⟩ := g.lockNode_of_mem a h
  refine ⟨n, ?_⟩
  have hc : g.containsNode (some a) = true := by
    simp only [GenGraph.containsNode, decide_eq_true_eq, hJ]
    exact h
  simp only [GenGraph.memberNode, hc, if_true, hn]

theorem GenGraph.nodes_updateNode_frame (g : GenGraph C) (a : Addr) (f : GenNode C → GenNode C)
    (hf : ∀ n, (f n).addr = n.addr ∧ (f n).base = n.base) :
    (g.updateNode a f).nodes.map (fun n => (n.addr, n.base)) =
      g.nodes.map (fun n => (n.addr, n.base)) := by
  simp only [GenGraph.updateNode, List.map_map]
  apply List.map_congr_left
  intro n _
  simp only [Function.comp]
  split
  · rw [(hf n).1, (hf n).2]
  · rfl

theorem GenGraph.decodedEdge_frame (g : GenGraph C) (r : pb.GTpoEdge) (s d : GenNode C) :
    (g.decodedEdge r s d).nodes.map (fun n => (n.addr, n.base)) =
      g.nodes.map (fun n => (n.addr, n.base)) ∧
    (g.decodedEdge r s d).nodesSearch = g.nodesSearch ∧
    (g.decodedEdge r s d).edges.map (fun e => e.base) =
      g.edges.map (fun e => e.base) ++ [C.setEdgeWeight C.edgeBase r.weight] ∧
    (g.decodedEdge r s d).groups.map (fun x => x.base) = g.groups.map (fun x => x.base) := by
  refine ⟨?_, rfl, ?_, ?_⟩
  · have h1 := GenGraph.nodes_updateNode_frame g s.addr
      (fun n => n.addOutEdge (GenEdge.new g.fresh (some s.addr) (some d.addr) : GenEdge C).addr
        d.addr) (fun n => ⟨rfl, rfl⟩)
    have h2 := GenGraph.nodes_updateNode_frame
      (g.updateNode s.addr (fun n =>
        n.addOutEdge (GenEdge.new g.fresh (some s.addr) (some d.addr) : GenEdge C).addr d.addr))
      d.addr
      (fun n => n.addInEdge (GenEdge.new g.fresh (some s.addr) (some d.addr) : GenEdge C).addr
        s.addr) (fun n => ⟨rfl, rfl⟩)
    rw [h1] at h2
    exact h2
  · simp only [GenGraph.decodedEdge, GenGraph.updateEdge, GenGraph.attachEdge,
      GenGraph.notifyEdgeInserted, insertInto, List.map_append, List.map_cons, List.map_nil]
    rw [map_if_fresh g.edges (fun e => e.addr) _ _ g.fresh_not_edge]
    simp [GenEdge.new]
  · simp only [GenGraph.decodedEdge, GenGraph.updateEdge, GenGraph.attachEdge,
      GenGraph.notifyEdgeInserted, GenGraph.updateNode, List.map_map]
    apply List.map_congr_left
    intro x _
    exact (x.reevaluate_frame _).2.2.1

theorem runEdgeInFunctors_default (g : GenGraph C) (m : IdObjectMap) (r : pb.GTpoEdge)
    (sa da : Addr) (s d : GenNode C)
    (hs : StdMap.find m r.src_node_id = some (some sa))
    (hd : StdMap.find m r.dst_node_id = some (some da))
    (hms : g.memberNode (some sa) = some s) (hmd : g.memberNode (some da) = some d) :
    ProtoSerializer.runEdgeInFunctors [defaultEdgeInFunctor "gtpo::Edge"] (.edge r) g m =
      ((g.decodedEdge r s d, StdMap.insert m r.edge_id (some g.fresh)), .ok true) := by
  have hce : g.createEdge (some sa) (some da) =
      (g.attachEdge (GenEdge.new g.fresh (some s.addr) (some d.addr)) s d,
        .ok (some g.fresh)) := by
    simp only [GenGraph.createEdge, hms, hmd]
    rfl
  have hlock : (g.attachEdge (GenEdge.new g.fresh (some s.addr) (some d.addr)) s d).lockEdge
      (some g.fresh) = some (GenEdge.new g.fresh (some s.addr) (some d.addr)) := by
    simp only [GenGraph.lockEdge, GenGraph.attachEdge, GenGraph.notifyEdgeInserted, insertInto]
    apply find?_append_fresh
    · intro y hy
      simpa using g.fresh_not_edge y hy
    · simp [GenEdge.new]
  have hdec : (defaultEdgeInFunctor "gtpo::Edge" : EdgeInFunctor C) (.edge r) g m =
      ((g.decodedEdge r s d, StdMap.insert m r.edge_id (some g.fresh)), .ok (some g.fresh)) := by
    simp only [defaultEdgeInFunctor, hs, hd, GenGraph.createEdgeOfClass, if_true, hce, hlock]
    rfl
  simp only [ProtoSerializer.runEdgeInFunctors, hdec, Option.isSome_some, if_true]

theorem serializeInPhase_edges (recs : List pb.GTpoEdge) (ids : List Int) (g : GenGraph C)
    (m : IdObjectMap) (n : Int)
    (hJ : g.nodesSearch = g.nodes.map (fun n => n.addr))
    (hK : ∀ id ∈ ids, ∃ a, StdMap.find m id = some (some a) ∧
      a ∈ g.nodes.map (fun n => n.addr))
    (hrec : ∀ r ∈ recs, r.src_node_id ∈ ids ∧ r.dst_node_id ∈ ids) :
    ∃ g2 m2,
      ProtoSerializer.serializeInPhase
          (ProtoSerializer.runEdgeInFunctors [defaultEdgeInFunctor "gtpo::Edge"])
          (recs.map pb.Any.edge) g m n = ((g2, m2, n + recs.length), none) ∧
      g2.nodes.map (fun n => n.base) = g.nodes.map (fun n => n.base) ∧
      g2.edges.map (fun e => e.base) =
        g.edges.map (fun e => e.base) ++
          recs.map (fun r => C.setEdgeWeight C.edgeBase r.weight) ∧
      g2.groups.map (fun x => x.base) = g.groups.map (fun x => x.base) := by
  induction recs generalizing g m n with
  | nil =>
    exact ⟨g, m, by simp [ProtoSerializer.serializeInPhase], rfl, by simp, rfl⟩
  | cons r rest ih =>
    obtain ⟨sa, hsa1, hsa2⟩ := hK _ (hrec r (List.mem_cons_self _ _)).1
    obtain ⟨da, hda1, hda2⟩ := hK _ (hrec r (List.mem_cons_self _ _)).2
    obtain ⟨s, hs⟩ := g.memberNode_of_mem sa hJ hsa2
    obtain ⟨d, hd⟩ := g.memberNode_of_mem da hJ hda2
    have hstep := runEdgeInFunctors_default g m r sa da s d hsa1 hda1 hs hd
    obtain ⟨f1, f2, f3, f4⟩ := g.decodedEdge_frame r s d
    have haddr : (g.decodedEdge r s d).nodes.map (fun n => n.addr) =
        g.nodes.map (fun n => n.addr) := by
      have := congrArg (List.map Prod.fst) f1
      simpa [List.map_map, Function.comp] using this
    have hbase : (g.decodedEdge r s d).nodes.map (fun n => n.base) =
        g.nodes.map (fun n => n.base) := by
      have := congrArg (List.map Prod.snd) f1
      simpa [List.map_map, Function.comp] using this
    have hJ1 : (g.decodedEdge r s d).nodesSearch =
        (g.decodedEdge r s d).nodes.map (fun n => n.addr) := by
      rw [f2, haddr, hJ]
    have hK1 : ∀ id ∈ ids, ∃ a,
        StdMap.find (StdMap.insert m r.edge_id (some g.fresh)) id = some (some a) ∧
        a ∈ (g.decodedEdge r s d).nodes.map (fun n => n.addr) := by
      intro id hid
      obtain ⟨a, ha1, ha2⟩ := hK id hid
      exact ⟨a, StdMap.find_insert_mono _ _ _ _ _ ha1, by rw [haddr]; exact ha2⟩
    obtain ⟨g2, m2, h1, h2, h3, h4⟩ := ih (g.decodedEdge r s d)
      (StdMap.insert m r.edge_id (some g.fresh)) (n + 1) hJ1 hK1
      (fun r2 hr2 => hrec r2 (List.mem_cons_of_mem _ hr2))
    refine ⟨g2, m2, ?_, ?_, ?_, ?_⟩
    · simp only [List.map_cons, ProtoSerializer.serializeInPhase, hstep, h1, List.length_cons,
        Nat.cast_add, Nat.cast_one]
      congr 3
      ring
    · rw [h2, hbase]
    · rw [h3, f3]
      simp
    · rw [h4, f4]

theorem GenGraph.createGroup_eq (g : GenGraph C) :
    g.createGroup = ({ g with groups := g.groups ++ [GenGroup.new g.fresh] },
      .ok (some g.fresh)) := by
  have hc : g.hasGroup (some (GenGroup.new g.fresh : GenGroup C).addr) = false := by
    simp only [GenGraph.hasGroup, GenGroup.new, decide_eq_false_iff_not, List.mem_map, not_exists,
      not_and]
    intro x hx
    exact g.fresh_not_group x hx
  simp only [GenGraph.createGroup, GenGraph.insertGroup, hc]
  rfl

theorem GenGraph.decodedGroup_eq (g : GenGraph C) (r : pb.GTpoGroup) :
    g.decodedGroup r =
      { g with groups := g.groups ++ [{ (GenGroup.new g.fresh : GenGroup C) with
                                          base := feedGroup C.groupBase r }] } := by
  simp only [GenGraph.decodedGroup, GenGraph.createGroup_eq, GenGraph.updateGroup,
    List.map_append, List.map_cons, List.map_nil]
  rw [map_if_fresh g.groups (fun x => x.addr) g.fresh _ g.fresh_not_group]
  simp [GenGroup.new]

theorem runGroupInFunctors_default (g : GenGraph C) (m : IdObjectMap) (r : pb.GTpoGroup)
    (hr : r.node_ids = []) :
    ProtoSerializer.runGroupInFunctors [defaultGroupInFunctor "gtpo::Group"] (.group r) g m =
      ((g.decodedGroup r, StdMap.insert m r.group_id (some g.fresh)), .ok true) := by
  have hlock : (g.createGroup.1).lockGroup (some g.fresh) = some (GenGroup.new g.fresh) := by
    rw [GenGraph.createGroup_eq]
    simp only [GenGraph.lockGroup]
    apply find?_append_fresh
    · intro y hy
      simpa using g.fresh_not_group y hy
    · simp [GenGroup.new]
  have hlock2 : (g.decodedGroup r).lockGroup (some g.fresh) =
      some { (GenGroup.new g.fresh : GenGroup C) with base := feedGroup C.groupBase r } := by
    rw [GenGraph.decodedGroup_eq]
    simp only [GenGraph.lockGroup]
    apply find?_append_fresh
    · intro y hy
      simpa using g.fresh_not_group y hy
    · simp [GenGroup.new]
  have hdec : (defaultGroupInFunctor "gtpo::Group" : GroupInFunctor C) (.group r) g m =
      ((g.decodedGroup r, StdMap.insert m r.group_id (some g.fresh)), .ok (some g.fresh)) := by
    simp only [defaultGroupInFunctor, GenGraph.createGroupOfClass, if_true]
    have hcg : g.createGroup = (g.createGroup.1, .ok (some g.fresh)) := by
      rw [GenGraph.createGroup_eq]
    rw [hcg]
    simp only [hlock, serializeGTpoGroupIn, hr, serializeGTpoGroupInNodes]
    rfl
  simp only [ProtoSerializer.runGroupInFunctors, hdec, hlock2, Option.isSome_some, if_true]

theorem serializeInPhase_groups (recs : List pb.GTpoGroup) (g : GenGraph C) (m : IdObjectMap)
    (n : Int) (hrec : ∀ r ∈ recs, r.node_ids = []) :
    ∃ g2 m2,
      ProtoSerializer.serializeInPhase
          (ProtoSerializer.runGroupInFunctors [defaultGroupInFunctor "gtpo::Group"])
          (recs.map pb.Any.group) g m n = ((g2, m2, n + recs.length), none) ∧
      g2.nodes = g.nodes ∧ g2.edges = g.edges ∧
      g2.groups.map (fun x => x.base) =
        g.groups.map (fun x => x.base) ++ recs.map (fun r => feedGroup C.groupBase r) := by
  induction recs generalizing g m n with
  | nil =>
    exact ⟨g, m, by simp [ProtoSerializer.serializeInPhase], rfl, rfl, by simp⟩
  | cons r rest ih =>
    have hstep := runGroupInFunctors_default g m r (hrec r (List.mem_cons_self _ _))
    obtain ⟨g2, m2, h1, h2, h3, h4⟩ := ih (g.decodedGroup r)
      (StdMap.insert m r.group_id (some g.fresh)) (n + 1)
      (fun r2 hr2 => hrec r2 (List.mem_cons_of_mem _ hr2))
    refine ⟨g2, m2, ?_, ?_, ?_, ?_⟩
    · simp only [List.map_cons, ProtoSerializer.serializeInPhase, hstep, h1, List.length_cons,
        Nat.cast_add, Nat.cast_one]
      congr 3
      ring
    · rw [h2, GenGraph.decodedGroup_eq]
    · rw [h3, GenGraph.decodedGroup_eq]
    · rw [h4, GenGraph.decodedGroup_eq]
      simp

/-- Decoding a message whose records are all of the default kinds, whose edge records name
ids of node records and whose group records list no member. -/
theorem serializeIn_default_records (s : ProtoSerializer C)
    (hn : s.nodeInFunctors = [defaultNodeInFunctor "gtpo::Node"])
    (he : s.edgeInFunctors = [defaultEdgeInFunctor "gtpo::Edge"])
    (hg : s.groupInFunctors = [defaultGroupInFunctor "gtpo::Group"])
    (M : pb.GTpoGraph) (nodeRecs : List pb.GTpoNode) (edgeRecs : List pb.GTpoEdge)
    (groupRecs : List pb.GTpoGroup)
    (hMn : M.nodes = nodeRecs.map pb.Any.node) (hMe : M.edges = edgeRecs.map pb.Any.edge)
    (hMg : M.groups = groupRecs.map pb.Any.group)
    (hrecE : ∀ r ∈ edgeRecs, r.src_node_id ∈ nodeRecs.map (fun x => x.node_id) ∧
      r.dst_node_id ∈ nodeRecs.map (fun x => x.node_id))
    (hrecG : ∀ r ∈ groupRecs, r.node_ids = []) (User1 User2 : String) :
    (s.serializeIn (.message M) GenGraph.empty User1 User2).raised = none ∧
    (s.serializeIn (.message M) GenGraph.empty User1 User2).graph.nodes.map (fun n => n.base) =
      nodeRecs.map (fun r => feedNode C.nodeBase r) ∧
    (s.serializeIn (.message M) GenGraph.empty User1 User2).graph.edges.map (fun e => e.base) =
      edgeRecs.map (fun r => C.setEdgeWeight C.edgeBase r.weight) ∧
    (nodeRecs ≠ [] →
      (s.serializeIn (.message M) GenGraph.empty User1 User2).graph.groups.map
        (fun x => x.base) = groupRecs.map (fun r => feedGroup C.groupBase r)) := by
  have hphase := serializeInPhase_nodes nodeRecs (GenGraph.empty : GenGraph C) [] 0
  obtain ⟨f1, f2, f3, f4⟩ := GenGraph.decodedNodes_frame nodeRecs (GenGraph.empty : GenGraph C)
    [] rfl
  obtain ⟨k1, k2, _⟩ := GenGraph.decodedNodes_map nodeRecs (GenGraph.empty : GenGraph C) []
    (by intro id v h; cases h)
  have hK : ∀ id ∈ nodeRecs.map (fun x => x.node_id), ∃ a,
      StdMap.find ((GenGraph.empty : GenGraph C).decodedNodes [] nodeRecs).2 id =
        some (some a) ∧
      a ∈ ((GenGraph.empty : GenGraph C).decodedNodes [] nodeRecs).1.nodes.map
        (fun n => n.addr) := by
    intro id hid
    obtain ⟨r, hr, hri⟩ := List.mem_map.1 hid
    obtain ⟨v, hv⟩ := k2 r hr
    obtain ⟨a, ha1, ha2⟩ := k1 _ _ hv
    subst ha1
    exact ⟨a, by rw [← hri]; exact hv, ha2⟩
  simp only [ProtoSerializer.serializeIn, ParseFromIstream, hn, he, hg, hMn, hMe, hMg, hphase]
  by_cases hsz : ((GenGraph.empty : GenGraph C).decodedNodes [] nodeRecs).2.size > 0
  · obtain ⟨g2, m2, e1, e2, e3, e4⟩ := serializeInPhase_edges edgeRecs
      (nodeRecs.map (fun x => x.node_id)) _ _ 0 f1 hK hrecE
    obtain ⟨g3, m3, p1, p2, p3, p4⟩ := serializeInPhase_groups groupRecs g2 m2 0 hrecG
    simp only [hsz, if_true, e1, p1]
    refine ⟨trivial, ?_, ?_, ?_⟩
    · rw [p2, e2, f2]
      simp [GenGraph.empty]
    · rw [p3, e3, f3]
      simp [GenGraph.empty]
    · intro _
      rw [p4, e4, f4]
      simp [GenGraph.empty]
  · have hnil : nodeRecs = [] := by
      cases nodeRecs with
      | nil => rfl
      | cons r rest =>
        exfalso
        obtain ⟨v, hv⟩ := k2 r (List.mem_cons_self _ _)
        apply hsz
        cases hm : ((GenGraph.empty : GenGraph C).decodedNodes [] (r :: rest)).2 with
        | nil => rw [hm] at hv; cases hv
        | cons p q => simp [StdMap.size]
    have henil : edgeRecs = [] := by
      cases edgeRecs with
      | nil => rfl
      | cons r rest =>
        have := (hrecE r (List.mem_cons_self _ _)).1
        rw [hnil] at this
        cases this
    simp only [hsz, if_false]
    refine ⟨trivial, ?_, ?_, ?_⟩
    · rw [f2]
      simp [GenGraph.empty]
    · rw [f3, henil]
      simp [GenGraph.empty]
    · intro hc
      exact absurd hnil hc

theorem find?_of_nodup_key {α : Type} (l : List α) (key : α → Addr)
    (h : (l.map key).Nodup) (x : α) (hx : x ∈ l) :
    l.find? (fun y => decide (key y = key x)) = some x := by
  induction l with
  | nil => cases hx
  | cons y rest ih =>
    simp only [List.map_cons, List.nodup_cons] at h
    rcases List.mem_cons.1 hx with hxy | hxr
    · subst hxy
      simp
    · have hne : key y ≠ key x := by
        intro hc
        exact h.1 (hc ▸ List.mem_map_of_mem key hxr)
      simp only [List.find?_cons, hne, decide_False]
      exact ih h.2 hxr

theorem ProtoSerializer.new_serializeOut_state (graph : GenGraph C) :
    (if (ProtoSerializer.new "gtpo::Node" "gtpo::Edge" "gtpo::Group" :
        ProtoSerializer C).objectIdMap.size = 0 then
      (ProtoSerializer.new "gtpo::Node" "gtpo::Edge" "gtpo::Group" :
        ProtoSerializer C).generateObjectIdMap graph
     else ProtoSerializer.new "gtpo::Node" "gtpo::Edge" "gtpo::Group") =
      (ProtoSerializer.new "gtpo::Node" "gtpo::Edge" "gtpo::Group" :
        ProtoSerializer C).generateObjectIdMap graph := by
  simp [ProtoSerializer.new, ProtoSerializer.blank, ProtoSerializer.registerNodeOutFunctor,
    ProtoSerializer.registerNodeInFunctor, ProtoSerializer.registerEdgeOutFunctor,
    ProtoSerializer.registerEdgeInFunctor, ProtoSerializer.registerGroupOutFunctor,
    ProtoSerializer.registerGroupInFunctor, StdMap.size]

theorem ProtoSerializer.new_functors (s : ProtoSerializer C)
    (hs : s = ProtoSerializer.new "gtpo::Node" "gtpo::Edge" "gtpo::Group") :
    s.nodeOutFunctors = [("gtpo::Node", defaultNodeOutFunctor)] ∧
    s.edgeOutFunctors = [("gtpo::Edge", defaultEdgeOutFunctor)] ∧
    s.groupOutFunctors = [("gtpo::Group", defaultGroupOutFunctor)] ∧
    s.nodeInFunctors = [defaultNodeInFunctor "gtpo::Node"] ∧
    s.edgeInFunctors = [defaultEdgeInFunctor "gtpo::Edge"] ∧
    s.groupInFunctors = [defaultGroupInFunctor "gtpo::Group"] := by
  subst hs
  simp [ProtoSerializer.new, ProtoSerializer.blank, ProtoSerializer.registerNodeOutFunctor,
    ProtoSerializer.registerNodeInFunctor, ProtoSerializer.registerEdgeOutFunctor,
    ProtoSerializer.registerEdgeInFunctor, ProtoSerializer.registerGroupOutFunctor,
    ProtoSerializer.registerGroupInFunctor, StdMap.insert, StdMap.find]

theorem serializeOutNodes_default (s : ProtoSerializer C) (graph : GenGraph C)
    (m : ObjectIdMap) (hf : s.nodeOutFunctors = [("gtpo::Node", defaultNodeOutFunctor)])
    (hnd : (graph.nodes.map (fun n => n.addr)).Nodup) (l : List (GenNode C))
    (hl : ∀ n ∈ l, n ∈ graph.nodes ∧ n.isSerializable = true ∧ n.className = "gtpo::Node") :
    (s.serializeOutNodes graph m l).1 =
      (l.map (fun n => serializeGTpoNodeOut graph (some n.addr) pb.GTpoNode.default m)).map
        pb.Any.node := by
  induction l with
  | nil => rfl
  | cons n rest ih =>
    obtain ⟨h1, h2, h3⟩ := hl n (List.mem_cons_self _ _)
    have hlock : graph.lockNode (some n.addr) = some n :=
      find?_of_nodup_key graph.nodes (fun n => n.addr) hnd n h1
    simp only [ProtoSerializer.serializeOutNodes, h2, hf, h3, StdMap.find, if_true,
      defaultNodeOutFunctor, hlock, Option.getD_some, List.map_cons,
      ih (fun x hx => hl x (List.mem_cons_of_mem _ hx))]
    simp

theorem serializeOutEdges_default (s : ProtoSerializer C) (graph : GenGraph C)
    (m : ObjectIdMap) (hf : s.edgeOutFunctors = [("gtpo::Edge", defaultEdgeOutFunctor)])
    (hnd : (graph.edges.map (fun e => e.addr)).Nodup)
    (hm : ∀ a ∈ graph.nodes.map (fun n => n.addr), ∃ id, StdMap.find m a = some id ∧ id ≠ -1)
    (l : List (GenEdge C))
    (hl : ∀ e ∈ l, e ∈ graph.edges ∧ e.className = "gtpo::Edge" ∧
      (∃ sa, e.src = some sa ∧ sa ∈ graph.nodes.map (fun n => n.addr)) ∧
      (∃ da, e.dst = some da ∧ da ∈ graph.nodes.map (fun n => n.addr))) :
    (s.serializeOutEdges graph m l).1 = (l.map (fun e => encodedEdge m e)).map pb.Any.edge := by
  induction l with
  | nil => rfl
  | cons e rest ih =>
    obtain ⟨h1, h2, ⟨sa, hs1, hs2⟩, ⟨da, hd1, hd2⟩⟩ := hl e (List.mem_cons_self _ _)
    have hlock : graph.lockEdge (some e.addr) = some e :=
      find?_of_nodup_key graph.edges (fun e => e.addr) hnd e h1
    obtain ⟨src, hsrc⟩ := graph.lockNode_of_mem sa hs2
    obtain ⟨dst, hdst⟩ := graph.lockNode_of_mem da hd2
    have hsa := (GenGraph.lockNode_some hsrc).2
    have hda := (GenGraph.lockNode_some hdst).2
    simp only [Option.some.injEq] at hsa hda
    obtain ⟨sid, hsid, hsne⟩ := hm sa hs2
    obtain ⟨did, hdid, hdne⟩ := hm da hd2
    have hfun := defaultEdgeOutFunctor_bwd graph pb.Any.unset (some e.addr) m e src dst sid did
      hlock (by rw [hs1]; exact hsrc) (by rw [hd1]; exact hdst)
      (by rw [← hsa]; exact hsid) (by rw [← hda]; exact hdid) hsne hdne
    have henc : encodedEdge m e =
        { edge_id := (StdMap.find m e.addr).getD (-1), src_node_id := sid, dst_node_id := did,
          weight := C.getEdgeWeight e.base } := by
      simp [encodedEdge, hs1, hd1, hsid, hdid]
    simp only [ProtoSerializer.serializeOutEdges, hf, h2, StdMap.find, if_true, hfun,
      Option.getD_some, List.map_cons, henc,
      ih (fun x hx => hl x (List.mem_cons_of_mem _ hx))]

theorem serializeOutGroups_default (s : ProtoSerializer C) (graph : GenGraph C)
    (m : ObjectIdMap) (hf : s.groupOutFunctors = [("gtpo::Group", defaultGroupOutFunctor)])
    (hnd : (graph.groups.map (fun x => x.addr)).Nodup) (l : List (GenGroup C))
    (hl : ∀ x ∈ l, x ∈ graph.groups ∧ x.className = "gtpo::Group") :
    (s.serializeOutGroups graph m l).1 =
      (l.map (fun x => serializeGTpoGroupOut graph (some x.addr) pb.GTpoGroup.default m)).map
        pb.Any.group := by
  induction l with
  | nil => rfl
  | cons x rest ih =>
    obtain ⟨h1, h2⟩ := hl x (List.mem_cons_self _ _)
    have hlock : graph.lockGroup (some x.addr) = some x :=
      find?_of_nodup_key graph.groups (fun x => x.addr) hnd x h1
    simp only [ProtoSerializer.serializeOutGroups, hf, h2, StdMap.find, if_true,
      defaultGroupOutFunctor, hlock, Option.getD_some, List.map_cons,
      ih (fun y hy => hl y (List.mem_cons_of_mem _ hy))]

theorem serializeGTpoGroupOut_node_ids (heap : GenGraph C) (w : WeakGroup) (m : ObjectIdMap) :
    (serializeGTpoGroupOut heap w pb.GTpoGroup.default m).node_ids = [] := by
  unfold serializeGTpoGroupOut
  split
  · rfl
  · split <;> rfl

theorem serializeGTpoNodeOut_eq (graph : GenGraph C) (n : GenNode C) (m : ObjectIdMap)
    (hm : m.size ≠ 0) (hlock : graph.lockNode (some n.addr) = some n) :
    serializeGTpoNodeOut graph (some n.addr) pb.GTpoNode.default m =
      { label := C.getNodeLabel n.base, x := C.getNodeX n.base, y := C.getNodeY n.base,
        width := C.getNodeWidth n.base, height := C.getNodeHeight n.base,
        node_id := match StdMap.find m n.addr with
          | some id => id
          | none => -1 } := by
  simp only [serializeGTpoNodeOut, hm, if_false, hlock]

theorem serializeGTpoGroupOut_eq (graph : GenGraph C) (x : GenGroup C) (m : ObjectIdMap)
    (hm : m.size ≠ 0) (hlock : graph.lockGroup (some x.addr) = some x) :
    serializeGTpoGroupOut graph (some x.addr) pb.GTpoGroup.default m =
      { label := C.getGroupLabel x.base, x := C.getGroupX x.base, y := C.getGroupY x.base,
        width := C.getGroupWidth x.base, height := C.getGroupHeight x.base,
        group_id := match StdMap.find m x.addr with
          | some id => id
          | none => -1,
        node_ids := [] } := by
  simp only [serializeGTpoGroupOut, hm, if_false, hlock]
  rfl

theorem ProtoSerializer.generateObjectIdMap_node_id (s : ProtoSerializer C) (graph : GenGraph C)
    (hnd : (graph.nodes.map (fun n => n.addr) ++ graph.edges.map (fun e => e.addr)).Nodup)
    (a : Addr) (ha : a ∈ graph.nodes.map (fun n => n.addr)) :
    ∃ id, StdMap.find (s.generateObjectIdMap graph).objectIdMap a = some id ∧ id ≠ -1 := by
  obtain ⟨i, hi⟩ := List.mem_iff_getElem?.1 ha
  refine ⟨(i : Int) + 1, ?_, by omega⟩
  rw [ProtoSerializer.generateObjectIdMap_find s graph hnd]
  exact Or.inl ⟨i, hi, rfl⟩

theorem ProtoSerializer.generateObjectIdMap_size (s : ProtoSerializer C) (graph : GenGraph C)
    (hnd : (graph.nodes.map (fun n => n.addr) ++ graph.edges.map (fun e => e.addr)).Nodup)
    (h : graph.nodes ≠ []) : (s.generateObjectIdMap graph).objectIdMap.size ≠ 0 := by
  rw [ProtoSerializer.generateObjectIdMap_eq s graph hnd]
  simp only [StdMap.size, List.length_append, numbered_length, List.length_map]
  have : graph.nodes.length ≠ 0 := fun hc => h (List.length_eq_zero.1 hc)
  omega

/-- C1 (amended): for every graph of distinct primitives of the default classes whose nodes are
all serializable and whose edges join nodes of the graph, with an accessor policy that gives
back what was written, `serializeOut` by a freshly constructed serializer followed by
`serializeIn` of the stream into a fresh empty graph raises nothing and yields the same node
count and edge count, the same label, x, y, width and height for every node and the same
weight for every edge, in the order of the containers; when the graph has at least one node it
also yields the same group count and the same label, x, y, width and height for every group. -/
theorem roundTrip_serializable_graph (graph : GenGraph C) (hlaw : C.GivesBack)
    (hnd : (graph.nodes.map (fun n => n.addr) ++ (graph.edges.map (fun e => e.addr) ++
      graph.groups.map (fun x => x.addr))).Nodup)
    (hnodes : ∀ n ∈ graph.nodes, n.isSerializable = true ∧ n.className = "gtpo::Node")
    (hedges : ∀ e ∈ graph.edges, e.className = "gtpo::Edge" ∧
      (∃ sa, e.src = some sa ∧ sa ∈ graph.nodes.map (fun n => n.addr)) ∧
      (∃ da, e.dst = some da ∧ da ∈ graph.nodes.map (fun n => n.addr)))
    (hgroups : ∀ x ∈ graph.groups, x.className = "gtpo::Group")
    (user1 user2 : Option Message) (User1 User2 : String) :
    ((ProtoSerializer.new "gtpo::Node" "gtpo::Edge" "gtpo::Group" : ProtoSerializer C).roundTrip
      graph user1 user2 User1 User2).raised = none ∧
    ((ProtoSerializer.new "gtpo::Node" "gtpo::Edge" "gtpo::Group" : ProtoSerializer C).roundTrip
      graph user1 user2 User1 User2).graph.getNodeCount = graph.getNodeCount ∧
    ((ProtoSerializer.new "gtpo::Node" "gtpo::Edge" "gtpo::Group" : ProtoSerializer C).roundTrip
      graph user1 user2 User1 User2).graph.getEdgeCount = graph.getEdgeCount ∧
    ((ProtoSerializer.new "gtpo::Node" "gtpo::Edge" "gtpo::Group" : ProtoSerializer C).roundTrip
      graph user1 user2 User1 User2).graph.nodes.map (fun n => C.nodeProps n.base) =
        graph.nodes.map (fun n => C.nodeProps n.base) ∧
    ((ProtoSerializer.new "gtpo::Node" "gtpo::Edge" "gtpo::Group" : ProtoSerializer C).roundTrip
      graph user1 user2 User1 User2).graph.edges.map (fun e => C.getEdgeWeight e.base) =
        graph.edges.map (fun e => C.getEdgeWeight e.base) ∧
    (graph.nodes ≠ [] →
      ((ProtoSerializer.new "gtpo::Node" "gtpo::Edge" "gtpo::Group" : ProtoSerializer C).roundTrip
        graph user1 user2 User1 User2).graph.getGroupCount = graph.getGroupCount ∧
      ((ProtoSerializer.new "gtpo::Node" "gtpo::Edge" "gtpo::Group" : ProtoSerializer C).roundTrip
        graph user1 user2 User1 User2).graph.groups.map (fun x => C.groupProps x.base) =
          graph.groups.map (fun x => C.groupProps x.base)) := by
  obtain ⟨hn1, hn23⟩ := List.nodup_append.1 hnd
  obtain ⟨hn2, hn3, _⟩ := List.nodup_append.1 hn23.1
  have hne : (graph.nodes.map (fun n => n.addr) ++ graph.edges.map (fun e => e.addr)).Nodup := by
    rw [← List.append_assoc] at hnd
    exact (List.nodup_append.1 hnd).1
  have hstate := ProtoSerializer.new_serializeOut_state graph
  -- the serializer and the id map used by the encoding
  generalize hS : (ProtoSerializer.new "gtpo::Node" "gtpo::Edge" "gtpo::Group" :
    ProtoSerializer C) = S at *
  obtain ⟨fo1, fo2, fo3, fi1, fi2, fi3⟩ := ProtoSerializer.new_functors S hS.symm
  have hmapdef : ∀ a ∈ graph.nodes.map (fun n => n.addr),
      ∃ id, StdMap.find (S.generateObjectIdMap graph).objectIdMap a = some id ∧ id ≠ -1 :=
    fun a ha => ProtoSerializer.generateObjectIdMap_node_id S graph hne a ha
  have hlockN : ∀ n ∈ graph.nodes, graph.lockNode (some n.addr) = some n :=
    fun n hn => find?_of_nodup_key graph.nodes (fun n => n.addr) hn1 n hn
  have hlockG : ∀ x ∈ graph.groups, graph.lockGroup (some x.addr) = some x :=
    fun x hx => find?_of_nodup_key graph.groups (fun x => x.addr) hn3 x hx
  have hsize : graph.nodes ≠ [] → (S.generateObjectIdMap graph).objectIdMap.size ≠ 0 :=
    ProtoSerializer.generateObjectIdMap_size S graph hne
  -- the three record lists of the message
  have eN := serializeOutNodes_default (S.generateObjectIdMap graph) graph
    (S.generateObjectIdMap graph).objectIdMap fo1 hn1 graph.nodes
    (fun n hn => ⟨hn, hnodes n hn⟩)
  have eE := serializeOutEdges_default (S.generateObjectIdMap graph) graph
    (S.generateObjectIdMap graph).objectIdMap fo2 hn2 hmapdef graph.edges
    (fun e he => ⟨he, hedges e he⟩)
  have eG := serializeOutGroups_default (S.generateObjectIdMap graph) graph
    (S.generateObjectIdMap graph).objectIdMap fo3 hn3 graph.groups
    (fun x hx => ⟨hx, hgroups x hx⟩)
  -- the edge records name ids of node records
  have hrecE : ∀ r ∈ graph.edges.map
      (fun e => encodedEdge (S.generateObjectIdMap graph).objectIdMap e),
      r.src_node_id ∈ (graph.nodes.map (fun n => serializeGTpoNodeOut graph (some n.addr)
        pb.GTpoNode.default (S.generateObjectIdMap graph).objectIdMap)).map
          (fun x => x.node_id) ∧
      r.dst_node_id ∈ (graph.nodes.map (fun n => serializeGTpoNodeOut graph (some n.addr)
        pb.GTpoNode.default (S.generateObjectIdMap graph).objectIdMap)).map
          (fun x => x.node_id) := by
    intro r hr
    obtain ⟨e, he, hre⟩ := List.mem_map.1 hr
    obtain ⟨_, ⟨sa, hs1, hs2⟩, ⟨da, hd1, hd2⟩⟩ := hedges e he
    have hnn : graph.nodes ≠ [] := by
      intro hc
      rw [hc] at hs2
      cases hs2
    have key : ∀ a ∈ graph.nodes.map (fun n => n.addr),
        ((StdMap.find (S.generateObjectIdMap graph).objectIdMap a).getD (-1)) ∈
          (graph.nodes.map (fun n => serializeGTpoNodeOut graph (some n.addr)
            pb.GTpoNode.default (S.generateObjectIdMap graph).objectIdMap)).map
              (fun x => x.node_id) := by
      intro a ha
      obtain ⟨n, hn, hna⟩ := List.mem_map.1 ha
      simp only [List.map_map, List.mem_map, Function.comp]
      refine ⟨n, hn, ?_⟩
      rw [serializeGTpoNodeOut_eq graph n _ (hsize hnn) (hlockN n hn), ← hna]
      dsimp only
      cases StdMap.find (S.generateObjectIdMap graph).objectIdMap n.addr <;> rfl
    subst hre
    constructor
    · have := key sa hs2
      simpa [encodedEdge, hs1] using this
    · have := key da hd2
      simpa [encodedEdge, hd1] using this
  have hrecG : ∀ r ∈ graph.groups.map (fun x => serializeGTpoGroupOut graph (some x.addr)
      pb.GTpoGroup.default (S.generateObjectIdMap graph).objectIdMap), r.node_ids = [] := by
    intro r hr
    obtain ⟨x, _, hrx⟩ := List.mem_map.1 hr
    rw [← hrx]
    exact serializeGTpoGroupOut_node_ids _ _ _
  -- decoding the message
  have hos : ∃ M : pb.GTpoGraph, S.roundTrip graph user1 user2 User1 User2 =
      (S.generateObjectIdMap graph).serializeIn (.message M) GenGraph.empty User1 User2 ∧
      M.nodes = ((S.generateObjectIdMap graph).serializeOutNodes graph
        (S.generateObjectIdMap graph).objectIdMap graph.nodes).1 ∧
      M.edges = ((S.generateObjectIdMap graph).serializeOutEdges graph
        (S.generateObjectIdMap graph).objectIdMap graph.edges).1 ∧
      M.groups = ((S.generateObjectIdMap graph).serializeOutGroups graph
        (S.generateObjectIdMap graph).objectIdMap graph.groups).1 := by
    refine ⟨{ node_count := (graph.getNodeCount : Int),
              edge_count := (graph.edges.length : Int),
              group_count := (graph.groups.length : Int),
              nodes := ((S.generateObjectIdMap graph).serializeOutNodes graph
                (S.generateObjectIdMap graph).objectIdMap graph.nodes).1,
              edges := ((S.generateObjectIdMap graph).serializeOutEdges graph
                (S.generateObjectIdMap graph).objectIdMap graph.edges).1,
              groups := ((S.generateObjectIdMap graph).serializeOutGroups graph
                (S.generateObjectIdMap graph).objectIdMap graph.groups).1,
              user1 := pb.Any.packOptional user1, user2 := pb.Any.packOptional user2 },
      ?_, rfl, rfl, rfl⟩
    simp only [ProtoSerializer.roundTrip, ProtoSerializer.serializeOut, hstate,
      SerializeToOstream]
  obtain ⟨M, hrt, mN, mE, mG⟩ := hos
  have hdec := serializeIn_default_records (S.generateObjectIdMap graph) fi1 fi2 fi3 M
    _ _ _ (mN.trans eN) (mE.trans eE) (mG.trans eG) hrecE hrecG User1 User2
  rw [hrt]
  obtain ⟨d1, d2, d3, d4⟩ := hdec
  -- property values
  have pN : ((S.generateObjectIdMap graph).serializeIn (.message M) GenGraph.empty User1
      User2).graph.nodes.map (fun n => C.nodeProps n.base) =
      graph.nodes.map (fun n => C.nodeProps n.base) := by
    have := congrArg (List.map C.nodeProps) d2
    simp only [List.map_map] at this
    refine Eq.trans this ?_
    apply List.map_congr_left
    intro n hn
    simp only [Function.comp]
    rw [serializeGTpoNodeOut_eq graph n _ (hsize (List.ne_nil_of_mem hn)) (hlockN n hn)]
    exact hlaw.node _ _ _
  have pE : ((S.generateObjectIdMap graph).serializeIn (.message M) GenGraph.empty User1
      User2).graph.edges.map (fun e => C.getEdgeWeight e.base) =
      graph.edges.map (fun e => C.getEdgeWeight e.base) := by
    have := congrArg (List.map C.getEdgeWeight) d3
    simp only [List.map_map] at this
    refine Eq.trans this ?_
    apply List.map_congr_left
    intro e _
    simp only [Function.comp, encodedEdge]
    exact hlaw.edge _ _
  have pG : graph.nodes ≠ [] → ((S.generateObjectIdMap graph).serializeIn (.message M) GenGraph.empty User1
      User2).graph.groups.map (fun x => C.groupProps x.base) =
      graph.groups.map (fun x => C.groupProps x.base) := by
    intro hnn
    have hnr : graph.nodes.map (fun n => serializeGTpoNodeOut graph (some n.addr)
        pb.GTpoNode.default (S.generateObjectIdMap graph).objectIdMap) ≠ [] := by
      simpa using hnn
    have := congrArg (List.map C.groupProps) (d4 hnr)
    simp only [List.map_map] at this
    refine Eq.trans this ?_
    apply List.map_congr_left
    intro x hx
    simp only [Function.comp]
    rw [serializeGTpoGroupOut_eq graph x _ (hsize hnn) (hlockG x hx)]
    exact hlaw.group _ _ _ _
  refine ⟨d1, ?_, ?_, pN, pE, ?_⟩
  · have := congrArg List.length pN
    simpa [GenGraph.getNodeCount] using this
  · have := congrArg List.length pE
    simpa [GenGraph.getEdgeCount] using this
  · intro hnn
    refine ⟨?_, pG hnn⟩
    have := congrArg List.length (pG hnn)
    simpa [GenGraph.getGroupCount] using this

/-- The storing policy gives back what was written. -/
theorem storingConfig_givesBack : storingConfig.GivesBack :=
  ⟨fun _ _ _ => rfl, fun _ _ => rfl, fun _ _ _ _ => rfl⟩

/-- C1 (counterexample): every class of `controlNodeGraph` has its encoder and decoder
registered, yet the round trip of this one-node graph yields a graph without node, because the
node is not serializable. -/
theorem roundTrip_drops_control_node :
    (∀ n ∈ controlNodeGraph.nodes,
      (StdMap.find defaultSerializer.nodeOutFunctors n.className).isSome = true) ∧
    controlNodeGraph.getNodeCount = 1 ∧
    (defaultSerializer.roundTrip controlNodeGraph none none "" "").raised = none ∧
    (defaultSerializer.roundTrip controlNodeGraph none none "" "").graph.getNodeCount = 0 ∧
    ¬ ((defaultSerializer.roundTrip controlNodeGraph none none "" "").graph.getNodeCount =
      controlNodeGraph.getNodeCount) := by
  refine ⟨by decide, by decide, by decide, by decide, by decide⟩

/-- The fixture `groupedGraph` has nodes. -/
theorem groupedGraph_nodes_ne_nil : groupedGraph.nodes ≠ [] := fun h =>
  absurd (congrArg List.length h) (by decide)

/-- Witness: the round trip of `groupedGraph` under the storing policy. -/
theorem roundTrip_serializable_graph_witness :
    (groupedGraph.nodes.map (fun n => n.addr) ++ (groupedGraph.edges.map (fun e => e.addr) ++
      groupedGraph.groups.map (fun x => x.addr))).Nodup ∧
    (∀ n ∈ groupedGraph.nodes, n.isSerializable = true ∧ n.className = "gtpo::Node") ∧
    (∀ x ∈ groupedGraph.groups, x.className = "gtpo::Group") ∧
    groupedGraph.nodes ≠ [] ∧
    (defaultSerializer.roundTrip groupedGraph none none "" "").raised = none ∧
    (defaultSerializer.roundTrip groupedGraph none none "" "").graph.getNodeCount =
      groupedGraph.getNodeCount ∧
    (defaultSerializer.roundTrip groupedGraph none none "" "").graph.getEdgeCount =
      groupedGraph.getEdgeCount ∧
    (defaultSerializer.roundTrip groupedGraph none none "" "").graph.getGroupCount =
      groupedGraph.getGroupCount :=
  have h := roundTrip_serializable_graph groupedGraph storingConfig_givesBack (by decide)
    (by decide)
    (fun e he => by
      have he1 : e = GenEdge.new 3 (some 1) (some 2) := by
        have : groupedGraph.edges = [GenEdge.new 3 (some 1) (some 2)] := rfl
        rw [this] at he
        simpa using he
      subst he1
      exact ⟨rfl, ⟨1, rfl, by decide⟩, ⟨2, rfl, by decide⟩⟩)
    (by decide) none none "" ""
  ⟨by decide, by decide, by decide, groupedGraph_nodes_ne_nil, h.1, h.2.1, h.2.2.1,
    (h.2.2.2.2.2 groupedGraph_nodes_ne_nil).1⟩

/-- C11 (amended): for every live node and every non-empty id map, `serializeGTpoNodeOut`
produces a record whose node_id is the id the map gives the node, and -1 when the node has no
entry; called with an empty map it returns at its first guard and leaves the record as it
was. -/
theorem serializeGTpoNodeOut_node_id (heap : GenGraph C) (weakNode : WeakNode)
    (node : GenNode C) (pbNode : pb.GTpoNode) (objectIdMap : ObjectIdMap)
    (hlive : heap.lockNode weakNode = some node) (hm : objectIdMap.size ≠ 0) :
    (∀ id, StdMap.find objectIdMap node.addr = some id →
      (serializeGTpoNodeOut heap weakNode pbNode objectIdMap).node_id = id) ∧
    (StdMap.find objectIdMap node.addr = none →
      (serializeGTpoNodeOut heap weakNode pbNode objectIdMap).node_id = -1) ∧
    serializeGTpoNodeOut heap weakNode pbNode [] = pbNode := by
  refine ⟨?_, ?_, ?_⟩
  · intro id hid
    simp only [serializeGTpoNodeOut, hm, if_false, hlive, hid]
  · intro hnone
    simp only [serializeGTpoNodeOut, hm, if_false, hlive, hnone]
  · simp [serializeGTpoNodeOut, StdMap.size]

/-- Witness: node 1 of `twoNodesOneEdge` with a map that numbers node 2 only. -/
theorem serializeGTpoNodeOut_node_id_witness :
    twoNodesOneEdge.lockNode (some 1) = some sourceNode ∧
    StdMap.size ([(2, 7)] : ObjectIdMap) ≠ 0 ∧
    ((∀ id, StdMap.find ([(2, 7)] : ObjectIdMap) sourceNode.addr = some id →
      (serializeGTpoNodeOut twoNodesOneEdge (some 1) pb.GTpoNode.default [(2, 7)]).node_id = id) ∧
    (StdMap.find ([(2, 7)] : ObjectIdMap) sourceNode.addr = none →
      (serializeGTpoNodeOut twoNodesOneEdge (some 1) pb.GTpoNode.default [(2, 7)]).node_id
        = -1) ∧
    serializeGTpoNodeOut twoNodesOneEdge (some 1) pb.GTpoNode.default [] =
      pb.GTpoNode.default) :=
  ⟨rfl, by decide,
    serializeGTpoNodeOut_node_id twoNodesOneEdge (some 1) sourceNode pb.GTpoNode.default
      [(2, 7)] rfl (by decide)⟩

/-- C11 (counterexample): node 1 of `twoNodesOneEdge` is alive and has no entry in the empty
id map, yet the record `serializeGTpoNodeOut` leaves has node_id 0, not -1. -/
theorem serializeGTpoNodeOut_empty_map_keeps_zero :
    twoNodesOneEdge.lockNode (some 1) = some sourceNode ∧
    StdMap.find ([] : ObjectIdMap) sourceNode.addr = none ∧
    (serializeGTpoNodeOut twoNodesOneEdge (some 1) pb.GTpoNode.default []).node_id = 0 ∧
    ¬ ((serializeGTpoNodeOut twoNodesOneEdge (some 1) pb.GTpoNode.default []).node_id = -1) := by
  refine ⟨rfl, rfl, by decide, by decide⟩

/-- C14: when the stream does not parse as a graph message, `serializeIn` returns normally and
creates nothing: the target graph is the graph it was given, with the same nodes, edges and
groups, and the three counters are zero. -/
theorem serializeIn_unparsed_stream (s : ProtoSerializer C) (is : Stream) (graph : GenGraph C)
    (User1 User2 : String) (h : ParseFromIstream is = none) :
    (s.serializeIn is graph User1 User2).raised = none ∧
    (s.serializeIn is graph User1 User2).graph = graph ∧
    (s.serializeIn is graph User1 User2).serializedNodeCout = 0 ∧
    (s.serializeIn is graph User1 User2).serializedEdgeCout = 0 ∧
    (s.serializeIn is graph User1 User2).serializedGroupCout = 0 := by
  simp only [ProtoSerializer.serializeIn, h, and_self]

/-- Witness: the unparsable stream read into `groupedGraph`. -/
theorem serializeIn_unparsed_stream_witness :
    ParseFromIstream Stream.invalid = none ∧
    ((defaultSerializer.serializeIn Stream.invalid groupedGraph "" "").raised = none ∧
    (defaultSerializer.serializeIn Stream.invalid groupedGraph "" "").graph = groupedGraph ∧
    (defaultSerializer.serializeIn Stream.invalid groupedGraph "" "").serializedNodeCout = 0 ∧
    (defaultSerializer.serializeIn Stream.invalid groupedGraph "" "").serializedEdgeCout = 0 ∧
    (defaultSerializer.serializeIn Stream.invalid groupedGraph "" "").serializedGroupCout = 0) :=
  ⟨rfl, serializeIn_unparsed_stream defaultSerializer Stream.invalid groupedGraph "" "" rfl⟩

/-- C15: the message `serializeOut` writes has node_count, edge_count and group_count equal to
the numbers of nodes, edges and groups of the graph, whatever the registries hold and however
many primitives were given a record. -/
theorem serializeOut_header_counts (s : ProtoSerializer C) (graph : GenGraph C)
    (user1 user2 : Option Message) :
    ∃ m, (s.serializeOut graph user1 user2).os = .message m ∧
      m.node_count = (graph.getNodeCount : Int) ∧
      m.edge_count = (graph.getEdgeCount : Int) ∧
      m.group_count = (graph.getGroupCount : Int) :=
  ⟨_, rfl, rfl, rfl, rfl⟩

/-- C13 (defect): the first group record of `unresolvedMemberMessage` lists the member id 5,
which the id to object map does not know.  The default group decoder has already created the
group when `idObjectMap.at( 5 )` throws `std::out_of_range`; nothing catches it, so
`serializeIn` is left by the exception, the group stays in the graph and the group record that
follows is not decoded. -/
theorem serializeIn_unresolved_member_escapes :
    StdMap.find (defaultSerializer.serializeIn (.message unresolvedMemberMessage)
      GenGraph.empty "" "").serializer.idObjectMap 5 = none ∧
    (defaultSerializer.serializeIn (.message unresolvedMemberMessage) GenGraph.empty ""
      "").raised = some .out_of_range ∧
    (defaultSerializer.serializeIn (.message unresolvedMemberMessage) GenGraph.empty ""
      "").graph.getGroupCount = 1 ∧
    (defaultSerializer.serializeIn (.message unresolvedMemberMessage) GenGraph.empty ""
      "").graph.groups.map (fun x => storingConfig.getGroupLabel x.base) = ["a"] ∧
    (defaultSerializer.serializeIn (.message unresolvedMemberMessage) GenGraph.empty ""
      "").serializedGroupCout = 0 := by
  refine ⟨by decide, by decide, by decide, by decide, by decide⟩

/-- C20 (defect): `GenGraph::getNodeY` returns `Config::getNodeX( n )`.  For a node whose
stored x is 1 and y is 2 it answers 1 while the accessor policy's `getNodeY` gives 2, and
after `setNodeY( n, 5 )` it still answers 1 although the policy now gives 5; for every graph
and node it answers the x of the node. -/
theorem getNodeY_returns_x :
    offAxisGraph.lockNode (some 1) = some offAxisNode ∧
    storingConfig.getNodeY offAxisNode.base = 2 ∧
    offAxisGraph.getNodeY offAxisNode = 1 ∧
    ((offAxisGraph.setNodeY offAxisNode 5).lockNode (some 1)).map
      (fun n => storingConfig.getNodeY n.base) = some 5 ∧
    ((offAxisGraph.setNodeY offAxisNode 5).lockNode (some 1)).map
      (fun n => (offAxisGraph.setNodeY offAxisNode 5).getNodeY n) = some 1 ∧
    (∀ (g : GenGraph storingConfig) (n : GenNode storingConfig),
      g.getNodeY n = storingConfig.getNodeX n.base) := by
  refine ⟨by rfl, by rfl, by rfl, by rfl, by rfl, fun _ _ => rfl⟩

theorem defaultEdgeInFunctor_unresolved (name : String) (r : pb.GTpoEdge) (g : GenGraph C)
    (m : IdObjectMap)
    (h : StdMap.find m r.src_node_id = none ∨ StdMap.find m r.dst_node_id = none) :
    defaultEdgeInFunctor name (.edge r) g m = ((g, m), .ok none) := by
  unfold defaultEdgeInFunctor
  dsimp only
  rcases h with h | h
  · rw [h]
  · rw [h]
    split
    · rename_i heq
      exact absurd heq (by simp)
    · rfl

theorem serializeInPhase_edge_unresolved (name : String) (r : pb.GTpoEdge) (g : GenGraph C)
    (m : IdObjectMap) (rest : List pb.Any) (n : Int)
    (h : StdMap.find m r.src_node_id = none ∨ StdMap.find m r.dst_node_id = none) :
    ProtoSerializer.serializeInPhase (ProtoSerializer.runEdgeInFunctors [defaultEdgeInFunctor name]) (.edge r :: rest) g m n =
      ProtoSerializer.serializeInPhase (ProtoSerializer.runEdgeInFunctors [defaultEdgeInFunctor name]) rest g m n := by
  have h1 : ProtoSerializer.runEdgeInFunctors [defaultEdgeInFunctor name] (.edge r) g m = ((g, m), .ok false) := by
    simp only [ProtoSerializer.runEdgeInFunctors, defaultEdgeInFunctor_unresolved name r g m h]
    rfl
  rw [ProtoSerializer.serializeInPhase, h1]

/-- C12: an edge record whose src_node_id or dst_node_id has no entry in the id to object map
makes the default edge decoder return null with the graph and the map as they were, and
`serializeIn` then treats the remaining edge records and the group records exactly as it
would had the record not been in the message. -/
theorem defaultEdgeInFunctor_skips_unresolved (name : String) (r : pb.GTpoEdge)
    (g : GenGraph C) (m : IdObjectMap)
    (h : StdMap.find m r.src_node_id = none ∨ StdMap.find m r.dst_node_id = none) :
    defaultEdgeInFunctor name (.edge r) g m = ((g, m), .ok none) ∧
    (∀ rest n,
      ProtoSerializer.serializeInPhase (ProtoSerializer.runEdgeInFunctors [defaultEdgeInFunctor name]) (.edge r :: rest) g m n =
        ProtoSerializer.serializeInPhase (ProtoSerializer.runEdgeInFunctors [defaultEdgeInFunctor name]) rest g m n) ∧
    (∀ (s : ProtoSerializer C) (inGraph : pb.GTpoGraph) (graph : GenGraph C)
        (rest : List pb.Any) (n1 : Int) (User1 User2 : String),
      s.edgeInFunctors = [defaultEdgeInFunctor name] →
      ProtoSerializer.serializeInPhase (ProtoSerializer.runNodeInFunctors s.nodeInFunctors) inGraph.nodes graph [] 0 =
        ((g, m, n1), none) →
      inGraph.edges = .edge r :: rest →
      s.serializeIn (.message inGraph) graph User1 User2 =
        s.serializeIn (.message { inGraph with edges := rest }) graph User1 User2) := by
  refine ⟨defaultEdgeInFunctor_unresolved name r g m h,
    fun rest n => serializeInPhase_edge_unresolved name r g m rest n h, ?_⟩
  intro s inGraph graph rest n1 User1 User2 hs hn he
  simp only [ProtoSerializer.serializeIn, ParseFromIstream, hn, hs, he,
    serializeInPhase_edge_unresolved name r g m rest 0 h]

/-- Witness: the first edge record of `unresolvedEdgeMessage` names the unknown id 9; the
message decodes as the message without that record does, to one node and one loop edge. -/
theorem defaultEdgeInFunctor_skips_unresolved_witness :
    (StdMap.find ([(1, some 1)] : IdObjectMap) (1 : Int) = none ∨
      StdMap.find ([(1, some 1)] : IdObjectMap) (9 : Int) = none) ∧
    (defaultSerializer.serializeIn (.message unresolvedEdgeMessage) GenGraph.empty ""
      "").graph.getEdgeCount = 1 ∧
    (defaultSerializer.serializeIn (.message unresolvedEdgeMessage) GenGraph.empty ""
      "").raised = none ∧
    defaultSerializer.serializeIn (.message unresolvedEdgeMessage) GenGraph.empty "" "" =
      defaultSerializer.serializeIn (.message { unresolvedEdgeMessage with
        edges := [.edge { edge_id := 3, src_node_id := 1, dst_node_id := 1, weight := 4 }] })
        GenGraph.empty "" "" :=
  ⟨Or.inr (by decide), by decide, by decide,
    (defaultEdgeInFunctor_skips_unresolved "gtpo::Edge"
      { edge_id := 2, src_node_id := 1, dst_node_id := 9, weight := 0 }
      _ [(1, some 1)] (Or.inr (by decide))).2.2 defaultSerializer unresolvedEdgeMessage
      GenGraph.empty _ 1 "" "" rfl rfl rfl⟩

theorem GenGraph.lockGroup_of_hasGroup {g : GenGraph C} {w : WeakGroup}
    (h : g.hasGroup w = true) :
    ∃ x, g.lockGroup w = some x ∧ x ∈ g.groups ∧ w = some x.addr := by
  cases w with
  | none => simp [GenGraph.hasGroup] at h
  | some a =>
    simp only [GenGraph.hasGroup, decide_eq_true_eq, List.mem_map] at h
    obtain ⟨y, hy, hya⟩ := h
    cases hf : g.groups.find? (fun x => decide (x.addr = a)) with
    | none =>
      rw [List.find?_eq_none] at hf
      exact absurd (by simpa using hya) (hf y hy)
    | some x =>
      have h1 := List.find?_some hf
      have h2 := List.mem_of_find?_eq_some hf
      simp only [decide_eq_true_eq] at h1
      exact ⟨x, by simp only [GenGraph.lockGroup, hf], h2, by rw [h1]⟩

theorem GenGraph.lockGroup_of_not_hasGroup {g : GenGraph C} {w : WeakGroup}
    (h : g.hasGroup w = false) : g.lockGroup w = none := by
  cases w with
  | none => rfl
  | some a =>
    simp only [GenGraph.hasGroup, decide_eq_false_iff_not, List.mem_map, not_exists,
      not_and] at h
    simp only [GenGraph.lockGroup, List.find?_eq_none, decide_eq_true_eq]
    exact fun x hx => h x hx

/-- C18: for a group registered in the graph, `removeGroup` returns normally, the group is no
longer one of the graph's groups while every other group stays, the nodes of the graph are the
same objects at the same addresses (node count unchanged, search index and edges untouched)
and every former member has an empty group reference; for a group that is not registered the
call raises the topology error and returns the graph as it was. -/
theorem removeGroup_releases_members (g : GenGraph C) (w : WeakGroup)
    (h : g.hasGroup w = true) :
    (∃ x, g.lockGroup w = some x ∧
      (g.removeGroup w).2 = .ok () ∧
      (g.removeGroup w).1.hasGroup w = false ∧
      (∀ y, y ∈ (g.removeGroup w).1.groups ↔ y ∈ g.groups ∧ y.addr ≠ x.addr) ∧
      (g.removeGroup w).1.getNodeCount = g.getNodeCount ∧
      (g.removeGroup w).1.nodes.map (fun n => n.addr) = g.nodes.map (fun n => n.addr) ∧
      (g.removeGroup w).1.nodesSearch = g.nodesSearch ∧
      (g.removeGroup w).1.edges = g.edges ∧
      (∀ a ∈ x.nodes, ∀ n, g.lockNode (some a) = some n →
        (g.removeGroup w).1.lockNode (some a) = some { n with group := none }) ∧
      (∀ n ∈ (g.removeGroup w).1.nodes, n.addr ∈ x.nodes → n.group = none)) ∧
    (∀ w2, g.hasGroup w2 = false → g.removeGroup w2 = (g, .error .bad_topology_error)) := by
  refine ⟨?_, ?_⟩
  · obtain ⟨x, hx, hxm, hw⟩ := GenGraph.lockGroup_of_hasGroup h
    refine ⟨x, hx, ?_⟩
    simp only [GenGraph.removeGroup, hx]
    refine ⟨trivial, ?_, ?_, ?_, ?_, trivial, trivial, ?_, ?_⟩
    · subst hw
      simp [GenGraph.hasGroup]
    · intro y
      simp [List.mem_filter]
    · simp [GenGraph.getNodeCount]
    · rw [List.map_map]
      apply List.map_congr_left
      intro n _
      simp only [Function.comp]
      split <;> rfl
    · intro a ha n hn
      simp only [GenGraph.lockNode] at hn ⊢
      revert hn
      generalize g.nodes = l
      intro hn
      induction l with
      | nil => simp at hn
      | cons m rest ih =>
        simp only [List.find?_cons, List.map_cons] at hn ⊢
        by_cases hm : m.addr = a
        · have hm1 : m.addr ∈ x.nodes := by rw [hm]; exact ha
          have hmn : m = n := by simpa [hm] using hn
          rw [if_pos hm1, ← hmn]
          simp [hm]
        · have hd : decide (m.addr = a) = false := by simp [hm]
          rw [hd] at hn
          have hd2 : decide ((if m.addr ∈ x.nodes then { m with group := none } else m).addr
              = a) = false := by
            split <;> simp [hm]
          rw [hd2]
          exact ih hn
    · intro n hn hmem
      rw [List.mem_map] at hn
      obtain ⟨m, _, hm⟩ := hn
      by_cases hc : m.addr ∈ x.nodes
      · rw [if_pos hc] at hm
        rw [← hm]
      · rw [if_neg hc] at hm
        rw [← hm] at hmem
        exact absurd hmem hc
  · intro w2 h2
    simp only [GenGraph.removeGroup, GenGraph.lockGroup_of_not_hasGroup h2]

/-- Witness: the group of `groupedGraph` (address 4, member node 1). -/
theorem removeGroup_releases_members_witness :
    groupedGraph.hasGroup (some 4) = true ∧
    (groupedGraph.removeGroup (some 4)).1.getGroupCount = 0 ∧
    (groupedGraph.removeGroup (some 4)).1.getNodeCount = 2 ∧
    ((groupedGraph.removeGroup (some 4)).1.lockNode (some 1)).map (fun n => n.group)
      = some none ∧
    (∀ w2, groupedGraph.hasGroup w2 = false →
      groupedGraph.removeGroup w2 = (groupedGraph, .error .bad_topology_error)) :=
  ⟨by decide, by decide, by decide, by decide,
    (removeGroup_releases_members groupedGraph (some 4) (by decide)).2⟩

theorem GenGraph.nodeAddrs_updateNode (g : GenGraph C) (a : Addr) (f : GenNode C → GenNode C)
    (hf : ∀ n, (f n).addr = n.addr) :
    (g.updateNode a f).nodes.map (fun n => n.addr) = g.nodes.map (fun n => n.addr) := by
  simp only [GenGraph.updateNode, List.map_map]
  apply List.map_congr_left
  intro n _
  simp only [Function.comp]
  split
  · exact hf n
  · rfl

theorem GenGraph.nodeAddrs_detachEdge (g : GenGraph C) (e : GenEdge C) :
    (g.detachEdge e).nodes.map (fun n => n.addr) = g.nodes.map (fun n => n.addr) := by
  unfold GenGraph.detachEdge GenGraph.notifyEdgeRemoved
  dsimp only
  cases e.src <;> cases e.dst <;> dsimp only
  · exact GenGraph.nodeAddrs_updateNode _ _ _ (fun _ => rfl)
  · exact GenGraph.nodeAddrs_updateNode _ _ _ (fun _ => rfl)
  · refine Eq.trans (GenGraph.nodeAddrs_updateNode _ _ _ ?_)
      (GenGraph.nodeAddrs_updateNode _ _ _ ?_) <;> intro n <;> rfl

theorem GenGraph.nodeAddrs_detachEdgeAt (g : GenGraph C) (ea : Addr) :
    (g.detachEdgeAt ea).nodes.map (fun n => n.addr) = g.nodes.map (fun n => n.addr) := by
  unfold GenGraph.detachEdgeAt
  split
  · exact GenGraph.nodeAddrs_detachEdge g _
  · rfl

theorem GenGraph.nodeAddrs_foldl_detachEdgeAt (l : List Addr) (g : GenGraph C) :
    (l.foldl (fun h ea => h.detachEdgeAt ea) g).nodes.map (fun n => n.addr) =
      g.nodes.map (fun n => n.addr) := by
  induction l generalizing g with
  | nil => rfl
  | cons a rest ih =>
    rw [List.foldl_cons, ih, GenGraph.nodeAddrs_detachEdgeAt]

theorem GenGraph.nodeAddrs_groupDropNode (g : GenGraph C) (a na : Addr) :
    (g.groupDropNode a na).nodes.map (fun n => n.addr) = g.nodes.map (fun n => n.addr) := by
  unfold GenGraph.groupDropNode GenGraph.notifyGroupNode
  dsimp only
  split
  · exact GenGraph.nodeAddrs_updateNode _ _ _ (fun _ => rfl)
  · exact GenGraph.nodeAddrs_updateNode _ _ _ (fun _ => rfl)

theorem GenGraph.nodeAddrs_eraseNode (g : GenGraph C) (n : GenNode C) :
    (g.eraseNode n).nodes.map (fun m => m.addr) =
      (g.nodes.map (fun m => m.addr)).filter (fun a => decide (a ≠ n.addr)) := by
  have key : ∀ (l : List (GenNode C)),
      (l.filter (fun m => decide (m.addr ≠ n.addr))).map (fun m => m.addr) =
        (l.map (fun m => m.addr)).filter (fun a => decide (a ≠ n.addr)) := by
    intro l
    rw [List.filter_map]
    rfl
  unfold GenGraph.eraseNode
  dsimp only
  rw [key]
  cases n.group with
  | none =>
    dsimp only
    rw [GenGraph.nodeAddrs_foldl_detachEdgeAt]
  | some a =>
    dsimp only
    rw [GenGraph.nodeAddrs_groupDropNode, GenGraph.nodeAddrs_foldl_detachEdgeAt]

theorem GenGraph.nodeAddrs_clear_fold (l : List (GenNode C)) (g : GenGraph C) :
    (l.foldl (fun h n =>
      match h.lockNode (some n.addr) with
      | some m => h.eraseNode m
      | none => h) g).nodes.map (fun m => m.addr) =
      (g.nodes.map (fun m => m.addr)).filter
        (fun a => decide (a ∉ l.map (fun n => n.addr))) := by
  induction l generalizing g with
  | nil => simp
  | cons n rest ih =>
    rw [List.foldl_cons, ih]
    cases hl : g.lockNode (some n.addr) with
    | some m =>
      have hm := (GenGraph.lockNode_some hl).2
      dsimp only
      rw [GenGraph.nodeAddrs_eraseNode, List.filter_filter]
      apply List.filter_congr
      intro a _
      have hm2 : n.addr = m.addr := Option.some.inj hm
      simp only [List.map_cons, List.mem_cons, hm2, not_or, Bool.decide_and, ne_eq]
      exact Bool.and_comm _ _
    | none =>
      dsimp only
      apply List.filter_congr
      intro a ha
      have hne : a ≠ n.addr := by
        intro heq
        subst heq
        simp only [GenGraph.lockNode, List.find?_eq_none, decide_eq_true_eq] at hl
        rw [List.mem_map] at ha
        obtain ⟨m, hm, hma⟩ := ha
        exact hl m hm hma
      simp [hne]

theorem GenGraph.nodes_clear (g : GenGraph C) : g.clear.nodes = [] := by
  have h := GenGraph.nodeAddrs_clear_fold g.nodes g
  have h2 : (g.nodes.map (fun m => m.addr)).filter
      (fun a => decide (a ∉ g.nodes.map (fun n => n.addr))) = [] := by
    rw [List.filter_eq_nil_iff]
    intro a ha
    simpa using ha
  rw [h2] at h
  simpa [GenGraph.clear] using h

/-- C19 (amended): for every graph, `clear()` leaves the node, edge and group counts all zero
and no behaviour attached, and a second `clear()` right after leaves the graph in exactly the
state the first call produced. -/
theorem clear_empties_and_is_idempotent (g : GenGraph C) :
    g.clear.getNodeCount = 0 ∧ g.clear.getEdgeCount = 0 ∧ g.clear.getGroupCount = 0 ∧
    g.clear.behaviours = [] ∧ g.clear.clear = g.clear := by
  have hn := GenGraph.nodes_clear g
  refine ⟨by rw [GenGraph.getNodeCount, hn]; rfl, rfl, rfl, rfl, ?_⟩
  have h1 : g.clear.edges = [] := rfl
  have h2 : g.clear.groups = [] := rfl
  have h3 : g.clear.behaviours = [] := rfl
  generalize g.clear = c at hn h1 h2 h3
  cases c
  simp only at hn h1 h2 h3
  subst hn h1 h2 h3
  rfl

/-- C19 (counterexample): `observedGraph` has a behaviour attached before `clear()` and none
after it, the header of `clear` reading "Clear the graph from all its content (nodes, edges,
groups, behaviours)". -/
theorem clear_detaches_behaviours :
    observedGraph.behaviours = ["observer"] ∧
    observedGraph.clear.getNodeCount = 0 ∧ observedGraph.clear.getEdgeCount = 0 ∧
    observedGraph.clear.getGroupCount = 0 ∧
    observedGraph.clear.behaviours = [] ∧
    observedGraph.clear.behaviours ≠ observedGraph.behaviours := by
  refine ⟨by rfl, by decide, by rfl, by rfl, by rfl, by decide⟩

theorem GenNode.detached_addr (e : GenEdge C) (n : GenNode C) :
    (n.detached e).addr = n.addr := by
  unfold GenNode.detached
  dsimp only
  split <;> split <;> rfl

theorem GenNode.detached_group (e : GenEdge C) (n : GenNode C) :
    (n.detached e).group = n.group := by
  unfold GenNode.detached
  dsimp only
  split <;> split <;> rfl

theorem GenNode.detached_outEdges (e : GenEdge C) (n : GenNode C) :
    (n.detached e).outEdges =
      if e.src = some n.addr then removeFrom n.outEdges e.addr else n.outEdges := by
  unfold GenNode.detached
  dsimp only
  split <;> split <;> rfl

theorem GenNode.detached_inEdges (e : GenEdge C) (n : GenNode C) :
    (n.detached e).inEdges =
      if e.dst = some n.addr then removeFrom n.inEdges e.addr else n.inEdges := by
  unfold GenNode.detached
  dsimp only
  split <;> split <;> rfl

theorem GenGraph.nodes_detachEdge (g : GenGraph C) (e : GenEdge C) :
    (g.detachEdge e).nodes = g.nodes.map (GenNode.detached e) := by
  unfold GenGraph.detachEdge GenGraph.notifyEdgeRemoved GenGraph.updateNode
  cases hs : e.src with
  | none =>
    cases hd : e.dst with
    | none =>
      dsimp only
      symm
      refine Eq.trans (List.map_congr_left ?_) (List.map_id _)
      intro n _
      simp [GenNode.detached, hs, hd]
    | some da =>
      dsimp only
      apply List.map_congr_left
      intro n _
      by_cases h : n.addr = da
      · have h2 : some da = some n.addr := by rw [h]
        simp only [GenNode.detached, hs, hd, h, if_true, if_false, reduceCtorEq]
      · have h2 : ¬ (some da = some n.addr) := fun hc => h (Option.some.inj hc).symm
        simp only [GenNode.detached, hs, hd, h, h2, if_false, reduceCtorEq]
  | some sa =>
    cases hd : e.dst with
    | none =>
      dsimp only
      apply List.map_congr_left
      intro n _
      by_cases h : n.addr = sa
      · simp only [GenNode.detached, hs, hd, h, if_true, if_false, reduceCtorEq]
      · have h2 : ¬ (some sa = some n.addr) := fun hc => h (Option.some.inj hc).symm
        simp only [GenNode.detached, hs, hd, h, h2, if_false, reduceCtorEq]
    | some da =>
      dsimp only
      rw [List.map_map]
      apply List.map_congr_left
      intro n _
      have hA : (some sa = some n.addr) ↔ n.addr = sa :=
        ⟨fun h => (Option.some.inj h).symm, fun h => by rw [h]⟩
      have hB : (some da = some n.addr) ↔ n.addr = da :=
        ⟨fun h => (Option.some.inj h).symm, fun h => by rw [h]⟩
      have hadd : (if n.addr = sa then n.removeOutEdge e.addr (some da) else n).addr =
          n.addr := by
        split <;> rfl
      simp only [Function.comp, GenNode.detached, hs, hd, hA, hB, hadd]

theorem GenGraph.nodesSearch_detachEdge (g : GenGraph C) (e : GenEdge C) :
    (g.detachEdge e).nodesSearch = g.nodesSearch := by
  unfold GenGraph.detachEdge
  cases e.src <;> cases e.dst <;> rfl

theorem GenGraph.lockNode_of_nodes_map (g h : GenGraph C) (F : GenNode C → GenNode C)
    (hF : ∀ n, (F n).addr = n.addr) (hn : h.nodes = g.nodes.map F) (w : WeakNode) :
    h.lockNode w = (g.lockNode w).map F := by
  cases w with
  | none => rfl
  | some b =>
    simp only [GenGraph.lockNode, hn, List.find?_map]
    have hp : ((fun n : GenNode C => decide (n.addr = b)) ∘ F) =
        fun n => decide (n.addr = b) := by
      funext n
      simp only [Function.comp, hF n]
    rw [hp]

theorem GenGraph.memberNode_detachEdge (g : GenGraph C) (e : GenEdge C) (w : WeakNode) :
    (g.detachEdge e).memberNode w = (g.memberNode w).map (GenNode.detached e) := by
  have h1 := GenGraph.lockNode_of_nodes_map g (g.detachEdge e) (GenNode.detached e)
    (GenNode.detached_addr e) (GenGraph.nodes_detachEdge g e) w
  have h2 : (g.detachEdge e).containsNode w = g.containsNode w := by
    cases w with
    | none => rfl
    | some a => simp only [GenGraph.containsNode, GenGraph.nodesSearch_detachEdge]
  simp only [GenGraph.memberNode, h1, h2]
  split <;> rfl

theorem GenGraph.memberNode_foldl_detachEdge (L : List (GenEdge C)) (g : GenGraph C)
    (w : WeakNode) :
    (L.foldl (fun h x => h.detachEdge x) g).memberNode w =
      (g.memberNode w).map (fun n => L.foldl (fun m e => m.detached e) n) := by
  induction L generalizing g with
  | nil => simp
  | cons e rest ih =>
    rw [List.foldl_cons, ih, GenGraph.memberNode_detachEdge, Option.map_map]
    rfl

theorem GenNode.foldl_detached_addr (L : List (GenEdge C)) (n : GenNode C) :
    (L.foldl (fun m e => m.detached e) n).addr = n.addr := by
  induction L generalizing n with
  | nil => rfl
  | cons e rest ih => rw [List.foldl_cons, ih, GenNode.detached_addr]

theorem GenNode.foldl_detached_outEdges (L : List (GenEdge C)) (n : GenNode C)
    (hL : ∀ e ∈ L, e.src = some n.addr) :
    (L.foldl (fun m e => m.detached e) n).outEdges =
      n.outEdges.filter (fun a => decide (a ∉ L.map (fun e => e.addr))) := by
  induction L generalizing n with
  | nil => simp
  | cons e rest ih =>
    have he := hL e (List.mem_cons_self _ _)
    rw [List.foldl_cons, ih]
    · rw [GenNode.detached_outEdges, if_pos he, removeFrom, List.filter_filter]
      apply List.filter_congr
      intro a _
      simp only [List.map_cons, List.mem_cons, not_or, Bool.decide_and, ne_eq]
      exact Bool.and_comm _ _
    · intro e2 h2
      rw [GenNode.detached_addr]
      exact hL e2 (List.mem_cons_of_mem _ h2)

theorem GenGraph.edges_foldl_detachEdge (L : List (GenEdge C)) (g : GenGraph C) :
    (L.foldl (fun h x => h.detachEdge x) g).edges =
      g.edges.filter (fun x => decide (x.addr ∉ L.map (fun e => e.addr))) := by
  induction L generalizing g with
  | nil => simp
  | cons e rest ih =>
    rw [List.foldl_cons, ih, GenGraph.edges_detachEdge, List.filter_filter]
    apply List.filter_congr
    intro a _
    simp only [List.map_cons, List.mem_cons, not_or, Bool.decide_and, ne_eq]
    exact Bool.and_comm _ _


theorem filter_cons_pos {α : Type} (p : α → Bool) (x : α) (l : List α) (h : p x = true) :
    (x :: l).filter p = x :: l.filter p := by
  simp only [List.filter_cons, h, if_true]

theorem filter_cons_neg {α : Type} (p : α → Bool) (x : α) (l : List α) (h : p x = false) :
    (x :: l).filter p = l.filter p := by
  simp only [List.filter_cons, h, Bool.false_eq_true, if_false]

theorem find?_cons_pos {α : Type} (p : α → Bool) (x : α) (l : List α) (h : p x = true) :
    (x :: l).find? p = some x := by
  simp only [List.find?_cons, h]

theorem find?_cons_neg {α : Type} (p : α → Bool) (x : α) (l : List α) (h : p x = false) :
    (x :: l).find? p = l.find? p := by
  simp only [List.find?_cons, h]

theorem find?_filter_key {α : Type} (l : List α) (key : α → Addr) (A : List Addr) (a : Addr)
    (ha : a ∉ A) :
    (l.filter (fun x => decide (key x ∉ A))).find? (fun x => decide (key x = a)) =
      l.find? (fun x => decide (key x = a)) := by
  induction l with
  | nil => rfl
  | cons y rest ih =>
    by_cases hy : key y ∈ A
    · have hne : key y ≠ a := fun h => ha (h ▸ hy)
      rw [filter_cons_neg (fun x => decide (key x ∉ A)) y rest (by simpa using hy),
        find?_cons_neg (fun x => decide (key x = a)) y rest (by simpa using hne), ih]
    · rw [filter_cons_pos (fun x => decide (key x ∉ A)) y rest (by simpa using hy)]
      by_cases hk : key y = a
      · rw [find?_cons_pos (fun x => decide (key x = a)) y _ (by simpa using hk),
          find?_cons_pos (fun x => decide (key x = a)) y _ (by simpa using hk)]
      · rw [find?_cons_neg (fun x => decide (key x = a)) y _ (by simpa using hk),
          find?_cons_neg (fun x => decide (key x = a)) y _ (by simpa using hk), ih]

theorem GenGraph.lockEdge_some {g : GenGraph C} {w : WeakEdge} {e : GenEdge C}
    (h : g.lockEdge w = some e) : e ∈ g.edges ∧ w = some e.addr := by
  cases w with
  | none => simp [GenGraph.lockEdge] at h
  | some a =>
    simp only [GenGraph.lockEdge] at h
    have h1 := List.find?_some h
    simp only [decide_eq_true_eq] at h1
    exact ⟨List.mem_of_find?_eq_some h, by rw [h1]⟩

theorem GenGraph.lockEdge_of_mem {g : GenGraph C} (hN : (g.edges.map (fun e => e.addr)).Nodup)
    {e : GenEdge C} (he : e ∈ g.edges) : g.lockEdge (some e.addr) = some e :=
  find?_of_nodup_key g.edges (fun e => e.addr) hN e he

theorem filterMap_filter_key {α : Type} (l : List Addr) (key : α → Addr) (A : List Addr)
    (L L2 : Addr → Option α) (q : α → Bool)
    (hL : ∀ a x, L a = some x → key x = a) (hL2 : ∀ a, a ∉ A → L2 a = L a) :
    ((l.filter (fun a => decide (a ∉ A))).filterMap L2).filter q =
      ((l.filterMap L).filter q).filter (fun x => decide (key x ∉ A)) := by
  induction l with
  | nil => rfl
  | cons a rest ih =>
    by_cases ha : a ∈ A
    · rw [filter_cons_neg (fun a => decide (a ∉ A)) a rest (by simpa using ha), ih]
      cases hx : L a with
      | none => rw [List.filterMap_cons_none hx]
      | some x =>
        have hk := hL a x hx
        rw [List.filterMap_cons_some hx]
        cases hq : q x with
        | true =>
          rw [filter_cons_pos q x _ hq,
            filter_cons_neg (fun x => decide (key x ∉ A)) x _ (by simpa [hk] using ha)]
        | false => rw [filter_cons_neg q x _ hq]
    · rw [filter_cons_pos (fun a => decide (a ∉ A)) a rest (by simpa using ha)]
      cases hx : L a with
      | none =>
        have hx2 : L2 a = none := by rw [hL2 a ha, hx]
        rw [List.filterMap_cons_none hx, List.filterMap_cons_none hx2, ih]
      | some x =>
        have hk := hL a x hx
        have hx2 : L2 a = some x := by rw [hL2 a ha, hx]
        rw [List.filterMap_cons_some hx, List.filterMap_cons_some hx2]
        cases hq : q x with
        | true =>
          rw [filter_cons_pos q x _ hq, filter_cons_pos q x _ hq,
            filter_cons_pos (fun x => decide (key x ∉ A)) x _ (by simpa [hk] using ha), ih]
        | false => rw [filter_cons_neg q x _ hq, filter_cons_neg q x _ hq, ih]

theorem GenGraph.edgesBetween_eq {g : GenGraph C} {sa da : Addr} {s d : GenNode C}
    (hs : g.memberNode (some sa) = some s) (hd : g.memberNode (some da) = some d) :
    g.edgesBetween (some sa) (some da) =
      (s.outEdges.filterMap (fun ea => g.lockEdge (some ea))).filter
        (fun e => decide (e.dst = some da)) := by
  have hda : some da = some d.addr := (GenGraph.memberNode_some hd).2.1
  simp only [GenGraph.edgesBetween, hs, hd, ← hda]

theorem GenGraph.edgesBetween_foldl_detachEdge (L : List (GenEdge C)) (g : GenGraph C)
    (sa da : Addr) (s d : GenNode C)
    (hs : g.memberNode (some sa) = some s) (hd : g.memberNode (some da) = some d)
    (hL : ∀ e ∈ L, e.src = some sa) :
    (L.foldl (fun h x => h.detachEdge x) g).edgesBetween (some sa) (some da) =
      (g.edgesBetween (some sa) (some da)).filter
        (fun x => decide (x.addr ∉ L.map (fun e => e.addr))) := by
  have hsa : some sa = some s.addr := (GenGraph.memberNode_some hs).2.1
  have hs2 := GenGraph.memberNode_foldl_detachEdge L g (some sa)
  have hd2 := GenGraph.memberNode_foldl_detachEdge L g (some da)
  rw [hs] at hs2
  rw [hd] at hd2
  rw [GenGraph.edgesBetween_eq hs2 hd2, GenGraph.edgesBetween_eq hs hd,
    GenNode.foldl_detached_outEdges L s (fun e he => by rw [← hsa]; exact hL e he)]
  apply filterMap_filter_key s.outEdges (fun e : GenEdge C => e.addr)
  · intro a x hx
    exact (Option.some.inj (GenGraph.lockEdge_some hx).2).symm
  · intro a ha
    simp only [GenGraph.lockEdge, GenGraph.edges_foldl_detachEdge]
    exact find?_filter_key g.edges (fun e => e.addr) _ a ha

theorem length_filter_key_head {α : Type} (x : α) (rest : List α) (key : α → Addr)
    (h : ∀ y ∈ rest, key y ≠ key x) :
    ((x :: rest).filter (fun y => decide (key y ∉ [key x]))).length = rest.length := by
  have h1 : (x :: rest).filter (fun y => decide (key y ∉ [key x])) = rest := by
    rw [filter_cons_neg (fun y => decide (key y ∉ [key x])) x rest (by simp)]
    apply List.filter_eq_self.2
    intro y hy
    simpa using h y hy
  rw [h1]

/-- In a graph whose edges are distinct objects registered at their endpoints, for nodes `src`
and `dst` joined by k >= 1 parallel edges, where the out edges of `src` are distinct edges of
the graph that leave `src`: `getEdgeCount( src, dst )` is k, `removeEdge( src, dst )` returns
normally and leaves exactly k-1 edges from `src` to `dst`, `removeAllEdges( src, dst )`
returns normally and leaves none; after each call `getEdgeCount( src, dst )` reports the new
number and every edge of another ordered pair of nodes is still in the graph. -/
theorem GenGraph.removeEdges_between_owned (g : GenGraph C) (sa da : Addr) (s d : GenNode C)
    (hs : g.memberNode (some sa) = some s) (hd : g.memberNode (some da) = some d)
    (hedges : (g.edges.map (fun e => e.addr)).Nodup)
    (hout : s.outEdges.Nodup)
    (hown : ∀ ea ∈ s.outEdges, ∃ e ∈ g.edges, e.addr = ea ∧ e.src = some sa)
    (hreg : ∀ e ∈ g.edges, (e.src = some sa → e.addr ∈ s.outEdges) ∧
      (e.dst = some da → e.addr ∈ d.inEdges))
    (hk : 1 ≤ (g.parallelEdges (some sa) (some da)).length) :
    g.getEdgeCountBetween (some sa) (some da) =
      (g.parallelEdges (some sa) (some da)).length ∧
    (g.removeEdgeBetween (some sa) (some da)).2 = .ok () ∧
    ((g.removeEdgeBetween (some sa) (some da)).1.parallelEdges (some sa) (some da)).length =
      (g.parallelEdges (some sa) (some da)).length - 1 ∧
    (g.removeEdgeBetween (some sa) (some da)).1.getEdgeCountBetween (some sa) (some da) =
      (g.parallelEdges (some sa) (some da)).length - 1 ∧
    (∀ e ∈ g.edges, ¬ (e.src = some sa ∧ e.dst = some da) →
      e ∈ (g.removeEdgeBetween (some sa) (some da)).1.edges) ∧
    (g.removeAllEdges (some sa) (some da)).2 = .ok () ∧
    (g.removeAllEdges (some sa) (some da)).1.parallelEdges (some sa) (some da) = [] ∧
    (g.removeAllEdges (some sa) (some da)).1.getEdgeCountBetween (some sa) (some da) = 0 ∧
    (∀ e ∈ g.edges, ¬ (e.src = some sa ∧ e.dst = some da) →
      e ∈ (g.removeAllEdges (some sa) (some da)).1.edges) := by
  have hEB := GenGraph.edgesBetween_eq hs hd
  -- membership in the scan of the out edges of the source
  have hmem : ∀ e, e ∈ g.edgesBetween (some sa) (some da) ↔
      e ∈ g.parallelEdges (some sa) (some da) := by
    intro e
    rw [hEB]
    simp only [GenGraph.parallelEdges, List.mem_filter, List.mem_filterMap, decide_eq_true_eq]
    constructor
    · rintro ⟨⟨ea, hea, hl⟩, hdst⟩
      obtain ⟨e2, he2, he2a, he2s⟩ := hown ea hea
      have h2 := GenGraph.lockEdge_of_mem hedges he2
      rw [he2a, hl] at h2
      cases h2
      exact ⟨he2, he2s, hdst⟩
    · rintro ⟨he, hsrc, hdst⟩
      exact ⟨⟨e.addr, (hreg e he).1 hsrc, GenGraph.lockEdge_of_mem hedges he⟩, hdst⟩
  have hlock : ∀ e ∈ g.edgesBetween (some sa) (some da),
      g.lockEdge (some e.addr) = some e := by
    intro e he
    have := (hmem e).1 he
    simp only [GenGraph.parallelEdges, List.mem_filter] at this
    exact GenGraph.lockEdge_of_mem hedges this.1
  have hsrc : ∀ e ∈ g.edgesBetween (some sa) (some da), e.src = some sa ∧ e.dst = some da ∧
      e ∈ g.edges := by
    intro e he
    have := (hmem e).1 he
    simp only [GenGraph.parallelEdges, List.mem_filter, decide_eq_true_eq] at this
    exact ⟨this.2.1, this.2.2, this.1⟩
  have hnodupEB : (g.edgesBetween (some sa) (some da)).Nodup := by
    rw [hEB]
    apply List.Nodup.filter
    apply List.Nodup.filterMap _ hout
    intro a a2 b hb hb2
    have h1 := (GenGraph.lockEdge_some hb).2
    have h2 := (GenGraph.lockEdge_some hb2).2
    exact Option.some.inj (h1.trans h2.symm)
  have hnodupPE : (g.parallelEdges (some sa) (some da)).Nodup :=
    List.Nodup.filter _ (List.Nodup.of_map _ hedges)
  have hperm : List.Perm (g.edgesBetween (some sa) (some da))
      (g.parallelEdges (some sa) (some da)) :=
    (List.perm_ext_iff_of_nodup hnodupEB hnodupPE).2 hmem
  have hlen := hperm.length_eq
  -- the edges that go from the source to the destination after a list of them was detached
  have hPE : ∀ L : List (GenEdge C),
      (L.foldl (fun h x => h.detachEdge x) g).parallelEdges (some sa) (some da) =
        (g.parallelEdges (some sa) (some da)).filter
          (fun x => decide (x.addr ∉ L.map (fun e => e.addr))) := by
    intro L
    simp only [GenGraph.parallelEdges, GenGraph.edges_foldl_detachEdge, List.filter_filter]
    apply List.filter_congr
    intro x _
    exact Bool.and_comm _ _
  have hkeep : ∀ (L : List (GenEdge C)), (∀ x ∈ L, x ∈ g.edgesBetween (some sa) (some da)) →
      ∀ e ∈ g.edges, ¬ (e.src = some sa ∧ e.dst = some da) →
      e ∈ (L.foldl (fun h x => h.detachEdge x) g).edges := by
    intro L hL e he hne
    rw [GenGraph.edges_foldl_detachEdge, List.mem_filter]
    refine ⟨he, ?_⟩
    simp only [decide_eq_true_eq, List.mem_map, not_exists, not_and]
    intro x hx hxa
    have hx1 := hsrc x (hL x hx)
    have h1 := GenGraph.lockEdge_of_mem hedges hx1.2.2
    have h2 := GenGraph.lockEdge_of_mem hedges he
    rw [hxa, h2] at h1
    cases h1
    exact hne ⟨hx1.1, hx1.2.1⟩
  cases hE : g.edgesBetween (some sa) (some da) with
  | nil =>
    rw [hE] at hlen
    simp only [List.length_nil] at hlen
    omega
  | cons e0 es =>
    have he0 : e0 ∈ g.edgesBetween (some sa) (some da) := by rw [hE]; exact List.mem_cons_self _ _
    have he0s := hsrc e0 he0
    have hrm : g.removeEdgeBetween (some sa) (some da) = (g.detachEdge e0, .ok ()) := by
      simp only [GenGraph.removeEdgeBetween, GenGraph.findEdge, hE, List.head?_cons,
        Option.map_some', GenGraph.removeEdge, hlock e0 he0, he0s.1, he0s.2.1, hs, hd]
      rw [if_pos ⟨(hreg e0 he0s.2.2).1 he0s.1, (hreg e0 he0s.2.2).2 he0s.2.1⟩]
    have hra : g.removeAllEdges (some sa) (some da) =
        ((e0 :: es).foldl (fun h x => h.detachEdge x) g, .ok ()) := by
      simp only [GenGraph.removeAllEdges, hE]
    have hone : g.detachEdge e0 = [e0].foldl (fun h x => h.detachEdge x) g := rfl
    have hes : ∀ y ∈ es, y.addr ≠ e0.addr := by
      intro y hy hya
      have hy1 : y ∈ g.edgesBetween (some sa) (some da) := by
        rw [hE]; exact List.mem_cons_of_mem _ hy
      have h1 := hlock y hy1
      rw [hya, hlock e0 he0] at h1
      cases h1
      rw [hE] at hnodupEB
      exact (List.nodup_cons.1 hnodupEB).1 hy
    have hcount1 : ((g.edgesBetween (some sa) (some da)).filter
        (fun x => decide (x.addr ∉ [e0].map (fun e => e.addr)))).length =
        (g.parallelEdges (some sa) (some da)).length - 1 := by
      rw [hE, ← hlen, hE]
      simp only [List.map_cons, List.map_nil, List.length_cons, Nat.add_sub_cancel]
      exact length_filter_key_head e0 es (fun e => e.addr) hes
    have hcountAll : (g.edgesBetween (some sa) (some da)).filter
        (fun x => decide (x.addr ∉ (e0 :: es).map (fun e => e.addr))) = [] := by
      rw [List.filter_eq_nil_iff]
      intro x hx
      rw [hE] at hx
      simp only [decide_eq_true_eq, not_not]
      exact List.mem_map_of_mem _ hx
    refine ⟨?_, ?_, ?_, ?_, ?_, ?_, ?_, ?_, ?_⟩
    · rw [GenGraph.getEdgeCountBetween, hlen]
    · rw [hrm]
    · rw [hrm]
      dsimp only
      rw [hone, hPE, ← hcount1]
      exact ((hperm.filter _).length_eq).symm
    · rw [hrm]
      dsimp only
      rw [hone, GenGraph.getEdgeCountBetween,
        GenGraph.edgesBetween_foldl_detachEdge [e0] g sa da s d hs hd
          (fun e he => by rw [List.mem_singleton.1 he]; exact he0s.1)]
      exact hcount1
    · rw [hrm]
      dsimp only
      rw [hone]
      exact hkeep [e0] (fun x hx => by rw [List.mem_singleton.1 hx]; exact he0)
    · rw [hra]
    · rw [hra]
      dsimp only
      rw [hPE]
      have := (hperm.filter (fun x => decide (x.addr ∉ (e0 :: es).map (fun e => e.addr)))).length_eq
      rw [hcountAll] at this
      exact List.length_eq_zero.1 this.symm
    · rw [hra]
      dsimp only
      rw [GenGraph.getEdgeCountBetween,
        GenGraph.edgesBetween_foldl_detachEdge (e0 :: es) g sa da s d hs hd
          (fun e he => (hsrc e (by rw [hE]; exact he)).1), hcountAll]
      rfl
    · rw [hra]
      dsimp only
      exact hkeep (e0 :: es) (fun x hx => by rw [hE]; exact hx)

theorem GenGroup.Files.congr {x y : GenGroup C} {e : GenEdge C}
    (hs : y.hasNode e.src = x.hasNode e.src) (hd : y.hasNode e.dst = x.hasNode e.dst)
    (he : e.addr ∈ y.edges ↔ e.addr ∈ x.edges)
    (ha : e.addr ∈ y.adjacentEdges ↔ e.addr ∈ x.adjacentEdges) (h : x.Files e) :
    y.Files e := by
  unfold GenGroup.Files at h ⊢
  rw [hs, hd, he, ha]
  exact h

theorem GenGroup.hasNode_congr {x y : GenGroup C} (h : y.nodes = x.nodes) (w : WeakNode) :
    y.hasNode w = x.hasNode w := by
  cases w with
  | none => rfl
  | some a => simp only [GenGroup.hasNode, h]

theorem GenGroup.reevaluate_nodes (x : GenGroup C) (e : GenEdge C) :
    (x.reevaluate e).nodes = x.nodes := (x.reevaluate_frame e).2.1

theorem GenGroup.reevaluate_mem (x : GenGroup C) (e : GenEdge C) (a : Addr)
    (h : a ≠ e.addr) :
    (a ∈ (x.reevaluate e).edges ↔ a ∈ x.edges) ∧
    (a ∈ (x.reevaluate e).adjacentEdges ↔ a ∈ x.adjacentEdges) := by
  unfold GenGroup.reevaluate
  split
  · simp only [mem_insertIntoSet, mem_removeFrom]
    exact ⟨⟨fun h1 => h1.resolve_right h, Or.inl⟩, ⟨fun h1 => h1.1, fun h1 => ⟨h1, h⟩⟩⟩
  · split
    · simp only [mem_insertIntoSet, mem_removeFrom]
      exact ⟨⟨fun h1 => h1.1, fun h1 => ⟨h1, h⟩⟩, ⟨fun h1 => h1.resolve_right h, Or.inl⟩⟩
    · simp only [mem_removeFrom]
      exact ⟨⟨fun h1 => h1.1, fun h1 => ⟨h1, h⟩⟩, ⟨fun h1 => h1.1, fun h1 => ⟨h1, h⟩⟩⟩

theorem GenGroup.reevaluate_files_self (x : GenGroup C) (e : GenEdge C) :
    (x.reevaluate e).Files e := by
  have hs := GenGroup.hasNode_congr (x.reevaluate_nodes e) e.src
  have hd := GenGroup.hasNode_congr (x.reevaluate_nodes e) e.dst
  unfold GenGroup.Files
  rw [hs, hd]
  unfold GenGroup.reevaluate
  cases h1 : x.hasNode e.src <;> cases h2 : x.hasNode e.dst <;>
    simp [mem_insertIntoSet, mem_removeFrom]

theorem GenGroup.reevaluate_files_other (x : GenGroup C) (e e2 : GenEdge C)
    (h : e2.addr ≠ e.addr) : (x.reevaluate e).Files e2 ↔ x.Files e2 := by
  have hs := GenGroup.hasNode_congr (x.reevaluate_nodes e) e2.src
  have hd := GenGroup.hasNode_congr (x.reevaluate_nodes e) e2.dst
  have hm := x.reevaluate_mem e e2.addr h
  exact ⟨fun k => GenGroup.Files.congr hs.symm hd.symm hm.1.symm hm.2.symm k,
    fun k => GenGroup.Files.congr hs hd hm.1 hm.2 k⟩

theorem GenGroup.foldl_reevaluate_files (E : List (GenEdge C))
    (hE : (E.map (fun e => e.addr)).Nodup) (Es : List (GenEdge C))
    (hEs : ∀ e ∈ Es, e ∈ E) (x : GenGroup C) (e : GenEdge C) (he : e ∈ E) :
    (e ∈ Es → (Es.foldl (fun y e => y.reevaluate e) x).Files e) ∧
    (e ∉ Es → ((Es.foldl (fun y e => y.reevaluate e) x).Files e ↔ x.Files e)) := by
  induction Es generalizing x with
  | nil => exact ⟨fun h => absurd h (List.not_mem_nil _), fun _ => Iff.rfl⟩
  | cons e1 rest ih =>
    have ih1 := ih (fun e2 h2 => hEs e2 (List.mem_cons_of_mem _ h2)) (x.reevaluate e1)
    have he1 : e1 ∈ E := hEs e1 (List.mem_cons_self _ _)
    have hkey : e ≠ e1 → e.addr ≠ e1.addr := by
      intro hne hadd
      have h1 := find?_of_nodup_key E (fun e => e.addr) hE e he
      have h2 := find?_of_nodup_key E (fun e => e.addr) hE e1 he1
      simp only at h1 h2
      have h3 : List.find? (fun y : GenEdge C => decide (y.addr = e.addr)) E =
          List.find? (fun y => decide (y.addr = e1.addr)) E := by rw [hadd]
      rw [h1, h2] at h3
      exact hne (Option.some.inj h3)
    simp only [List.foldl_cons]
    constructor
    · intro hmem
      by_cases hr : e ∈ rest
      · exact ih1.1 hr
      · have heq : e = e1 := by
          rcases List.mem_cons.1 hmem with h | h
          · exact h
          · exact absurd h hr
        rw [ih1.2 hr, heq]
        exact GenGroup.reevaluate_files_self x e1
    · intro hmem
      have hr : e ∉ rest := fun h => hmem (List.mem_cons_of_mem _ h)
      have hne : e ≠ e1 := fun h => hmem (h ▸ List.mem_cons_self _ _)
      rw [ih1.2 hr]
      exact GenGroup.reevaluate_files_other x e1 e (hkey hne)

theorem GenGroup.Files.transfer {x : GenGroup C} {e : GenEdge C} (h : x.Files e)
    (z : GenGroup C) (hn : z.nodes = x.nodes) (he : e.addr ∈ z.edges ↔ e.addr ∈ x.edges)
    (ha : e.addr ∈ z.adjacentEdges ↔ e.addr ∈ x.adjacentEdges) : z.Files e :=
  GenGroup.Files.congr (GenGroup.hasNode_congr hn _) (GenGroup.hasNode_congr hn _) he ha h

theorem GenGraph.linked_empty (P : Prop) : (GenGraph.empty : GenGraph C).Linked P :=
  ⟨List.nodup_nil, fun _ he => absurd he (List.not_mem_nil _),
    fun _ he => absurd he (List.not_mem_nil _), fun _ _ hx => absurd hx (List.not_mem_nil _)⟩

theorem GenGraph.Linked.of_frame {g h : GenGraph C} {P : Prop} (hL : g.Linked P)
    (hedges : h.edges = g.edges)
    (hnodes : ∀ n2 ∈ h.nodes, ∃ n ∈ g.nodes, n2.addr = n.addr ∧ n2.inEdges = n.inEdges ∧
      n2.outEdges = n.outEdges)
    (haddrs : ∀ a, a ∈ g.nodes.map (fun n => n.addr) → a ∈ h.nodes.map (fun n => n.addr))
    (hfiles : P → ∀ x ∈ h.groups, ∀ e ∈ g.edges, x.Files e) : h.Linked P := by
  refine ⟨by rw [hedges]; exact hL.edgeNodup, ?_, ?_, ?_⟩
  · intro e he
    rw [hedges] at he
    obtain ⟨s, d, h1, h2, h3, h4⟩ := hL.ends e he
    exact ⟨s, d, h1, h2, haddrs s h3, haddrs d h4⟩
  · intro e he n2 hn2
    rw [hedges] at he
    obtain ⟨n, hn, ha, hi, ho⟩ := hnodes n2 hn2
    rw [ha, hi, ho]
    exact hL.reg e he n hn
  · intro hP x hx e he
    rw [hedges] at he
    exact hfiles hP x hx e he

theorem GenGraph.Linked.of_map {g h : GenGraph C} {P : Prop} (hL : g.Linked P) (F : GenNode C → GenNode C)
    (hF : ∀ n, (F n).addr = n.addr ∧ (F n).inEdges = n.inEdges ∧ (F n).outEdges = n.outEdges)
    (hnodes : h.nodes = g.nodes.map F) (hedges : h.edges = g.edges)
    (hfiles : P → ∀ x ∈ h.groups, ∀ e ∈ g.edges, x.Files e) : h.Linked P := by
  refine hL.of_frame hedges ?_ ?_ hfiles
  · intro n2 hn2
    rw [hnodes, List.mem_map] at hn2
    obtain ⟨n, hn, rfl⟩ := hn2
    exact ⟨n, hn, hF n⟩
  · intro a ha
    rw [List.mem_map] at ha ⊢
    obtain ⟨n, hn, rfl⟩ := ha
    exact ⟨F n, by rw [hnodes]; exact List.mem_map_of_mem F hn, (hF n).1⟩

theorem GenGraph.search_iff_of_inv {g : GenGraph C} {F : Prop} (hI : g.rootView.Inv F)
    (a : Addr) :
    a ∈ g.nodesSearch ↔ a ∈ g.nodes.map (fun n => n.addr) := by
  have h := hI.search_iff a
  simp only [GenGraph.rootView, List.map_map] at h
  exact h

theorem GenGraph.linked_insertNode {g : GenGraph C} {F P : Prop} (hI : g.rootView.Inv F)
    (hL : g.Linked P) (node : Option (GenNode C)) : (g.insertNode node).1.Linked P := by
  unfold GenGraph.insertNode
  cases node with
  | none => exact hL
  | some n =>
    dsimp only
    split
    · exact hL
    · rename_i hc
      have hnew : n.addr ∉ g.nodes.map (fun m => m.addr) := by
        intro hmem
        apply hc
        simp only [GenGraph.containsNode, decide_eq_true_eq]
        exact (GenGraph.search_iff_of_inv hI n.addr).2 hmem
      refine ⟨hL.edgeNodup, ?_, ?_, hL.files⟩
      · intro e he
        obtain ⟨s, d, h1, h2, h3, h4⟩ := hL.ends e he
        refine ⟨s, d, h1, h2, ?_, ?_⟩
        · simp only [insertInto, List.map_append, List.mem_append]
          exact Or.inl h3
        · simp only [insertInto, List.map_append, List.mem_append]
          exact Or.inl h4
      · intro e he m hm
        obtain ⟨s, d, h1, h2, h3, h4⟩ := hL.ends e he
        rcases (mem_insertInto _ _ _).1 hm with hm | hm
        · exact hL.reg e he m hm
        · subst hm
          constructor
          · intro hsrc
            rw [h1] at hsrc
            exact absurd (Option.some.inj hsrc ▸ h3) hnew
          · intro hdst
            rw [h2] at hdst
            exact absurd (Option.some.inj hdst ▸ h4) hnew

theorem GenNode.attached_addr (e : GenEdge C) (s d n : GenNode C) :
    (GenNode.attached e s d n).addr = n.addr := by
  unfold GenNode.attached
  dsimp only
  split <;> split <;> rfl

theorem GenNode.attached_outEdges (e : GenEdge C) (s d n : GenNode C) :
    (GenNode.attached e s d n).outEdges =
      if n.addr = s.addr then insertInto n.outEdges e.addr else n.outEdges := by
  unfold GenNode.attached
  dsimp only
  split <;> split <;> rfl

theorem GenNode.attached_inEdges (e : GenEdge C) (s d n : GenNode C) :
    (GenNode.attached e s d n).inEdges =
      if n.addr = d.addr then insertInto n.inEdges e.addr else n.inEdges := by
  unfold GenNode.attached
  dsimp only
  split <;> split <;> rfl

theorem GenGraph.nodes_attachEdge (g : GenGraph C) (e : GenEdge C) (s d : GenNode C) :
    (g.attachEdge e s d).nodes = g.nodes.map (GenNode.attached e s d) := by
  unfold GenGraph.attachEdge GenGraph.notifyEdgeInserted GenGraph.updateNode
  dsimp only
  rw [List.map_map]
  apply List.map_congr_left
  intro n _
  have hadd : (if n.addr = s.addr then n.addOutEdge e.addr d.addr else n).addr = n.addr := by
    split <;> rfl
  simp only [Function.comp, GenNode.attached, hadd]

theorem GenGraph.linked_attachEdge {g : GenGraph C} {P : Prop} (hL : g.Linked P) (e : GenEdge C)
    (s d : GenNode C) (hs : s ∈ g.nodes) (hd : d ∈ g.nodes) (hsrc : e.src = some s.addr)
    (hdst : e.dst = some d.addr) (hnew : e.addr ∉ g.edges.map (fun x => x.addr)) :
    (g.attachEdge e s d).Linked P := by
  have hE : (g.attachEdge e s d).edges = g.edges ++ [e] := rfl
  have hG : (g.attachEdge e s d).groups = g.groups.map (fun x => x.reevaluate e) := rfl
  have hN := GenGraph.nodes_attachEdge g e s d
  have hA : (g.attachEdge e s d).nodes.map (fun n => n.addr) = g.nodes.map (fun n => n.addr) := by
    rw [hN, List.map_map]
    apply List.map_congr_left
    intro n _
    exact GenNode.attached_addr e s d n
  refine ⟨?_, ?_, ?_, ?_⟩
  · rw [hE, List.map_append]
    apply List.Nodup.append hL.edgeNodup (List.nodup_singleton _)
    intro a ha hb
    have hb2 : a = e.addr := List.mem_singleton.1 hb
    exact hnew (hb2 ▸ ha)
  · intro e1 he1
    rw [hA]
    rw [hE, List.mem_append, List.mem_singleton] at he1
    rcases he1 with h | h
    · exact hL.ends e1 h
    · subst h
      exact ⟨s.addr, d.addr, hsrc, hdst, List.mem_map_of_mem _ hs, List.mem_map_of_mem _ hd⟩
  · intro e1 he1 n2 hn2
    rw [hN, List.mem_map] at hn2
    obtain ⟨n, hn, rfl⟩ := hn2
    rw [GenNode.attached_addr, GenNode.attached_outEdges, GenNode.attached_inEdges]
    rw [hE, List.mem_append, List.mem_singleton] at he1
    rcases he1 with h | h
    · have hr := hL.reg e1 h n hn
      constructor
      · intro h1
        split
        · exact (mem_insertInto _ _ _).2 (Or.inl (hr.1 h1))
        · exact hr.1 h1
      · intro h1
        split
        · exact (mem_insertInto _ _ _).2 (Or.inl (hr.2 h1))
        · exact hr.2 h1
    · subst h
      constructor
      · intro h1
        rw [hsrc] at h1
        rw [if_pos (Option.some.inj h1).symm]
        exact (mem_insertInto _ _ _).2 (Or.inr rfl)
      · intro h1
        rw [hdst] at h1
        rw [if_pos (Option.some.inj h1).symm]
        exact (mem_insertInto _ _ _).2 (Or.inr rfl)
  · intro hP x hx e1 he1
    rw [hG, List.mem_map] at hx
    obtain ⟨y, hy, rfl⟩ := hx
    rw [hE, List.mem_append, List.mem_singleton] at he1
    rcases he1 with h | h
    · have hne : e1.addr ≠ e.addr := fun hc => hnew (hc ▸ List.mem_map_of_mem _ h)
      exact (GenGroup.reevaluate_files_other y e e1 hne).2 (hL.files hP y hy e1 h)
    · subst h
      exact GenGroup.reevaluate_files_self y e1

theorem GenGraph.linked_createEdge {g : GenGraph C} {P : Prop} (hL : g.Linked P)
    (source destination : WeakNode) : (g.createEdge source destination).1.Linked P := by
  unfold GenGraph.createEdge
  split
  · rename_i s d hs hd
    refine GenGraph.linked_attachEdge hL _ s d (GenGraph.memberNode_some hs).1
      (GenGraph.memberNode_some hd).1 rfl rfl ?_
    intro hmem
    rw [List.mem_map] at hmem
    obtain ⟨x, hx, hxa⟩ := hmem
    exact GenGraph.fresh_not_edge g x hx hxa
  · exact hL

theorem GenGraph.linked_insertEdge {g : GenGraph C} {P : Prop} (hL : g.Linked P)
    (edge : Option (GenEdge C)) : (g.insertEdge edge).1.Linked P := by
  unfold GenGraph.insertEdge
  cases edge with
  | none => exact hL
  | some e =>
    dsimp only
    split
    · exact hL
    · rename_i hnew
      split
      · rename_i s d hs hd
        exact GenGraph.linked_attachEdge hL e s d (GenGraph.memberNode_some hs).1
          (GenGraph.memberNode_some hd).1 (GenGraph.memberNode_some hs).2.1
          (GenGraph.memberNode_some hd).2.1 hnew
      · exact hL

theorem GenGraph.groups_detachEdge (g : GenGraph C) (e : GenEdge C) :
    (g.detachEdge e).groups = g.groups.map (fun x =>
      { x with edges := removeFrom x.edges e.addr,
               adjacentEdges := removeFrom x.adjacentEdges e.addr }) := by
  unfold GenGraph.detachEdge
  cases e.src <;> cases e.dst <;> rfl

theorem GenGraph.linked_detachEdge {g : GenGraph C} {P : Prop} (hL : g.Linked P) (e0 : GenEdge C) :
    (g.detachEdge e0).Linked P := by
  have hE := GenGraph.edges_detachEdge g e0
  have hN := GenGraph.nodes_detachEdge g e0
  have hA := GenGraph.nodeAddrs_detachEdge g e0
  have hG := GenGraph.groups_detachEdge g e0
  refine ⟨?_, ?_, ?_, ?_⟩
  · rw [hE]
    exact List.Nodup.sublist ((List.filter_sublist g.edges).map _) hL.edgeNodup
  · intro e he
    rw [hA]
    rw [hE, List.mem_filter] at he
    exact hL.ends e he.1
  · intro e he n2 hn2
    rw [hE, List.mem_filter, decide_eq_true_eq] at he
    rw [hN, List.mem_map] at hn2
    obtain ⟨n, hn, rfl⟩ := hn2
    rw [GenNode.detached_addr, GenNode.detached_outEdges, GenNode.detached_inEdges]
    have hr := hL.reg e he.1 n hn
    constructor
    · intro h1
      split
      · exact (mem_removeFrom _ _ _).2 ⟨hr.1 h1, he.2⟩
      · exact hr.1 h1
    · intro h1
      split
      · exact (mem_removeFrom _ _ _).2 ⟨hr.2 h1, he.2⟩
      · exact hr.2 h1
  · intro hP x hx e he
    rw [hE, List.mem_filter, decide_eq_true_eq] at he
    rw [hG, List.mem_map] at hx
    obtain ⟨y, hy, rfl⟩ := hx
    refine GenGroup.Files.transfer (hL.files hP y hy e he.1) _ rfl ?_ ?_
    · exact ⟨fun h => ((mem_removeFrom _ _ _).1 h).1, fun h => (mem_removeFrom _ _ _).2 ⟨h, he.2⟩⟩
    · exact ⟨fun h => ((mem_removeFrom _ _ _).1 h).1, fun h => (mem_removeFrom _ _ _).2 ⟨h, he.2⟩⟩

theorem GenGraph.linked_detachEdgeAt {g : GenGraph C} {P : Prop} (hL : g.Linked P) (ea : Addr) :
    (g.detachEdgeAt ea).Linked P := by
  unfold GenGraph.detachEdgeAt
  split
  · exact GenGraph.linked_detachEdge hL _
  · exact hL

theorem GenGraph.linked_foldl {α : Type} {P : Prop} (f : GenGraph C → α → GenGraph C)
    (hf : ∀ (g : GenGraph C) (x : α), g.Linked P → (f g x).Linked P)
    (l : List α) (g : GenGraph C) (h : g.Linked P) : (l.foldl f g).Linked P := by
  induction l generalizing g with
  | nil => exact h
  | cons x xs ih => exact ih (f g x) (hf g x h)

theorem GenGraph.linked_removeEdge {g : GenGraph C} {P : Prop} (hL : g.Linked P) (edge : WeakEdge) :
    (g.removeEdge edge).1.Linked P := by
  unfold GenGraph.removeEdge
  split
  · exact hL
  · split
    · split
      · exact GenGraph.linked_detachEdge hL _
      · exact hL
    · exact hL

theorem GenGraph.linked_removeEdgeBetween {g : GenGraph C} {P : Prop} (hL : g.Linked P)
    (source destination : WeakNode) : (g.removeEdgeBetween source destination).1.Linked P := by
  unfold GenGraph.removeEdgeBetween
  split
  · exact hL
  · exact GenGraph.linked_removeEdge hL _

theorem GenGraph.linked_removeAllEdges {g : GenGraph C} {P : Prop} (hL : g.Linked P)
    (source destination : WeakNode) : (g.removeAllEdges source destination).1.Linked P := by
  unfold GenGraph.removeAllEdges
  split
  · exact hL
  · exact GenGraph.linked_foldl (fun (k : GenGraph C) x => k.detachEdge x)
      (fun k x hk => GenGraph.linked_detachEdge hk x) _ g hL

theorem GenGroup.hasNode_renodes (y : GenGroup C) (na : Addr) (f : List Addr → List Addr)
    (hf : ∀ l b, b ≠ na → (b ∈ f l ↔ b ∈ l)) (w : WeakNode) (hw : w ≠ some na) :
    GenGroup.hasNode { y with nodes := f y.nodes } w = y.hasNode w := by
  cases w with
  | none => rfl
  | some b =>
    have hb : b ≠ na := fun h => hw (by rw [h])
    simp only [GenGroup.hasNode, hf y.nodes b hb]

theorem GenGroup.Files.renodes {y : GenGroup C} {e : GenEdge C} (h : y.Files e) (na : Addr)
    (f : List Addr → List Addr) (hf : ∀ l b, b ≠ na → (b ∈ f l ↔ b ∈ l))
    (hs : e.src ≠ some na) (hd : e.dst ≠ some na) :
    GenGroup.Files { y with nodes := f y.nodes } e :=
  GenGroup.Files.congr (GenGroup.hasNode_renodes y na f hf e.src hs)
    (GenGroup.hasNode_renodes y na f hf e.dst hd) Iff.rfl Iff.rfl h

theorem GenGraph.frame_notifyGroupNode (g : GenGraph C) (a na : Addr) :
    (g.notifyGroupNode a na).nodes = g.nodes ∧ (g.notifyGroupNode a na).edges = g.edges := by
  unfold GenGraph.notifyGroupNode
  split <;> exact ⟨rfl, rfl⟩

theorem GenGraph.linked_regroup {g : GenGraph C} {P : Prop} (hL : g.Linked P) (a na : Addr)
    (f : List Addr → List Addr) (G : WeakGroup)
    (hf : ∀ l b, b ≠ na → (b ∈ f l ↔ b ∈ l)) :
    (((g.updateGroup a (fun y => { y with nodes := f y.nodes })).updateNode na
      (fun m => { m with group := G })).notifyGroupNode a na).Linked P := by
  have hfr := GenGraph.frame_notifyGroupNode
    ((g.updateGroup a (fun y => { y with nodes := f y.nodes })).updateNode na
      (fun m => { m with group := G })) a na
  refine hL.of_map (fun n => if n.addr = na then { n with group := G } else n) ?_
    (hfr.1.trans rfl) (hfr.2.trans rfl) ?_
  · intro n
    dsimp only
    split <;> exact ⟨rfl, rfl, rfl⟩
  · intro hP x hx e he
    unfold GenGraph.notifyGroupNode at hx
    split at hx
    · -- no node lives at the address: no edge of the graph is incident to it
      rename_i hnone
      have hna : na ∉ g.nodes.map (fun n => n.addr) := by
        have h1 := GenGraph.lockNode_none hnone
        have h2 : ((g.updateGroup a (fun y => { y with nodes := f y.nodes })).updateNode na
            (fun m => { m with group := G })).nodes.map (fun n => n.addr) =
            g.nodes.map (fun n => n.addr) :=
          GenGraph.nodeAddrs_updateNode _ _ _ (fun _ => rfl)
        rw [h2] at h1
        exact h1
      obtain ⟨s, d, h1, h2, h3, h4⟩ := hL.ends e he
      have hs : e.src ≠ some na := by
        rw [h1]
        intro hc
        exact hna (Option.some.inj hc ▸ h3)
      have hd : e.dst ≠ some na := by
        rw [h2]
        intro hc
        exact hna (Option.some.inj hc ▸ h4)
      simp only [GenGraph.updateNode, GenGraph.updateGroup, List.mem_map] at hx
      obtain ⟨y, hy, rfl⟩ := hx
      split
      · exact (hL.files hP y hy e he).renodes na f hf hs hd
      · exact hL.files hP y hy e he
    · rename_i n2 hsome
      have hn2 := GenGraph.lockNode_some hsome
      have hn2a : n2.addr = na := (Option.some.inj hn2.2).symm
      have hn2m : n2 ∈ g.nodes.map (fun n => if n.addr = na then { n with group := G } else n) :=
        hn2.1
      rw [List.mem_map] at hn2m
      obtain ⟨n0, hn0, hn0e⟩ := hn2m
      have hn0a : n0.addr = na := by
        rw [← hn2a, ← hn0e]
        split <;> rfl
      have hn0i : n2.inEdges = n0.inEdges := by
        rw [← hn0e]
        split <;> rfl
      have hn0o : n2.outEdges = n0.outEdges := by
        rw [← hn0e]
        split <;> rfl
      simp only [GenGraph.updateGroup, List.mem_map] at hx
      obtain ⟨y1, hy1, rfl⟩ := hx
      simp only [GenGraph.updateNode, List.mem_map] at hy1
      obtain ⟨y, hy, rfl⟩ := hy1
      by_cases hya : y.addr = a
      · rw [if_pos hya]
        dsimp only
        rw [if_pos hya]
        have hEs : ∀ e2 ∈ (n2.inEdges ++ n2.outEdges).filterMap
            (fun ea => GenGraph.lockEdge ((g.updateGroup a
              (fun y => { y with nodes := f y.nodes })).updateNode na
              (fun m => { m with group := G })) (some ea)), e2 ∈ g.edges := by
          intro e2 h2
          rw [List.mem_filterMap] at h2
          obtain ⟨ea, _, hl⟩ := h2
          exact (GenGraph.lockEdge_some hl).1
        have hfold := GenGroup.foldl_reevaluate_files g.edges hL.edgeNodup _ hEs
          { y with nodes := f y.nodes } e he
        by_cases hin : e ∈ (n2.inEdges ++ n2.outEdges).filterMap
            (fun ea => GenGraph.lockEdge ((g.updateGroup a
              (fun y => { y with nodes := f y.nodes })).updateNode na
              (fun m => { m with group := G })) (some ea))
        · exact hfold.1 hin
        · refine (hfold.2 hin).2 ?_
          have hreg := hL.reg e he n0 hn0
          have hlock : GenGraph.lockEdge ((g.updateGroup a
              (fun y => { y with nodes := f y.nodes })).updateNode na
              (fun m => { m with group := G })) (some e.addr) = some e :=
            GenGraph.lockEdge_of_mem hL.edgeNodup he
          have hs : e.src ≠ some na := by
            intro hc
            apply hin
            rw [List.mem_filterMap]
            refine ⟨e.addr, ?_, hlock⟩
            rw [List.mem_append, hn0o]
            exact Or.inr (hreg.1 (by rw [hc, hn0a]))
          have hd : e.dst ≠ some na := by
            intro hc
            apply hin
            rw [List.mem_filterMap]
            refine ⟨e.addr, ?_, hlock⟩
            rw [List.mem_append, hn0i]
            exact Or.inl (hreg.2 (by rw [hc, hn0a]))
          exact (hL.files hP y hy e he).renodes na f hf hs hd
      · simp only [if_neg hya]
        exact hL.files hP y hy e he

theorem GenGraph.linked_groupInsertNode {g : GenGraph C} {P : Prop} (hL : g.Linked P) (group : WeakGroup)
    (node : WeakNode) : (g.groupInsertNode group node).1.Linked P := by
  unfold GenGraph.groupInsertNode
  split
  · split
    · exact hL
    · rename_i x n _ _ _
      exact GenGraph.linked_regroup hL x.addr n.addr (fun l => insertInto l n.addr)
        (some x.addr) (fun l b hb => by
          rw [mem_insertInto]
          exact ⟨fun h => h.resolve_right hb, Or.inl⟩)
  · exact hL

theorem GenGraph.linked_groupDropNode {g : GenGraph C} {P : Prop} (hL : g.Linked P) (a na : Addr) :
    (g.groupDropNode a na).Linked P :=
  GenGraph.linked_regroup hL a na (fun l => removeFrom l na) none (fun l b hb => by
    rw [mem_removeFrom]
    exact ⟨fun h => h.1, fun h => ⟨h, hb⟩⟩)

theorem GenGraph.linked_groupRemoveNode {g : GenGraph C} {P : Prop} (hL : g.Linked P) (group : WeakGroup)
    (node : WeakNode) : (g.groupRemoveNode group node).1.Linked P := by
  unfold GenGraph.groupRemoveNode
  split
  · split
    · exact GenGraph.linked_groupDropNode hL _ _
    · exact hL
  · exact hL

theorem GenGraph.linked_insertGroup {g : GenGraph C} {P : Prop} (hL : g.Linked P)
    (group : Option (GenGroup C)) (hgroup : P → ∀ x, group = some x → x.nodes = []) :
    (g.insertGroup group).1.Linked P := by
  unfold GenGraph.insertGroup
  cases group with
  | none => exact hL
  | some x =>
    dsimp only
    split
    · exact hL
    · refine ⟨hL.edgeNodup, hL.ends, hL.reg, ?_⟩
      intro hP y hy e he
      have hx : x.nodes = [] := hgroup hP x rfl
      rcases (mem_insertInto _ _ _).1 hy with hy | hy
      · exact hL.files hP y hy e he
      · subst hy
        have hno : ∀ w, y.hasNode w = false := by
          intro w
          cases w with
          | none => rfl
          | some b => simp [GenGroup.hasNode, hx]
        unfold GenGroup.Files
        rw [hno e.src, hno e.dst]
        exact ⟨fun h => absurd h.1 (by decide), fun h => absurd rfl h⟩

theorem GenGraph.linked_removeGroup {g : GenGraph C} {P : Prop} (hL : g.Linked P) (group : WeakGroup) :
    (g.removeGroup group).1.Linked P := by
  unfold GenGraph.removeGroup
  split
  · exact hL
  · rename_i x _
    refine hL.of_map (fun n => if n.addr ∈ x.nodes then { n with group := none } else n) ?_
      rfl rfl ?_
    · intro n
      dsimp only
      split <;> exact ⟨rfl, rfl, rfl⟩
    · intro hP y hy e he
      exact hL.files hP y (List.mem_filter.1 hy).1 e he

theorem GenGraph.linked_eraseNode {g : GenGraph C} {P : Prop} (hL : g.Linked P) (n : GenNode C)
    (hn : n ∈ g.nodes) : (g.eraseNode n).Linked P := by
  have h1 := GenGraph.linked_foldl (fun (k : GenGraph C) ea => k.detachEdgeAt ea)
    (fun k ea hk => GenGraph.linked_detachEdgeAt hk ea) (n.inEdges ++ n.outEdges) g hL
  have he1 := GenGraph.edges_foldl_detachEdgeAt (n.inEdges ++ n.outEdges) g
  have key : ∀ k : GenGraph C, k.Linked P → (∀ x ∈ k.edges, x ∈ g.edges ∧
      x.addr ∉ n.inEdges ++ n.outEdges) →
      GenGraph.Linked { k with nodes := k.nodes.filter (fun m => decide (m.addr ≠ n.addr)),
                               nodesSearch := removeFrom k.nodesSearch n.addr,
                               rootNodes := removeFrom k.rootNodes n.addr } P := by
    intro k hk hke
    refine ⟨hk.edgeNodup, ?_, ?_, hk.files⟩
    · intro e he
      obtain ⟨s, d, h1, h2, h3, h4⟩ := hk.ends e he
      have hreg := hL.reg e (hke e he).1 n hn
      have hnot := (hke e he).2
      rw [List.mem_append, not_or] at hnot
      have hs : s ≠ n.addr := by
        intro hc
        exact hnot.2 (hreg.1 (by rw [h1, hc]))
      have hd : d ≠ n.addr := by
        intro hc
        exact hnot.1 (hreg.2 (by rw [h2, hc]))
      refine ⟨s, d, h1, h2, ?_, ?_⟩
      · rw [List.mem_map] at h3 ⊢
        obtain ⟨m, hm, hma⟩ := h3
        exact ⟨m, List.mem_filter.2 ⟨hm, by simpa [hma] using hs⟩, hma⟩
      · rw [List.mem_map] at h4 ⊢
        obtain ⟨m, hm, hma⟩ := h4
        exact ⟨m, List.mem_filter.2 ⟨hm, by simpa [hma] using hd⟩, hma⟩
    · intro e he m hm
      exact hk.reg e he m (List.mem_filter.1 hm).1
  unfold GenGraph.eraseNode
  dsimp only
  cases n.group with
  | none => exact key _ h1 he1
  | some a =>
    dsimp only
    refine key _ (GenGraph.linked_groupDropNode h1 a n.addr) ?_
    rw [GenGraph.edges_groupDropNode]
    exact he1

theorem GenGraph.linked_removeNode {g : GenGraph C} {P : Prop} (hL : g.Linked P) (node : WeakNode) :
    (g.removeNode node).1.Linked P := by
  unfold GenGraph.removeNode
  split
  · exact hL
  · rename_i n hn
    exact GenGraph.linked_eraseNode hL n (GenGraph.memberNode_some hn).1

theorem GenGraph.linked_clear (g : GenGraph C) (P : Prop) : g.clear.Linked P :=
  ⟨List.nodup_nil, fun _ he => absurd he (List.not_mem_nil _),
    fun _ he => absurd he (List.not_mem_nil _), fun _ _ hx => absurd hx (List.not_mem_nil _)⟩

/-- Every reachable graph keeps its topology consistent, the edge sets of the groups included
when the inserted groups arrive without member. -/
theorem ReachableBy.wired {N : GenNode C → Prop} {G : GenGroup C → Prop} {g : GenGraph C}
    (h : ReachableBy N G g) : g.Linked (∀ x, G x → x.nodes = []) := by
  induction h with
  | empty => exact GenGraph.linked_empty _
  | createNode hr ih => exact GenGraph.linked_insertNode hr.inv ih _
  | insertNode node _ hr ih => exact GenGraph.linked_insertNode hr.inv ih node
  | createEdge s d _ ih => exact GenGraph.linked_createEdge ih s d
  | insertEdge e _ ih => exact GenGraph.linked_insertEdge ih e
  | removeEdge e _ ih => exact GenGraph.linked_removeEdge ih e
  | removeEdgeBetween s d _ ih => exact GenGraph.linked_removeEdgeBetween ih s d
  | removeAllEdges s d _ ih => exact GenGraph.linked_removeAllEdges ih s d
  | removeNode n _ ih => exact GenGraph.linked_removeNode ih n
  | createGroup _ ih => exact GenGraph.linked_insertGroup ih _ (fun _ x hx => by cases hx; rfl)
  | insertGroup x hG _ ih =>
    exact GenGraph.linked_insertGroup ih x (fun hP y hy => hP y (hG y hy))
  | removeGroup x _ ih => exact GenGraph.linked_removeGroup ih x
  | groupInsertNode x n _ ih => exact GenGraph.linked_groupInsertNode ih x n
  | groupRemoveNode x n _ ih => exact GenGraph.linked_groupRemoveNode ih x n
  | clear _ _ => exact GenGraph.linked_clear _ _

/-- Every reachable graph keeps its edges distinct, with endpoints in the graph and registered
at their endpoints, whatever the inserted nodes and groups carry. -/
theorem Reachable.linked {g : GenGraph C} (h : Reachable g) :
    g.Linked (∀ x : GenGroup C, Unconstrained x → x.nodes = []) :=
  h.by_any.wired

/-- C16 (amended): with the default group behaviours, in every graph state reachable by the
operations of `GenGraph` and `GenGroup` when every group handed to `insertGroup` arrives
without member node, and for every group of the graph, every edge whose source and
destination are both members of the group is in `getEdges()` and not in
`getAdjacentEdges()`, and every edge with exactly one endpoint among the members is in
`getAdjacentEdges()` and not in `getEdges()`, in whatever order the edges were created and the
nodes were inserted into the group. -/
theorem memberless_inserts_group_adjacency {g : GenGraph C}
    (h : ReachableBy Unconstrained GenGroup.Memberless g) :
    ∀ x ∈ g.groups, ∀ e ∈ g.edges,
      (x.hasNode e.src = true ∧ x.hasNode e.dst = true →
        e.addr ∈ x.edges ∧ e.addr ∉ x.adjacentEdges) ∧
      ((x.hasNode e.src = true ∧ x.hasNode e.dst = false) ∨
        (x.hasNode e.src = false ∧ x.hasNode e.dst = true) →
        e.addr ∈ x.adjacentEdges ∧ e.addr ∉ x.edges) := by
  intro x hx e he
  have hf := h.wired.files (fun _ hy => hy) x hx e he
  refine ⟨hf.1, fun hone => hf.2 ?_⟩
  rcases hone with ⟨h1, h2⟩ | ⟨h1, h2⟩
  · rw [h1, h2]
    decide
  · rw [h1, h2]
    decide

/-- The fixture graph `groupedGraph` is built by five operations from the empty graph. -/
theorem groupedGraph_reachable : Reachable groupedGraph :=
  Reachable.groupInsertNode (some 4) (some 1) (Reachable.createGroup twoNodesOneEdge_reachable)

/-- The fixture graph `adoptedGroupGraph` is built from the empty graph by five operations,
one of them an `insertGroup` of a group without member. -/
theorem adoptedGroupGraph_reachable :
    ReachableBy Unconstrained GenGroup.Memberless adoptedGroupGraph :=
  ReachableBy.groupInsertNode (some 9) (some 1)
    (ReachableBy.insertGroup (some looseGroup) (fun _ hx => by cases hx; rfl)
      (ReachableBy.createEdge (some 1) (some 2)
        (ReachableBy.createNode (ReachableBy.createNode ReachableBy.empty))))

/-- Witness: in `adoptedGroupGraph` a group constructed outside the graph was inserted
without member, node 1 joined it afterwards and the edge 1 -> 2, which existed before, is an
adjacent edge of the group. -/
theorem memberless_inserts_group_adjacency_witness :
    ReachableBy Unconstrained GenGroup.Memberless adoptedGroupGraph ∧
    (∀ x ∈ adoptedGroupGraph.groups, ∀ e ∈ adoptedGroupGraph.edges,
      (x.hasNode e.src = true ∧ x.hasNode e.dst = true →
        e.addr ∈ x.edges ∧ e.addr ∉ x.adjacentEdges) ∧
      ((x.hasNode e.src = true ∧ x.hasNode e.dst = false) ∨
        (x.hasNode e.src = false ∧ x.hasNode e.dst = true) →
        e.addr ∈ x.adjacentEdges ∧ e.addr ∉ x.edges)) ∧
    adoptedGroupGraph.groups.map (fun x => (x.addr, x.nodes, x.edges, x.adjacentEdges)) =
      [(9, [1], [], [3])] :=
  ⟨adoptedGroupGraph_reachable, memberless_inserts_group_adjacency adoptedGroupGraph_reachable,
    by decide⟩

/-- C16 counterexample: `filledGroupGraph` is reached from the empty graph by `createNode`,
`createNode`, `createEdge` and `insertGroup` of a group that arrives with the members 1 and 2;
the edge 1 -> 2 (address 3) has both endpoints among the members of the group and is in
neither edge set of the group. -/
theorem insertGroup_with_members_misfiles_edge :
    Reachable filledGroupGraph ∧
    filledGroupGraph.edges.map (fun e => (e.addr, e.src, e.dst)) = [(3, some 1, some 2)] ∧
    filledGroupGraph.groups.map (fun x => (x.addr, x.nodes, x.edges, x.adjacentEdges)) =
      [(4, [1, 2], [], [])] ∧
    ¬ (∀ x ∈ filledGroupGraph.groups, ∀ e ∈ filledGroupGraph.edges,
      (x.hasNode e.src = true ∧ x.hasNode e.dst = true →
        e.addr ∈ x.edges ∧ e.addr ∉ x.adjacentEdges) ∧
      ((x.hasNode e.src = true ∧ x.hasNode e.dst = false) ∨
        (x.hasNode e.src = false ∧ x.hasNode e.dst = true) →
        e.addr ∈ x.adjacentEdges ∧ e.addr ∉ x.edges)) := by
  refine ⟨Reachable.insertGroup (some filledGroup) twoNodesOneEdge_reachable, by decide,
    by decide, ?_⟩
  intro h
  have h1 := (h filledGroup (List.Mem.head _) firstEdge (List.Mem.head _)).1 ⟨rfl, rfl⟩
  exact absurd h1.1 (List.not_mem_nil _)

theorem ProtoSerializer.serializeIn_user2_other_type (s : ProtoSerializer C) (is : Stream)
    (graph : GenGraph C) (User1 User2 : String) (h : User1 ≠ User2) :
    (s.serializeIn is graph User1 User2).user2 = none := by
  have huser : ∀ a : pb.Any,
      (if a.isUser User1 = true then a.UnpackTo User2 else none) = none := by
    intro a
    cases a with
    | user t c =>
      by_cases ht : t = User1
      · have h2 : ¬ (t = User2) := fun hc => h (ht.symm.trans hc)
        simp only [pb.Any.isUser, pb.Any.UnpackTo, h2, if_false, ite_self]
      · simp only [pb.Any.isUser, ht, decide_False, Bool.false_eq_true, if_false]
    | _ => simp only [pb.Any.isUser, Bool.false_eq_true, if_false]
  unfold ProtoSerializer.serializeIn
  split
  · rfl
  · split
    · rfl
    · dsimp only
      split
      · rfl
      · split
        · rfl
        · dsimp only
          exact huser _

/-- C21 (defect): `serializeOut` stores a payload of type "U1" in the first user slot and one
of type "U2" in the second; `serializeIn< U1, U2 >` of that stream unpacks the first
payload, but leaves the second output argument untouched, because the second slot is tested
with `inGraph.user2().Is< User1 >()`.  Whenever the two types differ the second slot is never
unpacked. -/
theorem serializeIn_second_slot_tests_first_type :
    (defaultSerializer.roundTrip twoNodesOneEdge (some firstPayload) (some secondPayload)
      "U1" "U2").raised = none ∧
    (defaultSerializer.roundTrip twoNodesOneEdge (some firstPayload) (some secondPayload)
      "U1" "U2").user1 = some firstPayload ∧
    (defaultSerializer.roundTrip twoNodesOneEdge (some firstPayload) (some secondPayload)
      "U1" "U2").user2 = none ∧
    (defaultSerializer.roundTrip twoNodesOneEdge (some firstPayload) (some firstPayload)
      "U1" "U1").user2 = some firstPayload ∧
    (∀ (s : ProtoSerializer storingConfig) (is : Stream) (graph : GenGraph storingConfig)
      (User1 User2 : String), User1 ≠ User2 →
      (s.serializeIn is graph User1 User2).user2 = none) := by
  refine ⟨by decide, by decide, by decide, by decide, ?_⟩
  intro s is graph User1 User2 h
  exact ProtoSerializer.serializeIn_user2_other_type s is graph User1 User2 h

/-- C22 (defect): `unresolvedEdgeMessage` records `edge_count` 2 in its header and only one
of its edge records can be decoded, yet `serializeIn` into a fresh empty graph reports no edge
count mismatch: the test is `serializedEdgeCout != (int)graph.getEdges().size()`, the number
of edges of the target graph, not `inGraph.edge_count()`.  The node test compares with the
header: with `node_count` 3 recorded for the one node record it reports. -/
theorem serializeIn_edge_report_ignores_header :
    unresolvedEdgeMessage.edge_count = 2 ∧
    (defaultSerializer.serializeIn (.message unresolvedEdgeMessage) GenGraph.empty ""
      "").raised = none ∧
    (defaultSerializer.serializeIn (.message unresolvedEdgeMessage) GenGraph.empty ""
      "").serializedEdgeCout = 1 ∧
    (defaultSerializer.serializeIn (.message unresolvedEdgeMessage) GenGraph.empty ""
      "").edgeCountReport = false ∧
    (defaultSerializer.serializeIn (.message unresolvedEdgeMessage) GenGraph.empty ""
      "").nodeCountReport = false ∧
    (defaultSerializer.serializeIn (.message { unresolvedEdgeMessage with node_count := 3 })
      GenGraph.empty "" "").serializedNodeCout = 1 ∧
    (defaultSerializer.serializeIn (.message { unresolvedEdgeMessage with node_count := 3 })
      GenGraph.empty "" "").nodeCountReport = true := by
  refine ⟨by rfl, by decide, by decide, by decide, by decide, by decide, by decide⟩

theorem serializeInPhase_nodes_frame (name : String) (recs : List pb.Any) (g : GenGraph C)
    (m : IdObjectMap) (n : Int) :
    (ProtoSerializer.serializeInPhase
      (ProtoSerializer.runNodeInFunctors [defaultNodeInFunctor name]) recs g m n).1.1.edges =
      g.edges ∧
    (ProtoSerializer.serializeInPhase
      (ProtoSerializer.runNodeInFunctors [defaultNodeInFunctor name]) recs g m n).1.1.groups =
      g.groups := by
  have hstep : ∀ (a : pb.Any) (g : GenGraph C) (m : IdObjectMap),
      (defaultNodeInFunctor name a g m).1.1.edges = g.edges ∧
      (defaultNodeInFunctor name a g m).1.1.groups = g.groups := by
    intro a g m
    unfold defaultNodeInFunctor
    cases a with
    | node r =>
      dsimp only
      have hc : (g.createNodeOfClass name).1.edges = g.edges ∧
          (g.createNodeOfClass name).1.groups = g.groups := by
        unfold GenGraph.createNodeOfClass
        split
        · rw [GenGraph.createNode_eq]
          exact ⟨rfl, rfl⟩
        · exact ⟨rfl, rfl⟩
      generalize g.createNodeOfClass name = cr at hc
      obtain ⟨g1, res⟩ := cr
      cases res with
      | error e => exact hc
      | ok w =>
        dsimp only
        split
        · unfold serializeGTpoNodeIn
          split
          · exact hc
          · exact hc
        · exact hc
    | _ => exact ⟨rfl, rfl⟩
  have hrun : ∀ (a : pb.Any) (g : GenGraph C) (m : IdObjectMap),
      (ProtoSerializer.runNodeInFunctors [defaultNodeInFunctor name] a g m).1.1.edges =
        g.edges ∧
      (ProtoSerializer.runNodeInFunctors [defaultNodeInFunctor name] a g m).1.1.groups =
        g.groups := by
    intro a g m
    have hs := hstep a g m
    simp only [ProtoSerializer.runNodeInFunctors]
    generalize defaultNodeInFunctor name a g m = r at hs
    obtain ⟨⟨g1, m1⟩, res⟩ := r
    cases res with
    | error e => exact hs
    | ok w =>
      dsimp only
      split
      · exact hs
      · exact hs
  induction recs generalizing g m n with
  | nil => exact ⟨rfl, rfl⟩
  | cons a rest ih =>
    have hs := hrun a g m
    unfold ProtoSerializer.serializeInPhase
    generalize ProtoSerializer.runNodeInFunctors [defaultNodeInFunctor name] a g m = r at hs
    obtain ⟨⟨g1, m1⟩, res⟩ := r
    cases res with
    | error e => exact hs
    | ok b =>
      cases b with
      | true =>
        have := ih g1 m1 (n + 1)
        exact ⟨this.1.trans hs.1, this.2.trans hs.2⟩
      | false =>
        have := ih g1 m1 n
        exact ⟨this.1.trans hs.1, this.2.trans hs.2⟩

/-- C25: when the node phase of `serializeIn` ends with an empty id to object map, the edge
phase and the group phase are not run: the graph is left as the node phase left it, no edge
record and no group record is decoded and nothing is raised.  With the default node decoder
the graph has the edges and the groups it had before the call, and a message without node
record leaves the target graph as it was, whatever group records it holds. -/
theorem serializeIn_empty_map_skips_edges_and_groups (s : ProtoSerializer C)
    (inGraph : pb.GTpoGraph) (graph g1 : GenGraph C) (m1 : IdObjectMap) (n1 : Int)
    (User1 User2 : String)
    (hphase : ProtoSerializer.serializeInPhase
      (ProtoSerializer.runNodeInFunctors s.nodeInFunctors) inGraph.nodes graph [] 0 =
        ((g1, m1, n1), none))
    (hm : m1.size = 0) :
    (s.serializeIn (.message inGraph) graph User1 User2).graph = g1 ∧
    (s.serializeIn (.message inGraph) graph User1 User2).serializedEdgeCout = 0 ∧
    (s.serializeIn (.message inGraph) graph User1 User2).serializedGroupCout = 0 ∧
    (s.serializeIn (.message inGraph) graph User1 User2).raised = none ∧
    (inGraph.nodes = [] → g1 = graph) ∧
    (∀ name, s.nodeInFunctors = [defaultNodeInFunctor name] →
      g1.edges = graph.edges ∧ g1.groups = graph.groups) := by
  have hnot : ¬ (m1.size > 0) := by omega
  refine ⟨?_, ?_, ?_, ?_, ?_, ?_⟩
  · simp only [ProtoSerializer.serializeIn, ParseFromIstream, hphase, hnot, if_false]
  · simp only [ProtoSerializer.serializeIn, ParseFromIstream, hphase, hnot, if_false]
  · simp only [ProtoSerializer.serializeIn, ParseFromIstream, hphase, hnot, if_false]
  · simp only [ProtoSerializer.serializeIn, ParseFromIstream, hphase, hnot, if_false]
  · intro hnil
    rw [hnil] at hphase
    simp only [ProtoSerializer.serializeInPhase] at hphase
    exact ((Prod.mk.inj (Prod.mk.inj hphase).1).1).symm
  · intro name hname
    rw [hname] at hphase
    have := serializeInPhase_nodes_frame name inGraph.nodes graph [] 0
    rw [hphase] at this
    exact this

/-- Witness: `groupsOnlyMessage` holds a well-formed group record and no node record; decoded
into `twoNodesOneEdge` it adds no group and no edge. -/
theorem serializeIn_empty_map_skips_edges_and_groups_witness :
    (defaultSerializer.serializeIn (.message groupsOnlyMessage) twoNodesOneEdge ""
      "").graph = twoNodesOneEdge ∧
    (defaultSerializer.serializeIn (.message groupsOnlyMessage) twoNodesOneEdge ""
      "").serializedGroupCout = 0 ∧
    (defaultSerializer.serializeIn (.message groupsOnlyMessage) twoNodesOneEdge ""
      "").graph.getGroupCount = 0 :=
  ⟨(serializeIn_empty_map_skips_edges_and_groups defaultSerializer groupsOnlyMessage
      twoNodesOneEdge twoNodesOneEdge [] 0 "" "" rfl rfl).1,
    (serializeIn_empty_map_skips_edges_and_groups defaultSerializer groupsOnlyMessage
      twoNodesOneEdge twoNodesOneEdge [] 0 "" "" rfl rfl).2.2.1, by decide⟩

theorem ProtoSerializer.serializeOutEdges_length (s : ProtoSerializer C) (graph : GenGraph C)
    (m : ObjectIdMap) (l : List (GenEdge C)) :
    (s.serializeOutEdges graph m l).1.length =
      (l.filter (fun e => (StdMap.find s.edgeOutFunctors e.className).isSome)).length := by
  induction l with
  | nil => rfl
  | cons e rest ih =>
    unfold ProtoSerializer.serializeOutEdges
    cases hf : StdMap.find s.edgeOutFunctors e.className with
    | none =>
      rw [filter_cons_neg _ e rest (by simp only [hf, Option.isSome_none])]
      exact ih
    | some f =>
      rw [filter_cons_pos _ e rest (by simp only [hf, Option.isSome_some])]
      simp only [List.length_cons, ih]

/-- C27 (defect): `usedSerializer` holds the id map of an earlier `serializeOut`; in
`grownGraph` the edge 1 -> 4 has an endpoint that map does not know, its encoder returns
false, and the message still holds a record for it, an empty one: `add_edges()` is evaluated
as the argument of the encoder call.  Two edge records are written while one encoder returned
true.  For every serializer and graph the number of edge records is the number of edges whose
class has an encoder, whatever the encoders return. -/
theorem serializeOut_keeps_record_of_failed_edge :
    (defaultEdgeOutFunctor grownGraph (some .unset) (some 5) usedSerializer.objectIdMap).1 =
      false ∧
    (usedSerializer.serializeOut grownGraph none none).serializedEdgeCout = 1 ∧
    (ParseFromIstream (usedSerializer.serializeOut grownGraph none none).os).map
      (fun m => m.edges) =
      some [.edge { edge_id := 3, src_node_id := 1, dst_node_id := 2, weight := 0 }, .unset] ∧
    (∀ (s : ProtoSerializer storingConfig) (graph : GenGraph storingConfig) (m : ObjectIdMap)
      (l : List (GenEdge storingConfig)),
      (s.serializeOutEdges graph m l).1.length =
        (l.filter (fun e => (StdMap.find s.edgeOutFunctors e.className).isSome)).length) := by
  refine ⟨by decide, by decide, by decide, ?_⟩
  intro s graph m l
  exact ProtoSerializer.serializeOutEdges_length s graph m l

/-- C28: `insert::into` of a list or vector appends the element as the last one and leaves
the earlier elements as they were; `remove::from` deletes every occurrence of the element,
keeps the other elements in their relative order (the result is a sublist that holds every
other element as often as before) and leaves the container unchanged when the element does
not occur; inserting an element that is not in the container and removing it gives back the
container. -/
theorem insertInto_removeFrom_laws {α : Type} [DecidableEq α] (c : List α) (t : α) :
    insertInto c t = c ++ [t] ∧
    (insertInto c t).take c.length = c ∧
    (insertInto c t).getLast? = some t ∧
    t ∉ removeFrom c t ∧
    List.Sublist (removeFrom c t) c ∧
    (∀ x, x ≠ t → (removeFrom c t).count x = c.count x) ∧
    (t ∉ c → removeFrom c t = c) ∧
    (t ∉ c → removeFrom (insertInto c t) t = c) := by
  have hid : t ∉ c → removeFrom c t = c := by
    intro h
    unfold removeFrom
    rw [List.filter_eq_self]
    intro x hx
    have : x ≠ t := fun hc => h (hc ▸ hx)
    simpa using this
  refine ⟨rfl, ?_, ?_, ?_, ?_, ?_, hid, ?_⟩
  · simp [insertInto]
  · simp [insertInto]
  · intro h
    exact ((mem_removeFrom c t t).1 h).2 rfl
  · exact List.filter_sublist c
  · intro x hx
    unfold removeFrom
    rw [List.count_filter]
    simpa using hx
  · intro h
    unfold insertInto removeFrom
    rw [List.filter_append]
    have h1 := hid h
    unfold removeFrom at h1
    rw [h1]
    simp

/-- C29 (amended): registering an encode function under a class name that already has one
(the default one installed by the constructor included) leaves the serializer as it was, so
that `serializeOut` goes on using the earlier function for primitives of that class;
registering under a class name that has none makes the function the one `serializeOut` finds
for that class and leaves the functions of the other classes in place. -/
theorem registerOutFunctor_keeps_first (s : ProtoSerializer C) (name : String)
    (fN : NodeOutFunctor C) (fE : EdgeOutFunctor C) (fG : GroupOutFunctor C) :
    ((StdMap.find s.nodeOutFunctors name).isSome = true →
      s.registerNodeOutFunctor name fN = s) ∧
    ((StdMap.find s.edgeOutFunctors name).isSome = true →
      s.registerEdgeOutFunctor name fE = s) ∧
    ((StdMap.find s.groupOutFunctors name).isSome = true →
      s.registerGroupOutFunctor name fG = s) ∧
    ((StdMap.find s.nodeOutFunctors name).isSome = false →
      StdMap.find (s.registerNodeOutFunctor name fN).nodeOutFunctors name = some fN) ∧
    ((StdMap.find s.edgeOutFunctors name).isSome = false →
      StdMap.find (s.registerEdgeOutFunctor name fE).edgeOutFunctors name = some fE) ∧
    ((StdMap.find s.groupOutFunctors name).isSome = false →
      StdMap.find (s.registerGroupOutFunctor name fG).groupOutFunctors name = some fG) ∧
    (∀ other f, other ≠ name → StdMap.find s.nodeOutFunctors other = some f →
      StdMap.find (s.registerNodeOutFunctor name fN).nodeOutFunctors other = some f) := by
  have hkeep : ∀ {ν : Type} (m : StdMap String ν) (v : ν),
      (StdMap.find m name).isSome = true → StdMap.insert m name v = m := by
    intro ν m v h
    unfold StdMap.insert
    cases hf : StdMap.find m name with
    | none => rw [hf] at h; simp at h
    | some w => rfl
  have hnew : ∀ {ν : Type} (m : StdMap String ν) (v : ν),
      (StdMap.find m name).isSome = false → StdMap.find (StdMap.insert m name v) name = some v := by
    intro ν m v h
    rw [StdMap.find_insert]
    cases hf : StdMap.find m name with
    | none => simp
    | some w => rw [hf] at h; simp at h
  refine ⟨?_, ?_, ?_, ?_, ?_, ?_, ?_⟩
  · intro h
    unfold ProtoSerializer.registerNodeOutFunctor
    rw [hkeep _ _ h]
  · intro h
    unfold ProtoSerializer.registerEdgeOutFunctor
    rw [hkeep _ _ h]
  · intro h
    unfold ProtoSerializer.registerGroupOutFunctor
    rw [hkeep _ _ h]
  · intro h
    exact hnew _ _ h
  · intro h
    exact hnew _ _ h
  · intro h
    exact hnew _ _ h
  · intro other f _ hf
    exact StdMap.find_insert_mono _ _ _ _ _ hf

/-- Witness: the three marker encoders registered under the default class names of
`defaultSerializer`, and the node marker registered under a new class name. -/
theorem registerOutFunctor_keeps_first_witness :
    (StdMap.find defaultSerializer.nodeOutFunctors "gtpo::Node").isSome = true ∧
    defaultSerializer.registerNodeOutFunctor "gtpo::Node" markerNodeOutFunctor =
      defaultSerializer ∧
    (StdMap.find defaultSerializer.nodeOutFunctors "ImgNode").isSome = false ∧
    StdMap.find (defaultSerializer.registerNodeOutFunctor "ImgNode"
      markerNodeOutFunctor).nodeOutFunctors "ImgNode" = some markerNodeOutFunctor :=
  ⟨rfl,
    (registerOutFunctor_keeps_first defaultSerializer "gtpo::Node" markerNodeOutFunctor
      markerEdgeOutFunctor markerGroupOutFunctor).1 rfl,
    rfl,
    (registerOutFunctor_keeps_first defaultSerializer "ImgNode" markerNodeOutFunctor
      markerEdgeOutFunctor markerGroupOutFunctor).2.2.2.1 rfl⟩

/-- C29 (counterexample): marker encoders are registered under the three default class names
of a new serializer; `serializeOut` of `groupedGraph` writes the records of the default
encoders, the very stream the serializer writes without these registrations, and no marker
record. -/
theorem registerOutFunctor_does_not_replace :
    (shadowedSerializer.serializeOut groupedGraph none none).os =
      (defaultSerializer.serializeOut groupedGraph none none).os ∧
    (ParseFromIstream (shadowedSerializer.serializeOut groupedGraph none none).os).map
      (fun m => (m.nodes, m.edges)) =
      some ([.node { label := "", x := 0, y := 0, width := 0, height := 0, node_id := 1 },
             .node { label := "", x := 0, y := 0, width := 0, height := 0, node_id := 2 }],
            [.edge { edge_id := 3, src_node_id := 1, dst_node_id := 2, weight := 0 }]) ∧
    markerNodeOutFunctor groupedGraph (some .unset) (some 1) [] =
      some (pb.Any.user "marker" []) := by
  refine ⟨by decide, by decide, by rfl⟩

theorem StdMap.keys_insert {κ ν : Type} [DecidableEq κ] (m : StdMap κ ν) (k : κ) (v : ν)
    (k2 : κ) (h : k2 ∈ (StdMap.insert m k v).map Prod.fst) :
    k2 ∈ m.map Prod.fst ∨ k2 = k := by
  unfold StdMap.insert at h
  split at h
  · exact Or.inl h
  · rw [List.map_append, List.mem_append] at h
    rcases h with h | h
    · exact Or.inl h
    · right
      simpa using h

theorem StdMap.size_insert_ge {κ ν : Type} [DecidableEq κ] (m : StdMap κ ν) (k : κ) (v : ν) :
    m.size ≤ (StdMap.insert m k v).size ∧ 0 < (StdMap.insert m k v).size := by
  unfold StdMap.insert
  split
  · rename_i w hw
    refine ⟨le_refl _, ?_⟩
    have := StdMap.mem_of_find m k w hw
    exact List.length_pos_of_mem this
  · simp [StdMap.size]

theorem ProtoSerializer.insertIds_keys (m : ObjectIdMap) (id : Int) (l : List Addr)
    (a : Addr) (h : a ∈ (ProtoSerializer.insertIds m id l).1.map Prod.fst) :
    a ∈ m.map Prod.fst ∨ a ∈ l := by
  induction l generalizing m id with
  | nil => exact Or.inl h
  | cons b rest ih =>
    unfold ProtoSerializer.insertIds at h
    rcases ih _ _ h with h1 | h1
    · rcases StdMap.keys_insert m b (id + 1) a h1 with h2 | h2
      · exact Or.inl h2
      · exact Or.inr (h2 ▸ List.mem_cons_self _ _)
    · exact Or.inr (List.mem_cons_of_mem _ h1)

theorem ProtoSerializer.insertIds_size (m : ObjectIdMap) (id : Int) (l : List Addr) :
    m.size ≤ (ProtoSerializer.insertIds m id l).1.size ∧
    (l ≠ [] → 0 < (ProtoSerializer.insertIds m id l).1.size) := by
  induction l generalizing m id with
  | nil => exact ⟨le_refl _, fun h => absurd rfl h⟩
  | cons b rest ih =>
    unfold ProtoSerializer.insertIds
    have h1 := StdMap.size_insert_ge m b (id + 1)
    have h2 := (ih (StdMap.insert m b (id + 1)) (id + 1)).1
    exact ⟨le_trans h1.1 h2, fun _ => lt_of_lt_of_le h1.2 h2⟩

theorem ProtoSerializer.generateObjectIdMap_keys (s : ProtoSerializer C) (graph : GenGraph C)
    (a : Addr) (h : a ∈ (s.generateObjectIdMap graph).objectIdMap.map Prod.fst) :
    a ∈ graph.nodes.map (fun n => n.addr) ∨ a ∈ graph.edges.map (fun e => e.addr) := by
  unfold ProtoSerializer.generateObjectIdMap at h
  dsimp only at h
  rcases ProtoSerializer.insertIds_keys _ _ _ a h with h1 | h1
  · rcases ProtoSerializer.insertIds_keys _ _ _ a h1 with h2 | h2
    · simp at h2
    · exact Or.inl h2
  · exact Or.inr h1

theorem ProtoSerializer.generateObjectIdMap_nonempty (s : ProtoSerializer C)
    (graph : GenGraph C) (h : graph.nodes ≠ [] ∨ graph.edges ≠ []) :
    (s.generateObjectIdMap graph).objectIdMap.size ≠ 0 := by
  unfold ProtoSerializer.generateObjectIdMap
  dsimp only
  have h1 := ProtoSerializer.insertIds_size [] 0 (graph.nodes.map (fun n => n.addr))
  have h2 := ProtoSerializer.insertIds_size
    (ProtoSerializer.insertIds [] 0 (graph.nodes.map (fun n => n.addr))).1
    (ProtoSerializer.insertIds [] 0 (graph.nodes.map (fun n => n.addr))).2
    (graph.edges.map (fun e => e.addr))
  rcases h with h | h
  · have := h1.2 (by simpa using h)
    omega
  · have := h2.2 (by simpa using h)
    omega

theorem GenGraph.lockGroup_some {g : GenGraph C} {w : WeakGroup} {x : GenGroup C}
    (h : g.lockGroup w = some x) : x ∈ g.groups ∧ w = some x.addr := by
  cases w with
  | none => simp [GenGraph.lockGroup] at h
  | some a =>
    simp only [GenGraph.lockGroup] at h
    have h1 := List.find?_some h
    simp only [decide_eq_true_eq] at h1
    exact ⟨List.mem_of_find?_eq_some h, by rw [h1]⟩

theorem serializeOutGroups_group_id (s : ProtoSerializer C) (graph : GenGraph C)
    (m : ObjectIdMap) (hm : m.size ≠ 0)
    (hf : ∀ name f, StdMap.find s.groupOutFunctors name = some f → f = defaultGroupOutFunctor)
    (hnone : ∀ x ∈ graph.groups, StdMap.find m x.addr = none)
    (l : List (GenGroup C)) (hl : ∀ x ∈ l, x ∈ graph.groups) :
    ∀ a ∈ (s.serializeOutGroups graph m l).1, ∃ r, a = pb.Any.group r ∧ r.group_id = -1 := by
  induction l with
  | nil =>
    intro a ha
    exact absurd ha (List.not_mem_nil _)
  | cons x rest ih =>
    have ih1 := ih (fun y hy => hl y (List.mem_cons_of_mem _ hy))
    intro a ha
    unfold ProtoSerializer.serializeOutGroups at ha
    cases hfind : StdMap.find s.groupOutFunctors x.className with
    | none =>
      rw [hfind] at ha
      exact ih1 a ha
    | some f =>
      rw [hfind] at ha
      dsimp only at ha
      rcases List.mem_cons.1 ha with h | h
      · have hfd := hf _ _ hfind
        subst hfd
        have hx := hl x (List.mem_cons_self _ _)
        obtain ⟨y, hy⟩ : ∃ y, graph.lockGroup (some x.addr) = some y := by
          cases hlk : graph.lockGroup (some x.addr) with
          | some y => exact ⟨y, rfl⟩
          | none =>
            simp only [GenGraph.lockGroup, List.find?_eq_none, decide_eq_true_eq] at hlk
            exact absurd rfl (hlk x hx)
        have hy2 := GenGraph.lockGroup_some hy
        refine ⟨serializeGTpoGroupOut graph (some x.addr) pb.GTpoGroup.default m, ?_, ?_⟩
        · rw [h]
          simp only [defaultGroupOutFunctor, hy, Option.getD_some]
        · simp only [serializeGTpoGroupOut, hm, if_false, hy, hnone y hy2.1]
      · exact ih1 a h

/-- C26: for a graph with at least one node or edge whose groups are objects other than its
nodes and edges, every group record the default group encoder writes in `serializeOut` with a
freshly generated id map has group_id -1: `generateObjectIdMap` numbers the nodes and the
edges only. -/
theorem serializeOut_group_id_unmapped (s : ProtoSerializer C) (graph : GenGraph C)
    (user1 user2 : Option Message)
    (hfresh : s.objectIdMap.size = 0)
    (hne : graph.nodes ≠ [] ∨ graph.edges ≠ [])
    (hf : ∀ name f, StdMap.find s.groupOutFunctors name = some f → f = defaultGroupOutFunctor)
    (hdist : ∀ x ∈ graph.groups, x.addr ∉ graph.nodes.map (fun n => n.addr) ∧
      x.addr ∉ graph.edges.map (fun e => e.addr)) :
    (∀ x ∈ graph.groups,
      StdMap.find (s.serializeOut graph user1 user2).serializer.objectIdMap x.addr = none) ∧
    ∃ m, (s.serializeOut graph user1 user2).os = .message m ∧
      (∀ a ∈ m.groups, ∃ r, a = pb.Any.group r ∧ r.group_id = -1) ∧
      m.groups.length =
        (graph.groups.filter (fun x =>
          (StdMap.find s.groupOutFunctors x.className).isSome)).length := by
  have hnone : ∀ x ∈ graph.groups,
      StdMap.find (s.generateObjectIdMap graph).objectIdMap x.addr = none := by
    intro x hx
    apply StdMap.find_none_of_not_mem
    intro hmem
    rcases ProtoSerializer.generateObjectIdMap_keys s graph x.addr hmem with h | h
    · exact (hdist x hx).1 h
    · exact (hdist x hx).2 h
  have hsz := ProtoSerializer.generateObjectIdMap_nonempty s graph hne
  have hs1 : (s.serializeOut graph user1 user2).serializer = s.generateObjectIdMap graph := by
    simp only [ProtoSerializer.serializeOut, hfresh, if_true]
  refine ⟨by rw [hs1]; exact hnone, _, rfl, ?_, ?_⟩
  · simp only [hfresh, if_true]
    exact serializeOutGroups_group_id (s.generateObjectIdMap graph) graph _ hsz hf hnone
      graph.groups (fun x hx => hx)
  · simp only [hfresh, if_true]
    generalize (s.generateObjectIdMap graph).objectIdMap = m
    have hreg : (s.generateObjectIdMap graph).groupOutFunctors = s.groupOutFunctors := rfl
    generalize graph.groups = l
    induction l with
    | nil => rfl
    | cons x rest ih =>
      unfold ProtoSerializer.serializeOutGroups
      rw [hreg]
      cases hfind : StdMap.find s.groupOutFunctors x.className with
      | none =>
        rw [filter_cons_neg _ x rest (by simp only [hfind, Option.isSome_none])]
        exact ih
      | some f =>
        rw [filter_cons_pos _ x rest (by simp only [hfind, Option.isSome_some])]
        simp only [List.length_cons, ih]

/-- Witness: `groupedGraph` written by a new serializer; its one group record has
group_id -1. -/
theorem serializeOut_group_id_unmapped_witness :
    (ParseFromIstream (defaultSerializer.serializeOut groupedGraph none none).os).map
      (fun m => m.groups) =
      some [.group { label := "", x := 0, y := 0, width := 0, height := 0, group_id := -1,
                     node_ids := [] }] ∧
    (∀ x ∈ groupedGraph.groups,
      StdMap.find (defaultSerializer.serializeOut groupedGraph none none).serializer.objectIdMap
        x.addr = none) :=
  ⟨by decide,
    (serializeOut_group_id_unmapped defaultSerializer groupedGraph none none rfl
      (Or.inl groupedGraph_nodes_ne_nil)
      (fun name f h => by
        have h1 : defaultSerializer.groupOutFunctors =
            [("gtpo::Group", defaultGroupOutFunctor)] := rfl
        rw [h1] at h
        simp only [StdMap.find] at h
        split at h
        · exact (Option.some.inj h).symm
        · exact absurd h (by simp))
      (by decide)).1⟩

theorem foldl_append_items {Item : Type} (ops : ComposerOps Item)
    (happend : ∀ l x, ops.append l x = l ++ [x]) (items t : List Item) :
    items.foldl (fun t x => ops.append t x) t = t ++ items := by
  induction items generalizing t with
  | nil => simp
  | cons x rest ih =>
    rw [List.foldl_cons, ih, happend]
    simp

theorem foldl_insert_items {Item : Type} (ops : ComposerOps Item)
    (hinsert : ∀ l x i, i ≤ l.length → ops.insert l x i = l.take i ++ x :: l.drop i)
    (items pre t : List Item) :
    (items.foldl (fun (p : List Item × Nat) x => (ops.insert p.1 x p.2, p.2 + 1))
      (pre ++ t, pre.length)).1 = pre ++ items ++ t := by
  induction items generalizing pre with
  | nil => simp
  | cons x rest ih =>
    rw [List.foldl_cons]
    have h1 : ops.insert (pre ++ t) x pre.length = (pre ++ [x]) ++ t := by
      rw [hinsert _ _ _ (by simp)]
      simp
    have h2 : pre.length + 1 = (pre ++ [x]).length := by simp
    dsimp only
    rw [h1, h2, ih]
    simp

/-- C30: with a composed model whose `append` adds an item at the end and whose
`insert( item, i )` puts the item before position `i`, starting from an empty composed model
with no source set, `setM1( m1 )` then `setM2( m2 )` and `setM2( m2 )` then `setM1( m1 )`
both leave the items of `m1` in their order followed by the items of `m2` in their order. -/
theorem setM1_setM2_commute {Item : Type} (ops : ComposerOps Item)
    (happend : ∀ l x, ops.append l x = l ++ [x])
    (hinsert : ∀ l x i, i ≤ l.length → ops.insert l x i = l.take i ++ x :: l.drop i)
    (m1 m2 : SourceModel Item) :
    ((ContainerModelComposerWatcher.empty.setM1 ops (some m1)).setM2 ops (some m2)).target =
      m1.items ++ m2.items ∧
    ((ContainerModelComposerWatcher.empty.setM2 ops (some m2)).setM1 ops (some m1)).target =
      m1.items ++ m2.items := by
  constructor
  · simp [ContainerModelComposerWatcher.setM1, ContainerModelComposerWatcher.setM2,
      ContainerModelComposerWatcher.empty, ContainerModelComposerWatcher.insertAllM1Items,
      ContainerModelComposerWatcher.appendAllM2Items, foldl_append_items ops happend]
  · by_cases hz : m2.items.length = 0
    · have hnil : m2.items = [] := List.length_eq_zero.1 hz
      simp [ContainerModelComposerWatcher.setM1, ContainerModelComposerWatcher.setM2,
        ContainerModelComposerWatcher.empty, ContainerModelComposerWatcher.insertAllM1Items,
        ContainerModelComposerWatcher.appendAllM2Items, foldl_append_items ops happend, hnil]
    · have hfold := foldl_insert_items ops hinsert m1.items [] m2.items
      simp only [List.nil_append, List.length_nil] at hfold
      simp [ContainerModelComposerWatcher.setM1, ContainerModelComposerWatcher.setM2,
        ContainerModelComposerWatcher.empty, ContainerModelComposerWatcher.insertAllM1Items,
        ContainerModelComposerWatcher.appendAllM2Items, foldl_append_items ops happend, hz,
        hfold]

/-- Witness: a source with the items 1, 2 and a source with the items 7, 8, 9 composed in a
sequence model, in both orders of the two calls. -/
theorem setM1_setM2_commute_witness :
    ((ContainerModelComposerWatcher.empty.setM1 sequenceOps
      (some { addr := 1, items := [1, 2] })).setM2 sequenceOps
      (some { addr := 2, items := [7, 8, 9] })).target = [1, 2] ++ [7, 8, 9] ∧
    ((ContainerModelComposerWatcher.empty.setM2 sequenceOps
      (some { addr := 2, items := [7, 8, 9] })).setM1 sequenceOps
      (some { addr := 1, items := [1, 2] })).target = [1, 2] ++ [7, 8, 9] :=
  setM1_setM2_commute sequenceOps (fun _ _ => rfl) (fun _ _ _ _ => rfl)
    { addr := 1, items := [1, 2] } { addr := 2, items := [7, 8, 9] }

theorem ProtoSerializer.serializeOutEdges_eq (s : ProtoSerializer C) (graph : GenGraph C)
    (m : ObjectIdMap) (l : List (GenEdge C)) :
    (s.serializeOutEdges graph m l).1 =
      (l.filter (fun e => (StdMap.find s.edgeOutFunctors e.className).isSome)).map
        (fun e => match StdMap.find s.edgeOutFunctors e.className with
          | some f => (f graph (some .unset) (some e.addr) m).2.getD .unset
          | none => .unset) := by
  induction l with
  | nil => rfl
  | cons e rest ih =>
    unfold ProtoSerializer.serializeOutEdges
    cases hf : StdMap.find s.edgeOutFunctors e.className with
    | none =>
      rw [filter_cons_neg _ e rest (by simp only [hf, Option.isSome_none])]
      exact ih
    | some f =>
      rw [filter_cons_pos _ e rest (by simp only [hf, Option.isSome_some])]
      simp only [List.map_cons, hf, ih]

theorem defaultEdgeOutFunctor_cases (heap : GenGraph C) (a : pb.Any) (edge : WeakEdge)
    (m : ObjectIdMap) :
    defaultEdgeOutFunctor heap (some a) edge m = (false, some a) ∨
    (defaultEdgeOutFunctor heap (some a) edge m).1 = true := by
  unfold defaultEdgeOutFunctor
  dsimp only
  repeat' split
  all_goals first | (left; rfl) | (right; rfl)

theorem ProtoSerializer.generateObjectIdMap_inj (s : ProtoSerializer C) (graph : GenGraph C)
    (hnd : (graph.nodes.map (fun n => n.addr) ++ graph.edges.map (fun e => e.addr)).Nodup)
    (a b : Addr) (id : Int)
    (ha : StdMap.find (s.generateObjectIdMap graph).objectIdMap a = some id)
    (hb : StdMap.find (s.generateObjectIdMap graph).objectIdMap b = some id) : a = b := by
  have hn := (List.nodup_append.1 hnd).1
  have he := (List.nodup_append.1 hnd).2.1
  rcases (ProtoSerializer.generateObjectIdMap_find s graph hnd a id).1 ha with
    ⟨i, hi, hid⟩ | ⟨j, hj, hjd⟩
  · rcases (ProtoSerializer.generateObjectIdMap_find s graph hnd b id).1 hb with
      ⟨i2, hi2, hid2⟩ | ⟨j2, hj2, hjd2⟩
    · have : i = i2 := by omega
      subst this
      rw [hi] at hi2
      exact Option.some.inj hi2
    · have hlt : i < (graph.nodes.map (fun n => n.addr)).length := by
        rcases List.getElem?_eq_some_iff.1 hi with ⟨h, _⟩
        exact h
      simp only [List.length_map] at hlt
      omega
  · rcases (ProtoSerializer.generateObjectIdMap_find s graph hnd b id).1 hb with
      ⟨i2, hi2, hid2⟩ | ⟨j2, hj2, hjd2⟩
    · have hlt : i2 < (graph.nodes.map (fun n => n.addr)).length := by
        rcases List.getElem?_eq_some_iff.1 hi2 with ⟨h, _⟩
        exact h
      simp only [List.length_map] at hlt
      omega
    · have : j = j2 := by omega
      subst this
      rw [hj] at hj2
      exact Option.some.inj hj2

theorem ProtoSerializer.generateObjectIdMap_edge_id (s : ProtoSerializer C)
    (graph : GenGraph C)
    (hnd : (graph.nodes.map (fun n => n.addr) ++ graph.edges.map (fun e => e.addr)).Nodup)
    (a : Addr) (ha : a ∈ graph.edges.map (fun e => e.addr)) :
    ∃ id, StdMap.find (s.generateObjectIdMap graph).objectIdMap a = some id := by
  obtain ⟨j, hj⟩ := List.getElem?_of_mem ha
  exact ⟨_, (ProtoSerializer.generateObjectIdMap_find s graph hnd a _).2 (Or.inr ⟨j, hj, rfl⟩)⟩

theorem serializeOutNodes_default_mem (s : ProtoSerializer C) (graph : GenGraph C)
    (m : ObjectIdMap) (hm : m.size ≠ 0)
    (hf : ∀ name f, StdMap.find s.nodeOutFunctors name = some f → f = defaultNodeOutFunctor)
    (a : pb.Any) (ha : a ∈ (s.serializeOutNodes graph m graph.nodes).1) :
    ∃ n ∈ graph.nodes, n.isSerializable = true ∧
      ∃ q, a = pb.Any.node q ∧
        q.node_id = match StdMap.find m n.addr with
          | some id => id
          | none => -1 := by
  rw [(ProtoSerializer.serializeOutNodes_eq s graph m graph.nodes).1, List.mem_map] at ha
  obtain ⟨n, hn, hna⟩ := ha
  rw [List.mem_filter, Bool.and_eq_true] at hn
  obtain ⟨hmem, hser, hreg⟩ := hn
  refine ⟨n, hmem, hser, ?_⟩
  cases hfind : StdMap.find s.nodeOutFunctors n.className with
  | none => rw [hfind] at hreg; simp at hreg
  | some f =>
    have hfd := hf _ _ hfind
    subst hfd
    rw [hfind] at hna
    obtain ⟨n2, hn2⟩ := GenGraph.lockNode_of_mem graph n.addr (List.mem_map_of_mem _ hmem)
    have hn2a : n2.addr = n.addr := (Option.some.inj (GenGraph.lockNode_some hn2).2).symm
    refine ⟨serializeGTpoNodeOut graph (some n.addr) pb.GTpoNode.default m, ?_, ?_⟩
    · rw [← hna]
      simp only [defaultNodeOutFunctor, hn2, Option.getD_some]
    · simp only [serializeGTpoNodeOut, hm, if_false, hn2, hn2a]

theorem serializeOutEdges_default_mem (s : ProtoSerializer C) (graph : GenGraph C)
    (m : ObjectIdMap)
    (hf : ∀ name f, StdMap.find s.edgeOutFunctors name = some f → f = defaultEdgeOutFunctor)
    (a : pb.Any) (ha : a ∈ (s.serializeOutEdges graph m graph.edges).1) :
    a = pb.Any.unset ∨ ∃ e ∈ graph.edges, ∃ r, a = pb.Any.edge r ∧
      r.edge_id = (StdMap.find m e.addr).getD (-1) := by
  rw [ProtoSerializer.serializeOutEdges_eq, List.mem_map] at ha
  obtain ⟨e, he, hea⟩ := ha
  rw [List.mem_filter] at he
  obtain ⟨hmem, hreg⟩ := he
  cases hfind : StdMap.find s.edgeOutFunctors e.className with
  | none => rw [hfind] at hreg; simp at hreg
  | some f =>
    have hfd := hf _ _ hfind
    subst hfd
    rw [hfind] at hea
    dsimp only at hea
    rcases defaultEdgeOutFunctor_cases graph .unset (some e.addr) m with h | h
    · left
      rw [← hea, h]
      rfl
    · right
      obtain ⟨e2, src, dst, srcId, dstId, hl, _, _, _, _, _, _, hout⟩ :=
        defaultEdgeOutFunctor_fwd graph .unset (some e.addr) m h
      have he2 := GenGraph.lockEdge_some hl
      have he2a : e2.addr = e.addr := (Option.some.inj he2.2).symm
      refine ⟨e, hmem, pb.GTpoEdge.mk ((StdMap.find m e2.addr).getD (-1)) srcId dstId
        (C.getEdgeWeight e2.base), ?_, ?_⟩
      · rw [← hea, hout]
        rfl
      · simp only [he2a]

theorem serializeOutEdges_default_record (s : ProtoSerializer C) (graph : GenGraph C)
    (m : ObjectIdMap) (e : GenEdge C) (src dst : GenNode C) (srcId dstId : Int)
    (hf : StdMap.find s.edgeOutFunctors e.className = some defaultEdgeOutFunctor)
    (hnd : (graph.edges.map (fun e => e.addr)).Nodup) (he : e ∈ graph.edges)
    (hs : graph.lockNode e.src = some src) (hd : graph.lockNode e.dst = some dst)
    (hsi : StdMap.find m src.addr = some srcId) (hdi : StdMap.find m dst.addr = some dstId)
    (h1 : srcId ≠ -1) (h2 : dstId ≠ -1) :
    pb.Any.edge { edge_id := (StdMap.find m e.addr).getD (-1), src_node_id := srcId,
                  dst_node_id := dstId, weight := C.getEdgeWeight e.base } ∈
      (s.serializeOutEdges graph m graph.edges).1 := by
  rw [ProtoSerializer.serializeOutEdges_eq, List.mem_map]
  refine ⟨e, ?_, ?_⟩
  · rw [List.mem_filter]
    exact ⟨he, by simp only [hf, Option.isSome_some]⟩
  · simp only [hf]
    rw [defaultEdgeOutFunctor_bwd graph .unset (some e.addr) m e src dst srcId dstId
      (GenGraph.lockEdge_of_mem hnd he) hs hd hsi hdi h1 h2]
    rfl

theorem defaultNodeInFunctor_keys (name : String) (a : pb.Any) (g : GenGraph C)
    (m : IdObjectMap) (k : Int)
    (hk : k ∈ (defaultNodeInFunctor name a g m).1.2.map Prod.fst) :
    k ∈ m.map Prod.fst ∨ ∃ q, a = pb.Any.node q ∧ k = q.node_id := by
  unfold defaultNodeInFunctor at hk
  cases a with
  | node q =>
    dsimp only at hk
    generalize g.createNodeOfClass name = cr at hk
    obtain ⟨g1, res⟩ := cr
    cases res with
    | error e => exact Or.inl hk
    | ok w =>
      dsimp only at hk
      split at hk
      · unfold serializeGTpoNodeIn at hk
        split at hk
        · exact Or.inl hk
        · rcases StdMap.keys_insert _ _ _ _ hk with h | h
          · exact Or.inl h
          · exact Or.inr ⟨q, rfl, h⟩
      · exact Or.inl hk
  | _ => exact Or.inl hk

theorem serializeInPhase_nodes_keys (name : String) (recs : List pb.Any) (g : GenGraph C)
    (m : IdObjectMap) (n : Int) (k : Int)
    (hk : k ∈ (ProtoSerializer.serializeInPhase
      (ProtoSerializer.runNodeInFunctors [defaultNodeInFunctor name]) recs g m n).1.2.1.map
        Prod.fst) :
    k ∈ m.map Prod.fst ∨ ∃ q, pb.Any.node q ∈ recs ∧ k = q.node_id := by
  have hrun : ∀ (a : pb.Any) (g : GenGraph C) (m : IdObjectMap),
      k ∈ (ProtoSerializer.runNodeInFunctors [defaultNodeInFunctor name] a g m).1.2.map
        Prod.fst → k ∈ m.map Prod.fst ∨ ∃ q, a = pb.Any.node q ∧ k = q.node_id := by
    intro a g m h
    have hs := defaultNodeInFunctor_keys name a g m k
    simp only [ProtoSerializer.runNodeInFunctors] at h
    generalize defaultNodeInFunctor name a g m = r at hs h
    obtain ⟨⟨g1, m1⟩, res⟩ := r
    cases res with
    | error e => exact hs h
    | ok w =>
      dsimp only at h
      split at h
      · exact hs h
      · exact hs h
  induction recs generalizing g m n with
  | nil => exact Or.inl hk
  | cons a rest ih =>
    have hs := hrun a g m
    unfold ProtoSerializer.serializeInPhase at hk
    generalize ProtoSerializer.runNodeInFunctors [defaultNodeInFunctor name] a g m = r at hs hk
    obtain ⟨⟨g1, m1⟩, res⟩ := r
    have hlift : (k ∈ m1.map Prod.fst ∨ ∃ q, pb.Any.node q ∈ rest ∧ k = q.node_id) →
        k ∈ m.map Prod.fst ∨ ∃ q, pb.Any.node q ∈ a :: rest ∧ k = q.node_id := by
      rintro (h | ⟨q, hq, hkq⟩)
      · rcases hs h with h1 | ⟨q, hq, hkq⟩
        · exact Or.inl h1
        · exact Or.inr ⟨q, by rw [hq]; exact List.mem_cons_self _ _, hkq⟩
      · exact Or.inr ⟨q, List.mem_cons_of_mem _ hq, hkq⟩
    cases res with
    | error e => exact hlift (Or.inl hk)
    | ok b =>
      cases b with
      | true => exact hlift (ih g1 m1 (n + 1) hk)
      | false => exact hlift (ih g1 m1 n hk)

theorem defaultEdgeInFunctor_keys (name : String) (a : pb.Any) (g : GenGraph C)
    (m : IdObjectMap) (k : Int)
    (hk : k ∈ (defaultEdgeInFunctor name a g m).1.2.map Prod.fst) :
    k ∈ m.map Prod.fst ∨ ∃ r, a = pb.Any.edge r ∧ k = r.edge_id := by
  unfold defaultEdgeInFunctor at hk
  cases a with
  | edge r =>
    dsimp only at hk
    split at hk
    · rename_i sourceObject destinationObject _ _
      generalize g.createEdgeOfClass name (some sourceObject) (some destinationObject) = cr
        at hk
      obtain ⟨g1, res⟩ := cr
      cases res with
      | error e => exact Or.inl hk
      | ok w =>
        dsimp only at hk
        split at hk
        · rcases StdMap.keys_insert _ _ _ _ hk with h | h
          · exact Or.inl h
          · exact Or.inr ⟨r, rfl, h⟩
        · exact Or.inl hk
    · exact Or.inl hk
  | _ => exact Or.inl hk

theorem runEdgeInFunctors_keys (name : String) (a : pb.Any) (g : GenGraph C)
    (m : IdObjectMap) (k : Int)
    (h : k ∈ (ProtoSerializer.runEdgeInFunctors [defaultEdgeInFunctor name] a g m).1.2.map
      Prod.fst) :
    k ∈ m.map Prod.fst ∨ ∃ r, a = pb.Any.edge r ∧ k = r.edge_id := by
  have hs := defaultEdgeInFunctor_keys name a g m k
  simp only [ProtoSerializer.runEdgeInFunctors] at h
  generalize defaultEdgeInFunctor name a g m = r at hs h
  obtain ⟨⟨g1, m1⟩, res⟩ := r
  cases res with
  | error e => exact hs h
  | ok w =>
    dsimp only at h
    split at h
    · exact hs h
    · exact hs h

theorem serializeInPhase_edge_skip (name : String) (r : pb.GTpoEdge) (idc : Int)
    (hr : r.src_node_id = idc ∨ r.dst_node_id = idc) (pre post : List pb.Any)
    (hpre : ∀ r2, pb.Any.edge r2 ∈ pre → r2.edge_id ≠ idc) (g : GenGraph C)
    (m : IdObjectMap) (n : Int) (hm : idc ∉ m.map Prod.fst) :
    ProtoSerializer.serializeInPhase
        (ProtoSerializer.runEdgeInFunctors [defaultEdgeInFunctor name])
        (pre ++ pb.Any.edge r :: post) g m n =
      ProtoSerializer.serializeInPhase
        (ProtoSerializer.runEdgeInFunctors [defaultEdgeInFunctor name]) (pre ++ post) g m n := by
  induction pre generalizing g m n with
  | nil =>
    have hnone := StdMap.find_none_of_not_mem m idc hm
    exact serializeInPhase_edge_unresolved name r g m post n (by
      rcases hr with h | h
      · exact Or.inl (by rw [h]; exact hnone)
      · exact Or.inr (by rw [h]; exact hnone))
  | cons a pre2 ih =>
    have hkeys := runEdgeInFunctors_keys name a g m idc
    have hnext : idc ∉ (ProtoSerializer.runEdgeInFunctors [defaultEdgeInFunctor name] a g
        m).1.2.map Prod.fst := by
      intro hc
      rcases hkeys hc with h | ⟨r2, hr2, hk2⟩
      · exact hm h
      · exact hpre r2 (by rw [hr2]; exact List.mem_cons_self _ _) hk2.symm
    have hpre2 : ∀ r2, pb.Any.edge r2 ∈ pre2 → r2.edge_id ≠ idc :=
      fun r2 h2 => hpre r2 (List.mem_cons_of_mem _ h2)
    simp only [List.cons_append]
    rw [ProtoSerializer.serializeInPhase, ProtoSerializer.serializeInPhase]
    generalize ProtoSerializer.runEdgeInFunctors [defaultEdgeInFunctor name] a g m = res
      at hnext
    obtain ⟨⟨g1, m1⟩, o⟩ := res
    cases o with
    | error e => rfl
    | ok b =>
      cases b with
      | true => exact ih hpre2 g1 m1 (n + 1) hnext
      | false => exact ih hpre2 g1 m1 n hnext

/-- C24: a serializer with an empty id map and the default encoders and decoders writes a
graph of distinct primitives in which the edge `e` has a control node `c` (serializable
flag off) as source or destination, both endpoints being nodes of the graph.  The message
holds a record for `e` that carries the id the id map gives `c`, no node record of the message
has that id, and `serializeIn` of the message into a fresh empty graph leaves exactly what it
leaves for the message without that record: no edge is created for it. -/
theorem serializeOut_edge_of_control_node (s : ProtoSerializer C) (graph : GenGraph C)
    (e : GenEdge C) (c src dst : GenNode C) (user1 user2 : Option Message)
    (User1 User2 nodeName edgeName : String)
    (hmap : s.objectIdMap.size = 0)
    (hNout : ∀ name f, StdMap.find s.nodeOutFunctors name = some f → f = defaultNodeOutFunctor)
    (hEout : ∀ name f, StdMap.find s.edgeOutFunctors name = some f → f = defaultEdgeOutFunctor)
    (hEreg : StdMap.find s.edgeOutFunctors e.className = some defaultEdgeOutFunctor)
    (hNin : s.nodeInFunctors = [defaultNodeInFunctor nodeName])
    (hEin : s.edgeInFunctors = [defaultEdgeInFunctor edgeName])
    (hnd : (graph.nodes.map (fun n => n.addr) ++ graph.edges.map (fun e => e.addr)).Nodup)
    (he : e ∈ graph.edges) (hs : src ∈ graph.nodes) (hd : dst ∈ graph.nodes)
    (hsrc : e.src = some src.addr) (hdst : e.dst = some dst.addr)
    (hc : c = src ∨ c = dst) (hcs : c.isSerializable = false) :
    ∃ M idc r pre post,
      (s.serializeOut graph user1 user2).os = .message M ∧
      StdMap.find (s.serializeOut graph user1 user2).serializer.objectIdMap c.addr =
        some idc ∧
      M.edges = pre ++ pb.Any.edge r :: post ∧
      StdMap.find (s.serializeOut graph user1 user2).serializer.objectIdMap src.addr =
        some r.src_node_id ∧
      StdMap.find (s.serializeOut graph user1 user2).serializer.objectIdMap dst.addr =
        some r.dst_node_id ∧
      (r.src_node_id = idc ∨ r.dst_node_id = idc) ∧
      (∀ q, pb.Any.node q ∈ M.nodes → q.node_id ≠ idc) ∧
      (s.serializeOut graph user1 user2).serializer.serializeIn (.message M) GenGraph.empty
          User1 User2 =
        (s.serializeOut graph user1 user2).serializer.serializeIn
          (.message { M with edges := pre ++ post }) GenGraph.empty User1 User2 := by
  have hn := (List.nodup_append.1 hnd).1
  have hen := (List.nodup_append.1 hnd).2.1
  have hdisj := (List.nodup_append.1 hnd).2.2
  have hcm : c ∈ graph.nodes := by
    rcases hc with h | h
    · rw [h]; exact hs
    · rw [h]; exact hd
  have hs1 : (s.serializeOut graph user1 user2).serializer = s.generateObjectIdMap graph := by
    simp only [ProtoSerializer.serializeOut, hmap, if_true]
  have hsz := ProtoSerializer.generateObjectIdMap_nonempty s graph
    (Or.inl (List.ne_nil_of_mem hs))
  obtain ⟨ids, hids, hids1⟩ := ProtoSerializer.generateObjectIdMap_node_id s graph hnd
    src.addr (List.mem_map_of_mem _ hs)
  obtain ⟨idd, hidd, hidd1⟩ := ProtoSerializer.generateObjectIdMap_node_id s graph hnd
    dst.addr (List.mem_map_of_mem _ hd)
  have hlocks : graph.lockNode e.src = some src := by
    rw [hsrc]
    exact find?_of_nodup_key graph.nodes (fun n => n.addr) hn src hs
  have hlockd : graph.lockNode e.dst = some dst := by
    rw [hdst]
    exact find?_of_nodup_key graph.nodes (fun n => n.addr) hn dst hd
  have hrec := serializeOutEdges_default_record (s.generateObjectIdMap graph) graph
    (s.generateObjectIdMap graph).objectIdMap e src dst ids idd hEreg hen he hlocks hlockd
    hids hidd hids1 hidd1
  obtain ⟨pre, post, hsplit⟩ := List.append_of_mem hrec
  obtain ⟨M, hM, hMn, hMe⟩ : ∃ M, (s.serializeOut graph user1 user2).os = .message M ∧
      M.nodes = ((s.generateObjectIdMap graph).serializeOutNodes graph
        (s.generateObjectIdMap graph).objectIdMap graph.nodes).1 ∧
      M.edges = ((s.generateObjectIdMap graph).serializeOutEdges graph
        (s.generateObjectIdMap graph).objectIdMap graph.edges).1 :=
    ⟨_, rfl, by simp only [hmap, if_true], by simp only [hmap, if_true]⟩
  obtain ⟨idc, hidc, hridc⟩ : ∃ idc,
      StdMap.find (s.generateObjectIdMap graph).objectIdMap c.addr = some idc ∧
      (ids = idc ∨ idd = idc) := by
    rcases hc with h | h
    · exact ⟨ids, by rw [h]; exact hids, Or.inl rfl⟩
    · exact ⟨idd, by rw [h]; exact hidd, Or.inr rfl⟩
  have hnodes : ∀ q, pb.Any.node q ∈ M.nodes → q.node_id ≠ idc := by
    intro q hq hqc
    rw [hMn] at hq
    obtain ⟨n, hnm, hser, q2, hq2, hid2⟩ := serializeOutNodes_default_mem
      (s.generateObjectIdMap graph) graph _ hsz hNout _ hq
    have hqq : q = q2 := pb.Any.node.inj hq2
    obtain ⟨idn, hidn, _⟩ := ProtoSerializer.generateObjectIdMap_node_id s graph hnd
      n.addr (List.mem_map_of_mem _ hnm)
    rw [hidn] at hid2
    have hidn2 : StdMap.find (s.generateObjectIdMap graph).objectIdMap n.addr = some idc := by
      rw [hidn, ← hqc, hqq, hid2]
    have haddr := ProtoSerializer.generateObjectIdMap_inj s graph hnd n.addr c.addr idc
      hidn2 hidc
    have h1 := find?_of_nodup_key graph.nodes (fun n => n.addr) hn n hnm
    have h2 := find?_of_nodup_key graph.nodes (fun n => n.addr) hn c hcm
    simp only at h1 h2
    have h3 : List.find? (fun y : GenNode C => decide (y.addr = n.addr)) graph.nodes =
        List.find? (fun y => decide (y.addr = c.addr)) graph.nodes := by rw [haddr]
    rw [h1, h2] at h3
    have hnc : n = c := Option.some.inj h3
    rw [hnc, hcs] at hser
    exact absurd hser (by decide)
  have hpre : ∀ r2, pb.Any.edge r2 ∈ pre → r2.edge_id ≠ idc := by
    intro r2 hr2 hrc
    have hmem : pb.Any.edge r2 ∈ ((s.generateObjectIdMap graph).serializeOutEdges graph
        (s.generateObjectIdMap graph).objectIdMap graph.edges).1 := by
      rw [hsplit]
      exact List.mem_append_left _ hr2
    rcases serializeOutEdges_default_mem (s.generateObjectIdMap graph) graph _ hEout _ hmem
      with h | ⟨e2, he2, r3, hr3, hid3⟩
    · cases h
    · have hrr : r2 = r3 := pb.Any.edge.inj hr3
      obtain ⟨ide, hide⟩ := ProtoSerializer.generateObjectIdMap_edge_id s graph hnd e2.addr
        (List.mem_map_of_mem _ he2)
      rw [hide] at hid3
      have hide2 : StdMap.find (s.generateObjectIdMap graph).objectIdMap e2.addr =
          some idc := by
        rw [hide, ← hrc, hrr, hid3]
        rfl
      have haddr := ProtoSerializer.generateObjectIdMap_inj s graph hnd e2.addr c.addr idc
        hide2 hidc
      have hce : c.addr ∈ graph.edges.map (fun e => e.addr) := by
        rw [← haddr]
        exact List.mem_map_of_mem (fun e : GenEdge C => e.addr) he2
      exact hdisj (List.mem_map_of_mem (fun n : GenNode C => n.addr) hcm) hce
  refine ⟨M, idc, _, pre, post, hM, by rw [hs1]; exact hidc, hMe.trans hsplit,
    by rw [hs1]; exact hids, by rw [hs1]; exact hidd, hridc, hnodes, ?_⟩
  rw [hs1]
  have hNin1 : (s.generateObjectIdMap graph).nodeInFunctors =
      [defaultNodeInFunctor nodeName] := hNin
  have hEin1 : (s.generateObjectIdMap graph).edgeInFunctors =
      [defaultEdgeInFunctor edgeName] := hEin
  have hkeys := serializeInPhase_nodes_keys nodeName M.nodes (GenGraph.empty : GenGraph C)
    [] 0 idc
  simp only [ProtoSerializer.serializeIn, ParseFromIstream, hNin1, hEin1, hMe.trans hsplit]
  generalize ProtoSerializer.serializeInPhase
    (ProtoSerializer.runNodeInFunctors [defaultNodeInFunctor nodeName]) M.nodes
    (GenGraph.empty : GenGraph C) [] 0 = ph at hkeys
  obtain ⟨⟨g1, m1, n1⟩, o⟩ := ph
  cases o with
  | some ex => rfl
  | none =>
    have hm1 : idc ∉ m1.map Prod.fst := by
      intro h
      rcases hkeys h with h0 | ⟨q, hq, hk⟩
      · simp at h0
      · exact hnodes q hq hk.symm
    dsimp only
    rw [serializeInPhase_edge_skip edgeName _ idc hridc pre post hpre g1 m1 0 hm1]

/-- The encoders a new serializer holds are the default ones. -/
theorem defaultSerializer_outFunctors :
    (∀ name f, StdMap.find defaultSerializer.nodeOutFunctors name = some f →
      f = defaultNodeOutFunctor) ∧
    (∀ name f, StdMap.find defaultSerializer.edgeOutFunctors name = some f →
      f = defaultEdgeOutFunctor) ∧
    (∀ name f, StdMap.find defaultSerializer.groupOutFunctors name = some f →
      f = defaultGroupOutFunctor) := by
  refine ⟨?_, ?_, ?_⟩
  · intro name f h
    have h1 : defaultSerializer.nodeOutFunctors = [("gtpo::Node", defaultNodeOutFunctor)] :=
      rfl
    rw [h1] at h
    simp only [StdMap.find] at h
    split at h
    · exact (Option.some.inj h).symm
    · exact absurd h (by simp)
  · intro name f h
    have h1 : defaultSerializer.edgeOutFunctors = [("gtpo::Edge", defaultEdgeOutFunctor)] :=
      rfl
    rw [h1] at h
    simp only [StdMap.find] at h
    split at h
    · exact (Option.some.inj h).symm
    · exact absurd h (by simp)
  · intro name f h
    have h1 : defaultSerializer.groupOutFunctors =
        [("gtpo::Group", defaultGroupOutFunctor)] := rfl
    rw [h1] at h
    simp only [StdMap.find] at h
    split at h
    · exact (Option.some.inj h).symm
    · exact absurd h (by simp)

/-- Witness: `controlEdgeGraph`, whose edge 1 -> 2 ends at a control node.  The message holds
the record of node 1 only and an edge record naming the ids 1 and 2; decoded into a fresh
graph it gives one node and no edge. -/
theorem serializeOut_edge_of_control_node_witness :
    (∃ M idc r pre post,
      (defaultSerializer.serializeOut controlEdgeGraph none none).os = .message M ∧
      StdMap.find (defaultSerializer.serializeOut controlEdgeGraph none
        none).serializer.objectIdMap controlDestinationNode.addr = some idc ∧
      M.edges = pre ++ pb.Any.edge r :: post ∧
      StdMap.find (defaultSerializer.serializeOut controlEdgeGraph none
        none).serializer.objectIdMap sourceNode.addr = some r.src_node_id ∧
      StdMap.find (defaultSerializer.serializeOut controlEdgeGraph none
        none).serializer.objectIdMap controlDestinationNode.addr = some r.dst_node_id ∧
      (r.src_node_id = idc ∨ r.dst_node_id = idc) ∧
      (∀ q, pb.Any.node q ∈ M.nodes → q.node_id ≠ idc) ∧
      (defaultSerializer.serializeOut controlEdgeGraph none none).serializer.serializeIn
          (.message M) GenGraph.empty "" "" =
        (defaultSerializer.serializeOut controlEdgeGraph none none).serializer.serializeIn
          (.message { M with edges := pre ++ post }) GenGraph.empty "" "") ∧
    (ParseFromIstream (defaultSerializer.serializeOut controlEdgeGraph none none).os).map
      (fun m => (m.nodes, m.edges)) =
      some ([.node { label := "", x := 0, y := 0, width := 0, height := 0, node_id := 1 }],
            [.edge { edge_id := 3, src_node_id := 1, dst_node_id := 2, weight := 0 }]) ∧
    (defaultSerializer.roundTrip controlEdgeGraph none none "" "").graph.getNodeCount = 1 ∧
    (defaultSerializer.roundTrip controlEdgeGraph none none "" "").graph.getEdgeCount = 0 :=
  ⟨serializeOut_edge_of_control_node defaultSerializer controlEdgeGraph firstEdge
      controlDestinationNode sourceNode controlDestinationNode none none "" "" "gtpo::Node"
      "gtpo::Edge" rfl defaultSerializer_outFunctors.1 defaultSerializer_outFunctors.2.1 rfl
      rfl rfl (by decide) (List.Mem.head _) (List.Mem.head _)
      (List.Mem.tail _ (List.Mem.head _)) rfl rfl (Or.inr rfl) rfl,
    by decide, by decide, by decide⟩

/-- The fixture graph `adoptedGraph` is built from the empty graph by five operations, one of
them an `insertNode` of a node without in edge. -/
theorem adoptedGraph_reachable : ReachableBy GenNode.Rootless Unconstrained adoptedGraph :=
  ReachableBy.createEdge (some 1) (some 7)
    (ReachableBy.insertNode (some looseNode) (fun _ hn => by cases hn; rfl)
      (ReachableBy.createEdge (some 1) (some 2)
        (ReachableBy.createNode (ReachableBy.createNode ReachableBy.empty))))

/-- Witness: the root cache theorem at `adoptedGraph`, where a node constructed outside the
graph was adopted and then became the destination of an edge: node 1 is the only root. -/
theorem rootless_inserts_root_cache_iff_in_degree_zero_witness :
    ReachableBy GenNode.Rootless Unconstrained adoptedGraph ∧
    ((∀ n ∈ adoptedGraph.nodes, (n.addr ∈ adoptedGraph.rootNodes ↔ n.getInDegree = 0)) ∧
    (∀ n ∈ adoptedGraph.nodes,
      adoptedGraph.isRootNode (some n.addr) = .ok (decide (n.getInDegree = 0))) ∧
    adoptedGraph.getRootNodeCount =
      (adoptedGraph.nodes.filter (fun n => decide (n.getInDegree = 0))).length) ∧
    adoptedGraph.nodes.map (fun n => (n.addr, n.inEdges)) = [(1, []), (2, [3]), (7, [8])] ∧
    adoptedGraph.rootNodes = [1] :=
  ⟨adoptedGraph_reachable, rootless_inserts_root_cache_iff_in_degree_zero adoptedGraph_reachable,
    by decide, by decide⟩

/-- C2 counterexample: `adoptingGraph` is reached from the empty graph by one `insertNode`, of
a node that arrives with one in edge; the node is in the root node cache although its
in-degree is 1, `isRootNode` raises the topology error and `getRootNodeCount()` is 1 while no
node has in-degree 0. -/
theorem insertNode_roots_node_with_in_edge :
    Reachable adoptingGraph ∧
    adoptingGraph.nodes.map (fun n => (n.addr, n.inEdges)) = [(2, [3])] ∧
    adoptingGraph.rootNodes = [2] ∧
    ¬ (∀ n ∈ adoptingGraph.nodes, (n.addr ∈ adoptingGraph.rootNodes ↔ n.getInDegree = 0)) ∧
    adoptingGraph.isRootNode (some 2) = .error .bad_topology_error ∧
    adoptingGraph.getRootNodeCount = 1 ∧
    (adoptingGraph.nodes.filter (fun n => decide (n.getInDegree = 0))).length = 0 := by
  refine ⟨Reachable.insertNode (some destinationNode) Reachable.empty, by decide, by decide, ?_,
    rfl, by decide, by decide⟩
  intro h
  have h1 := (h destinationNode (List.Mem.head _)).1 (List.Mem.head _)
  exact absurd h1 (by decide)

/-- C5 (amended): in every graph state reachable by the operations of `GenGraph` and
`GenGroup`, for every node `n` of the graph that no group lists as a member except the group
its group reference names, `removeNode(n)` returns normally and afterwards `containsNode(n)`
is false, `n` is in neither the node collection nor the root node cache nor the member set of
any group, and no edge left in the graph has `n` as its source or destination. -/
theorem reachable_removeNode_unwinds_everything {g : GenGraph C} (hr : Reachable g)
    (weakNode : WeakNode) (n : GenNode C) (hn : g.memberNode weakNode = some n)
    (hgrp : ∀ x ∈ g.groups, n.addr ∈ x.nodes → n.group = some x.addr) :
    (g.removeNode weakNode).2 = .ok () ∧
    (g.removeNode weakNode).1.containsNode weakNode = false ∧
    (∀ m ∈ (g.removeNode weakNode).1.nodes, m.addr ≠ n.addr) ∧
    n.addr ∉ (g.removeNode weakNode).1.rootNodes ∧
    (∀ x ∈ (g.removeNode weakNode).1.groups, n.addr ∉ x.nodes) ∧
    (∀ e ∈ (g.removeNode weakNode).1.edges, e.src ≠ some n.addr ∧ e.dst ≠ some n.addr) :=
  GenGraph.removeNode_unwinds g weakNode n hn
    (fun e he => hr.linked.reg e he n (GenGraph.memberNode_some hn).1) hgrp

/-- Witness: node 1 of the reachable graph `groupedGraph`, which has an out edge and is a
member of the one group its group reference names, is removed. -/
theorem reachable_removeNode_unwinds_everything_witness :
    Reachable groupedGraph ∧
    groupedGraph.memberNode (some 1) = some groupedNode ∧
    (∀ x ∈ groupedGraph.groups, groupedNode.addr ∈ x.nodes → groupedNode.group = some x.addr) ∧
    ((groupedGraph.removeNode (some 1)).2 = .ok () ∧
    (groupedGraph.removeNode (some 1)).1.containsNode (some 1) = false ∧
    (∀ m ∈ (groupedGraph.removeNode (some 1)).1.nodes, m.addr ≠ groupedNode.addr) ∧
    groupedNode.addr ∉ (groupedGraph.removeNode (some 1)).1.rootNodes ∧
    (∀ x ∈ (groupedGraph.removeNode (some 1)).1.groups, groupedNode.addr ∉ x.nodes) ∧
    (∀ e ∈ (groupedGraph.removeNode (some 1)).1.edges,
      e.src ≠ some groupedNode.addr ∧ e.dst ≠ some groupedNode.addr)) :=
  ⟨groupedGraph_reachable, rfl, by decide,
    reachable_removeNode_unwinds_everything groupedGraph_reachable (some 1) groupedNode rfl
      (by decide)⟩

/-- C5 counterexample: `twoGroupsGraph` is reached from the empty graph by `createNode`,
`createNode`, `createEdge`, `createGroup`, `GenGroup::insertNode`, `createGroup` and
`GenGroup::insertNode`; node 1 is a member of the groups 4 and 5, and after `removeNode` of
node 1 the member set of group 4 still holds it. -/
theorem removeNode_leaves_node_in_former_group :
    Reachable twoGroupsGraph ∧
    twoGroupsGraph.memberNode (some 1) = some regroupedNode ∧
    twoGroupsGraph.groups.map (fun x => (x.addr, x.nodes)) = [(4, [1]), (5, [1])] ∧
    (twoGroupsGraph.removeNode (some 1)).2 = .ok () ∧
    (twoGroupsGraph.removeNode (some 1)).1.groups.map (fun x => (x.addr, x.nodes)) =
      [(4, [1]), (5, [])] ∧
    ¬ (∀ x ∈ (twoGroupsGraph.removeNode (some 1)).1.groups, regroupedNode.addr ∉ x.nodes) := by
  refine ⟨Reachable.groupInsertNode (some 5) (some 1)
    (Reachable.createGroup groupedGraph_reachable), rfl, by decide, rfl, by decide, ?_⟩
  intro h
  have h1 : ((twoGroupsGraph.removeNode (some 1)).1.groups.map (fun x => x.nodes)) =
      [[1], []] := by decide
  cases hg : (twoGroupsGraph.removeNode (some 1)).1.groups with
  | nil => rw [hg] at h1; cases h1
  | cons x rest =>
    rw [hg] at h1 h
    have h2 : x.nodes = [1] := (List.cons.inj h1).1
    exact h x (List.Mem.head _) (by rw [h2]; exact List.Mem.head _)

/-- C17 (amended): in every graph state reachable by the operations of `GenGraph` and
`GenGroup`, for nodes `src` and `dst` of the graph joined by k >= 1 parallel edges, where the
out edge list of `src` names only edges of the graph that leave `src`, each of them once:
`getEdgeCount( src, dst )` is k, `removeEdge( src, dst )` returns normally and leaves exactly
k-1 edges from `src` to `dst`, `removeAllEdges( src, dst )` returns normally and leaves none;
after each call `getEdgeCount( src, dst )` reports the new number and every edge of another
ordered pair of nodes is still in the graph. -/
theorem reachable_removeEdge_removeAllEdges_parallel {g : GenGraph C} (hr : Reachable g)
    (sa da : Addr) (s d : GenNode C)
    (hs : g.memberNode (some sa) = some s) (hd : g.memberNode (some da) = some d)
    (hout : s.outEdges.Nodup)
    (hown : ∀ ea ∈ s.outEdges, ∃ e ∈ g.edges, e.addr = ea ∧ e.src = some sa)
    (hk : 1 ≤ (g.parallelEdges (some sa) (some da)).length) :
    g.getEdgeCountBetween (some sa) (some da) =
      (g.parallelEdges (some sa) (some da)).length ∧
    (g.removeEdgeBetween (some sa) (some da)).2 = .ok () ∧
    ((g.removeEdgeBetween (some sa) (some da)).1.parallelEdges (some sa) (some da)).length =
      (g.parallelEdges (some sa) (some da)).length - 1 ∧
    (g.removeEdgeBetween (some sa) (some da)).1.getEdgeCountBetween (some sa) (some da) =
      (g.parallelEdges (some sa) (some da)).length - 1 ∧
    (∀ e ∈ g.edges, ¬ (e.src = some sa ∧ e.dst = some da) →
      e ∈ (g.removeEdgeBetween (some sa) (some da)).1.edges) ∧
    (g.removeAllEdges (some sa) (some da)).2 = .ok () ∧
    (g.removeAllEdges (some sa) (some da)).1.parallelEdges (some sa) (some da) = [] ∧
    (g.removeAllEdges (some sa) (some da)).1.getEdgeCountBetween (some sa) (some da) = 0 ∧
    (∀ e ∈ g.edges, ¬ (e.src = some sa ∧ e.dst = some da) →
      e ∈ (g.removeAllEdges (some sa) (some da)).1.edges) := by
  have hsm := GenGraph.memberNode_some hs
  have hdm := GenGraph.memberNode_some hd
  have hL := hr.linked
  refine GenGraph.removeEdges_between_owned g sa da s d hs hd hL.edgeNodup hout hown ?_ hk
  intro e he
  constructor
  · intro h1
    exact (hL.reg e he s hsm.1).1 (h1.trans hsm.2.1)
  · intro h1
    exact (hL.reg e he d hdm.1).2 (h1.trans hdm.2.1)

/-- The fixture graph `parallelGraph` is built by five operations from the empty graph. -/
theorem parallelGraph_reachable : Reachable parallelGraph :=
  Reachable.createEdge (some 2) (some 1)
    (Reachable.createEdge (some 1) (some 2) twoNodesOneEdge_reachable)

/-- Witness: the reachable graph `parallelGraph`, where two edges go from node 1 to node 2 and
one edge goes back. -/
theorem reachable_removeEdge_removeAllEdges_parallel_witness :
    Reachable parallelGraph ∧
    parallelGraph.memberNode (some 1) = some parallelSourceNode ∧
    parallelGraph.memberNode (some 2) = some parallelDestinationNode ∧
    parallelSourceNode.outEdges.Nodup ∧
    (∀ ea ∈ parallelSourceNode.outEdges,
      ∃ e ∈ parallelGraph.edges, e.addr = ea ∧ e.src = some 1) ∧
    (parallelGraph.parallelEdges (some 1) (some 2)).length = 2 ∧
    (parallelGraph.removeEdgeBetween (some 1) (some 2)).1.getEdgeCountBetween (some 1)
      (some 2) = 2 - 1 ∧
    (parallelGraph.removeAllEdges (some 1) (some 2)).1.getEdgeCountBetween (some 1)
      (some 2) = 0 ∧
    (parallelGraph.removeAllEdges (some 1) (some 2)).1.getEdgeCountBetween (some 2)
      (some 1) = 1 :=
  ⟨parallelGraph_reachable, rfl, rfl, by decide, by decide, by decide,
    (reachable_removeEdge_removeAllEdges_parallel parallelGraph_reachable 1 2
      parallelSourceNode parallelDestinationNode rfl rfl (by decide) (by decide)
      (by decide)).2.2.2.1,
    (reachable_removeEdge_removeAllEdges_parallel parallelGraph_reachable 1 2
      parallelSourceNode parallelDestinationNode rfl rfl (by decide) (by decide)
      (by decide)).2.2.2.2.2.2.2.1,
    by decide⟩

/-- C17 counterexample: `staleGraph` is reached from the empty graph by `createNode`,
`createNode`, `createEdge`, `insertNode` of a node whose out edge list names the edge
1 -> 2, and `createEdge` from that node 7 to node 2.  One edge goes from node 7 to node 2, yet
`getEdgeCount( 7, 2 )` is 2; `removeEdge( 7, 2 )` returns normally, removes the edge 1 -> 2 and
leaves the edge 7 -> 2 in the graph, and `removeAllEdges( 7, 2 )` removes the edge 1 -> 2
too. -/
theorem removeEdge_follows_stale_out_edge :
    Reachable staleGraph ∧
    staleGraph.memberNode (some 7) = some staleSourceNode ∧
    staleGraph.edges.map (fun e => (e.addr, e.src, e.dst)) =
      [(3, some 1, some 2), (8, some 7, some 2)] ∧
    (staleGraph.parallelEdges (some 7) (some 2)).length = 1 ∧
    staleGraph.getEdgeCountBetween (some 7) (some 2) = 2 ∧
    (staleGraph.removeEdgeBetween (some 7) (some 2)).2 = .ok () ∧
    (staleGraph.removeEdgeBetween (some 7) (some 2)).1.edges.map
      (fun e => (e.addr, e.src, e.dst)) = [(8, some 7, some 2)] ∧
    ((staleGraph.removeEdgeBetween (some 7) (some 2)).1.parallelEdges (some 7)
      (some 2)).length = 1 ∧
    (staleGraph.removeAllEdges (some 7) (some 2)).2 = .ok () ∧
    (staleGraph.removeAllEdges (some 7) (some 2)).1.edges.map
      (fun e => (e.addr, e.src, e.dst)) = [] :=
  ⟨Reachable.createEdge (some 7) (some 2)
    (Reachable.insertNode (some staleNode) twoNodesOneEdge_reachable), rfl, by decide,
    by decide, by decide, rfl, by decide, by decide, rfl, by decide⟩

end gtpo
